import Mathlib

/-! # iCE40 packer (`ice40/pack.cc`): shallow embedding and verified properties

The packer rewrites a netlist of LUTs, flip-flops and constant drivers into
`ICESTORM_LC` logic cells in three passes: `pack_constants`, `pack_lut_lutffs`
and `pack_nonlut_ffs`, run once each by `pack_design`.

Representation.  `Design::cells` and `Design::nets` are maps from a name to an
object that carries the same name, so a map is a list of objects looked up by
their `name` field.  A C++ pointer to a cell or a net is represented by the
name of the object it points to, and is resolved among the objects in memory:
the objects on the two maps and, after a pass has erased objects from the
maps, the erased objects too (`pack_design_in`).  A name that no object in
memory carries stands for no C++ pointer; the embedding reports it as a fatal
error instead of guessing an object.  The iteration order of an unordered map
is the order of the list.

Collaborators.  The classifiers `is_lut` and `is_ff` of `cells.h` are
parameters of the passes.  `create_ice_cell`, `lut_to_lc`, `dff_to_lc` and
`net_only_drives` are defined outside `ice40/pack.cc` and are modelled from
the specification; the two configuration transforms are recorded as calls on
the target cell, and are parameters of the scans where a property depends on
what they write to the attributes.  A pass returns `Except.error` where the run
is fatal.
-/

namespace Pack

/-- The fatal consistency errors of a packing run. -/
inductive PackError where
  | nameCollision (name : String)
  | danglingReference (name : String)
  | missingPort (cell : String) (port : String)
deriving DecidableEq, Repr

deriving instance DecidableEq for Except

/-- A `PortRef`: the cell (by name) and the port name of one end of a net. -/
structure PortRef where
  cell : String
  port : String
deriving DecidableEq, Repr

/-- A net: `driver` is `none` when `driver.cell == nullptr`. -/
structure NetInfo where
  name : String
  driver : Option PortRef
  users : List PortRef
deriving DecidableEq, Repr

/-- A port of a cell; `net` is `none` for a null net pointer. -/
structure PortInfo where
  name : String
  net : Option String
deriving DecidableEq, Repr

/-- Which configuration transform was applied to a logic cell. -/
inductive ConfigKind where
  | lut
  | dff
deriving DecidableEq, Repr

/-- One call of a configuration transform on a target cell: the transform, the
source cell and the value of its boolean flag (`no_dff` / `pass_as_lut`). -/
structure ConfigCall where
  kind : ConfigKind
  source : String
  standalone : Bool
deriving DecidableEq, Repr

/-- A cell.  `attrs` is the attribute map (earlier entries shadow later ones
with the same key); `config` lists the configuration transforms applied to the
cell, oldest first. -/
structure CellInfo where
  name : String
  type : String
  ports : List PortInfo
  attrs : List (String × String)
  config : List ConfigCall
deriving DecidableEq, Repr

/-- The design: the cell map and the net map. -/
structure Design where
  cells : List CellInfo
  nets : List NetInfo
deriving DecidableEq, Repr

/-! ## Map operations -/

/-- The `attrs.find(key)` lookup. -/
def attrs_find : List (String × String) → String → Option String
  | [], _ => none
  | kv :: rest, key => if kv.1 = key then some kv.2 else attrs_find rest key

/-- The `attrs[key] = value` assignment: any old entry is replaced. -/
def attrs_set (attrs : List (String × String)) (key value : String) : List (String × String) :=
  attrs.filter (fun kv => !decide (kv.1 = key)) ++ [(key, value)]

/-- The `attrs.insert` of `std::inserter`: an existing key keeps its value. -/
def attrs_insert (attrs : List (String × String)) (kv : String × String) : List (String × String) :=
  if (attrs_find attrs kv.1).isSome then attrs else attrs ++ [kv]

/-- The `std::copy(src.begin(), src.end(), std::inserter(dst, dst.begin()))` of
an attribute map into another. -/
def attrs_copy (src dst : List (String × String)) : List (String × String) :=
  src.foldl attrs_insert dst

/-- The `cells.find(name)` lookup. -/
def cells_find : List CellInfo → String → Option CellInfo
  | [], _ => none
  | c :: rest, name => if c.name = name then some c else cells_find rest name

/-- The `cells.erase(name)` removal. -/
def cells_erase (cells : List CellInfo) (name : String) : List CellInfo :=
  cells.filter (fun c => !decide (c.name = name))

/-- The `cells[c->name] = c` assignment: any old entry is replaced. -/
def cells_set (cells : List CellInfo) (c : CellInfo) : List CellInfo :=
  cells_erase cells c.name ++ [c]

/-- The `nets.find(name)` lookup. -/
def nets_find : List NetInfo → String → Option NetInfo
  | [], _ => none
  | n :: rest, name => if n.name = name then some n else nets_find rest name

/-- The `nets.erase(name)` removal. -/
def nets_erase (nets : List NetInfo) (name : String) : List NetInfo :=
  nets.filter (fun n => !decide (n.name = name))

/-- The `ports.at(name)` access, which throws when the port is missing. -/
def ports_at (ci : CellInfo) (port : String) : Except PackError PortInfo :=
  match ci.ports.find? (fun p => decide (p.name = port)) with
  | some p => .ok p
  | none => .error (.missingPort ci.name port)

/-- Dereference of a cell pointer, resolved by name among the objects
`design`: the cell map, followed by the erased cells where a pass is run with
them (`followed_by`).  A name that none of them carries stands for no pointer
of the program and is reported as a dangling reference. -/
def resolve_cell (design : Design) (name : String) : Except PackError CellInfo :=
  match cells_find design.cells name with
  | some c => .ok c
  | none => .error (.danglingReference name)

/-- Dereference of a net pointer, resolved by name among the objects `design`
like a cell pointer; a null pointer stays null. -/
def resolve_net (design : Design) : Option String → Except PackError (Option NetInfo)
  | none => .ok none
  | some name =>
    match nets_find design.nets name with
    | some n => .ok (some n)
    | none => .error (.danglingReference name)

/-- Dereference of the cell pointers of a list of net users. -/
def resolve_users (design : Design) : List PortRef → Except PackError (List CellInfo)
  | [] => .ok []
  | u :: rest =>
    match resolve_cell design u.cell with
    | .error e => .error e
    | .ok c =>
      match resolve_users design rest with
      | .error e => .error e
      | .ok cs => .ok (c :: cs)

/-! ## Collaborators declared in `cells.h` and `design_utils.h` -/

/-- Modelled from the spec: `create_ice_cell` is declared in `cells.h` and
defined outside `ice40/pack.cc`.  "Creation collaborator:
create_primitive(graph, archetype, name) -> Cell; fails fatally on name
collision."  The new cell has the given name and type, no attributes, and is
not registered in the design (the passes register it themselves). -/
def create_ice_cell (design : Design) (type name : String) : Except PackError CellInfo :=
  if (cells_find design.cells name).isSome then .error (.nameCollision name)
  else .ok { name := name, type := type, ports := [], attrs := [], config := [] }

/-- Modelled from the spec: `lut_to_lc` is declared in `cells.h` and defined
outside `ice40/pack.cc`.  "project_lut_config(source, target, standalone): copy
wiring/configuration from a source cell onto a fused target; opaque to this
core beyond input/output contract."  The call is recorded on the target, with
its source and its flag; the attributes of the target are left as they are.
Properties that depend on what a transform writes to the attributes take the
transforms as parameters (`pack_lut_lutffs_scan_by`). -/
def lut_to_lc (lut lc : CellInfo) (no_dff : Bool) : CellInfo :=
  { lc with config := lc.config ++ [{ kind := .lut, source := lut.name, standalone := no_dff }] }

/-- Modelled from the spec: `dff_to_lc` is declared in `cells.h` and defined
outside `ice40/pack.cc`.  "project_ff_config(source, target, standalone)",
recorded on the target like `lut_to_lc`. -/
def dff_to_lc (dff lc : CellInfo) (pass_as_lut : Bool) : CellInfo :=
  { lc with config := lc.config ++ [{ kind := .dff, source := dff.name, standalone := pass_as_lut }] }

/-- Modelled from the spec: `net_only_drives` is declared in `design_utils.h`
and defined outside `ice40/pack.cc`.  "Returns the unique sink cell satisfying the
predicate on that port iff the net has a driver, exactly one sink matches both
port name and predicate, and, when exclusivity is required, that sink is the
net's only sink of any kind.  Zero or multiple qualifying sinks, or exclusivity
failure, yields no match."  A null net has no match. -/
def net_only_drives (design : Design) (net : Option NetInfo) (cell_pred : CellInfo → Bool)
    (port : String) (exclusive : Bool) : Except PackError (Option CellInfo) :=
  match net with
  | none => .ok none
  | some n =>
    if n.driver.isNone then .ok none
    else
      match resolve_users design (n.users.filter (fun u => decide (u.port = port))) with
      | .error e => .error e
      | .ok cands =>
        match cands.filter cell_pred with
        | [c] => if exclusive && decide (n.users.length ≠ 1) then .ok none else .ok (some c)
        | _ => .ok none

/-! ## `pack_lut_lutffs` -/

/-- The locals of a scan of the cells, with the design as it stands. -/
structure ScanState where
  design : Design
  packed_cells : List String
  new_cells : List CellInfo
deriving DecidableEq, Repr

/-- Lines 50 to 59 of the loop body of `pack_lut_lutffs`: the flip-flop that
the LUT `ci` can be packed with, and the net `o` between them; `none` when no
flip-flop is attached or when the locations do not match (`packed_dff` stays
false).  `entry` is the design on entry to the pass, where pointers are
resolved. -/
def find_dff (is_ff : CellInfo → Bool) (entry : Design) (ci : CellInfo) :
    Except PackError (Option (NetInfo × CellInfo)) :=
  match ports_at ci "O" with
  | .error e => .error e
  | .ok oport =>
    match resolve_net entry oport.net with
    | .error e => .error e
    | .ok o =>
      match net_only_drives entry o is_ff "D" true with
      | .error e => .error e
      | .ok dffopt =>
        match o, dffopt with
        | some onet, some dff =>
          let lut_bel := attrs_find ci.attrs "BEL"
          let dff_bel := attrs_find dff.attrs "BEL"
          if lut_bel.isSome && dff_bel.isSome && decide (lut_bel ≠ dff_bel) then
            -- Locations don't match, can't pack
            .ok none
          else .ok (some (onet, dff))
        | _, _ => .ok none

/-- Lines 61 to 73 of the loop body of `pack_lut_lutffs`: the configuration of
the new cell `packed` from the LUT `ci`, alone or with the flip-flop found. -/
def packed_lut (ci packed : CellInfo) : Option (NetInfo × CellInfo) → CellInfo
  | some (_, dff) =>
    let packed2 := dff_to_lc dff (lut_to_lc ci packed false) false
    match attrs_find dff.attrs "BEL" with
    | some v => { packed2 with attrs := attrs_set packed2.attrs "BEL" v }
    | none => packed2
  | none => lut_to_lc ci packed true

/-- The state after the loop body of `pack_lut_lutffs` for the LUT `ci`, given
the new cell and the flip-flop found: the net between a packed pair is erased
from the design, the packed cells are noted, the new cell is queued. -/
def note_lut (st : ScanState) (ci packed : CellInfo) :
    Option (NetInfo × CellInfo) → ScanState
  | some (o, dff) =>
    { design := { st.design with nets := nets_erase st.design.nets o.name }
      packed_cells := st.packed_cells ++ [ci.name, dff.name]
      new_cells := st.new_cells ++ [packed_lut ci packed (some (o, dff))] }
  | none =>
    { st with
      packed_cells := st.packed_cells ++ [ci.name]
      new_cells := st.new_cells ++ [packed_lut ci packed none] }

/-- The body of the scan loop of `pack_lut_lutffs` for one cell `ci`.
`entry` is the design on entry to the pass, where pointers are resolved. -/
def pack_lut_lutffs_step (is_lut is_ff : CellInfo → Bool) (entry : Design)
    (st : ScanState) (ci : CellInfo) : Except PackError ScanState :=
  if is_lut ci then
    match create_ice_cell st.design "ICESTORM_LC" (ci.name ++ "_LC") with
    | .error e => .error e
    | .ok packed0 =>
      let packed := { packed0 with attrs := attrs_copy ci.attrs packed0.attrs }
      match find_dff is_ff entry ci with
      | .error e => .error e
      | .ok found => .ok (note_lut st ci packed found)
  else .ok st

/-- The scan loop of `pack_lut_lutffs` over the cells of the design. -/
def pack_lut_lutffs_scan (is_lut is_ff : CellInfo → Bool) (design : Design) :
    Except PackError ScanState :=
  design.cells.foldlM (pack_lut_lutffs_step is_lut is_ff design)
    { design := design, packed_cells := [], new_cells := [] }

/-- The two loops that end a pass: erase the packed cells, register the new. -/
def commit (st : ScanState) : Design :=
  { st.design with
    cells := st.new_cells.foldl cells_set (st.packed_cells.foldl cells_erase st.design.cells) }

/-- Pack LUTs and LUT-FF pairs, on a design whose pointers all lead to objects
on the maps (`pack_lut_lutffs_in` is the run with erased objects). -/
def pack_lut_lutffs (is_lut is_ff : CellInfo → Bool) (design : Design) :
    Except PackError Design :=
  match pack_lut_lutffs_scan is_lut is_ff design with
  | .error e => .error e
  | .ok st => .ok (commit st)

/-! ## `pack_nonlut_ffs` -/

/-- The body of the scan loop of `pack_nonlut_ffs` for one cell `ci`. -/
def pack_nonlut_ffs_step (is_ff : CellInfo → Bool) (st : ScanState) (ci : CellInfo) :
    Except PackError ScanState :=
  if is_ff ci then
    match create_ice_cell st.design "ICESTORM_LC" (ci.name ++ "_DFFLC") with
    | .error e => .error e
    | .ok packed0 =>
      let packed1 := { packed0 with attrs := attrs_copy ci.attrs packed0.attrs }
      .ok { st with
            packed_cells := st.packed_cells ++ [ci.name]
            new_cells := st.new_cells ++ [dff_to_lc ci packed1 true] }
  else .ok st

/-- Pack FFs not packed as LUTFFs. -/
def pack_nonlut_ffs (is_ff : CellInfo → Bool) (design : Design) : Except PackError Design :=
  match design.cells.foldlM (pack_nonlut_ffs_step is_ff)
      { design := design, packed_cells := [], new_cells := [] } with
  | .error e => .error e
  | .ok st => .ok (commit st)

/-! ## `pack_constants` -/

/-- The body of the loop of `pack_constants` for one net `ni`: the net as the
loop leaves it, and the cell map as it leaves it.  `entry` is the design on
entry to the pass, where the driver pointer is resolved. -/
def pack_constants_step (entry : Design) (gnd_cell vcc_cell : CellInfo)
    (cells : List CellInfo) (ni : NetInfo) : Except PackError (NetInfo × List CellInfo) :=
  match ni.driver with
  | none => .ok (ni, cells)
  | some d =>
    match resolve_cell entry d.cell with
    | .error e => .error e
    | .ok dc =>
      if dc.type = "GND" then
        .ok ({ ni with driver := some { cell := gnd_cell.name, port := "O" } },
             cells_set cells gnd_cell)
      else if dc.type = "VCC" then
        .ok ({ ni with driver := some { cell := vcc_cell.name, port := "O" } },
             cells_set cells vcc_cell)
      else .ok (ni, cells)

/-- The loop of `pack_constants` over the nets: each net is rewritten in place,
the cell map is threaded through. -/
def pack_constants_loop (entry : Design) (gnd_cell vcc_cell : CellInfo) :
    List NetInfo → List CellInfo → Except PackError (List NetInfo × List CellInfo)
  | [], cells => .ok ([], cells)
  | ni :: rest, cells =>
    match pack_constants_step entry gnd_cell vcc_cell cells ni with
    | .error e => .error e
    | .ok (ni1, cells1) =>
      match pack_constants_loop entry gnd_cell vcc_cell rest cells1 with
      | .error e => .error e
      | .ok (rest1, cells2) => .ok (ni1 :: rest1, cells2)

/-- Pack constants (simple implementation), on a design whose pointers all lead
to objects on the maps (`pack_constants_in` is the run with erased objects). -/
def pack_constants (design : Design) : Except PackError Design :=
  match create_ice_cell design "ICESTORM_LC" "$PACKER_GND" with
  | .error e => .error e
  | .ok gnd0 =>
    let gnd_cell := { gnd0 with attrs := attrs_set gnd0.attrs "LUT_INIT" "0" }
    match create_ice_cell design "ICESTORM_LC" "$PACKER_VCC" with
    | .error e => .error e
    | .ok vcc0 =>
      let vcc_cell := { vcc0 with attrs := attrs_set vcc0.attrs "LUT_INIT" "1" }
      match pack_constants_loop design gnd_cell vcc_cell design.nets design.cells with
      | .error e => .error e
      | .ok (nets, cells) => .ok { cells := cells, nets := nets }

/-! ## `pack_design` -/

/-- Main pack function, on a design whose pointers all lead to objects on the
maps.  After a run that has erased cells, nets can still point to them: a
further run is `pack_design_in`, with the erased objects. -/
def pack_design (is_lut is_ff : CellInfo → Bool) (design : Design) : Except PackError Design :=
  match pack_constants design with
  | .error e => .error e
  | .ok d1 =>
    match pack_lut_lutffs is_lut is_ff d1 with
    | .error e => .error e
    | .ok d2 => pack_nonlut_ffs is_ff d2

/-! ## Notions used to state the properties -/

/-- The type of the driver cell of a net (`ni->driver.cell->type`), when the
net has a driver and the driver resolves in the design. -/
def driver_type (design : Design) (ni : NetInfo) : Option String :=
  match ni.driver with
  | none => none
  | some d => (cells_find design.cells d.cell).map CellInfo.type

/-- The cell `gnd_cell` of `pack_constants`, as created and configured at the
start of the pass. -/
def gnd_cell : CellInfo :=
  { name := "$PACKER_GND", type := "ICESTORM_LC", ports := [],
    attrs := [("LUT_INIT", "0")], config := [] }

/-- The cell `vcc_cell` of `pack_constants`, as created and configured at the
start of the pass. -/
def vcc_cell : CellInfo :=
  { name := "$PACKER_VCC", type := "ICESTORM_LC", ports := [],
    attrs := [("LUT_INIT", "1")], config := [] }

/-- The net `ni` as the loop of `pack_constants` leaves it, when the loop body
does not fail on it. -/
def rewired (design : Design) (ni : NetInfo) : NetInfo :=
  if driver_type design ni = some "GND" then
    { ni with driver := some { cell := "$PACKER_GND", port := "O" } }
  else if driver_type design ni = some "VCC" then
    { ni with driver := some { cell := "$PACKER_VCC", port := "O" } }
  else ni

/-- The constant cell that the loop body of `pack_constants` registers for the
net `ni`, if any. -/
def registered (design : Design) (ni : NetInfo) : Option CellInfo :=
  if driver_type design ni = some "GND" then some gnd_cell
  else if driver_type design ni = some "VCC" then some vcc_cell
  else none

/-- The cell that a pass creates for the cell `ci`, with the attributes of
`ci` copied onto it: `create_ice_cell` followed by `std::copy`. -/
def new_lc (ci : CellInfo) (suffix : String) : CellInfo :=
  { name := ci.name ++ suffix, type := "ICESTORM_LC", ports := [],
    attrs := attrs_copy ci.attrs [], config := [] }

/-- The flip-flop that `pack_lut_lutffs` packs with the LUT `ci`, and the net
between them, when `find_dff` does not fail. -/
def found_dff (is_ff : CellInfo → Bool) (entry : Design) (ci : CellInfo) :
    Option (NetInfo × CellInfo) :=
  match find_dff is_ff entry ci with
  | .ok found => found
  | .error _ => none

/-- The cell that `pack_lut_lutffs` queues for the LUT `ci`. -/
def lut_new_cell (is_ff : CellInfo → Bool) (entry : Design) (ci : CellInfo) : CellInfo :=
  packed_lut ci (new_lc ci "_LC") (found_dff is_ff entry ci)

/-- The names that `pack_lut_lutffs` notes as packed for the LUT `ci`. -/
def lut_packed_names (is_ff : CellInfo → Bool) (entry : Design) (ci : CellInfo) : List String :=
  match found_dff is_ff entry ci with
  | some (_, dff) => [ci.name, dff.name]
  | none => [ci.name]

/-- The net that `pack_lut_lutffs` erases for the LUT `ci`, if any. -/
def lut_erased_net (is_ff : CellInfo → Bool) (entry : Design) (ci : CellInfo) : Option String :=
  (found_dff is_ff entry ci).map (fun m => m.1.name)

/-- The cell that `pack_nonlut_ffs` queues for the flip-flop `ci`. -/
def ff_new_cell (ci : CellInfo) : CellInfo :=
  dff_to_lc ci (new_lc ci "_DFFLC") true

/-! ## Example designs -/

/-- An example classifier of LUT cells. -/
def ex_is_lut (c : CellInfo) : Bool := decide (c.type = "SB_LUT4")

/-- An example classifier of flip-flop cells. -/
def ex_is_ff (c : CellInfo) : Bool := decide (c.type = "SB_DFF")

/-- The LUT `l0` of scenario A, with truth table "1010". -/
def ex_l0 : CellInfo :=
  { name := "l0", type := "SB_LUT4", ports := [{ name := "O", net := some "n0" }],
    attrs := [("LUT_INIT", "1010")], config := [] }

/-- The flip-flop `f0` of scenario A. -/
def ex_f0 : CellInfo :=
  { name := "f0", type := "SB_DFF", ports := [{ name := "D", net := some "n0" }],
    attrs := [], config := [] }

/-- The net `n0` of scenario A, from `l0` to port `D` of `f0`. -/
def ex_n0 : NetInfo :=
  { name := "n0", driver := some { cell := "l0", port := "O" },
    users := [{ cell := "f0", port := "D" }] }

/-- Scenario A: LUT `l0` drives net `n0`, whose only sink is port `D` of the
flip-flop `f0`; neither cell is placed. -/
def ex_pair : Design :=
  { cells := [ex_l0, ex_f0], nets := [ex_n0] }

/-- Scenario A after `pack_lut_lutffs`, and after `pack_design`: the single
cell `l0_LC`, configured from `l0` and from `f0`, and no net. -/
def ex_pair_packed : Design :=
  { cells := [{ name := "l0_LC", type := "ICESTORM_LC", ports := [],
                attrs := [("LUT_INIT", "1010")],
                config := [{ kind := .lut, source := "l0", standalone := false },
                           { kind := .dff, source := "f0", standalone := false }] }],
    nets := [] }

/-- Scenario C: two nets, each driven by its own `GND` cell. -/
def ex_two_gnd : Design :=
  { cells := [{ name := "g1", type := "GND", ports := [{ name := "Y", net := some "n0" }],
                attrs := [], config := [] },
              { name := "g2", type := "GND", ports := [{ name := "Y", net := some "n1" }],
                attrs := [], config := [] }],
    nets := [{ name := "n0", driver := some { cell := "g1", port := "Y" },
               users := [{ cell := "x", port := "I" }] },
             { name := "n1", driver := some { cell := "g2", port := "Y" },
               users := [{ cell := "y", port := "I" }] }] }

/-- Scenario C after `pack_constants`. -/
def ex_two_gnd_packed : Design :=
  { cells := ex_two_gnd.cells ++ [gnd_cell],
    nets := [{ name := "n0", driver := some { cell := "$PACKER_GND", port := "O" },
               users := [{ cell := "x", port := "I" }] },
             { name := "n1", driver := some { cell := "$PACKER_GND", port := "O" },
               users := [{ cell := "y", port := "I" }] }] }

/-- A design without constant drivers: scenario A, already in the form that
`pack_constants` leaves it. -/
def ex_no_const : Design := ex_pair

/-- The other device cell `x` of scenario B, a second sink of `n0`. -/
def ex_x : CellInfo :=
  { name := "x", type := "SB_IO", ports := [{ name := "I", net := some "n0" }],
    attrs := [], config := [] }

/-- The net `n0` of scenario B: as in scenario A, with a second sink. -/
def ex_n0_fanout : NetInfo :=
  { name := "n0", driver := some { cell := "l0", port := "O" },
    users := [{ cell := "f0", port := "D" }, { cell := "x", port := "I" }] }

/-- Scenario B: as scenario A, but `n0` has a second sink. -/
def ex_fanout : Design :=
  { cells := [ex_l0, ex_f0, ex_x], nets := [ex_n0_fanout] }

/-- Scenario B after `pack_lut_lutffs`. -/
def ex_fanout_luts : Design :=
  { cells := [ex_f0, ex_x, lut_to_lc ex_l0 (new_lc ex_l0 "_LC") true],
    nets := [ex_n0_fanout] }

/-- Scenario B after `pack_design`. -/
def ex_fanout_packed : Design :=
  { cells := [ex_x, lut_to_lc ex_l0 (new_lc ex_l0 "_LC") true, ff_new_cell ex_f0],
    nets := [ex_n0_fanout] }

/-- A second LUT `l1`, whose output net is `n1`. -/
def ex_l1 : CellInfo :=
  { name := "l1", type := "SB_LUT4", ports := [{ name := "O", net := some "n1" }],
    attrs := [], config := [] }

/-- A flip-flop `f0` with its data input on `n1` and its enable input on `n0`. -/
def ex_f0_enable : CellInfo :=
  { name := "f0", type := "SB_DFF",
    ports := [{ name := "D", net := some "n1" }, { name := "E", net := some "n0" }],
    attrs := [], config := [] }

/-- The net `n0` from `l0` to the enable input of `f0`. -/
def ex_n0_enable : NetInfo :=
  { name := "n0", driver := some { cell := "l0", port := "O" },
    users := [{ cell := "f0", port := "E" }] }

/-- The net `n1` from `l1` to the data input of `f0`. -/
def ex_n1 : NetInfo :=
  { name := "n1", driver := some { cell := "l1", port := "O" },
    users := [{ cell := "f0", port := "D" }] }

/-- A design where the LUT `l0` drives the enable input of the flip-flop `f0`
and the LUT `l1` drives its data input. -/
def ex_enable : Design :=
  { cells := [ex_l0, ex_l1, ex_f0_enable], nets := [ex_n0_enable, ex_n1] }

/-- The design `ex_enable` after `pack_design`: `l0_LC` alone, and `l1_LC`
packed with `f0`. -/
def ex_enable_packed : Design :=
  { cells := [lut_to_lc ex_l0 (new_lc ex_l0 "_LC") true,
              dff_to_lc ex_f0_enable (lut_to_lc ex_l1 (new_lc ex_l1 "_LC") false) false],
    nets := [ex_n0_enable] }

/-- A pad `p0` that drives the net `n1`. -/
def ex_p0 : CellInfo :=
  { name := "p0", type := "SB_IO", ports := [{ name := "D_IN_0", net := some "n1" }],
    attrs := [], config := [] }

/-- The net `n1` from the pad `p0` to the data input of `f0`. -/
def ex_n1_pad : NetInfo :=
  { name := "n1", driver := some { cell := "p0", port := "D_IN_0" },
    users := [{ cell := "f0", port := "D" }] }

/-- A design where the LUT `l0` drives the enable input of the flip-flop `f0`
and the pad `p0` drives its data input. -/
def ex_pad_fed : Design :=
  { cells := [ex_l0, ex_f0_enable, ex_p0], nets := [ex_n0_enable, ex_n1_pad] }

/-- The design `ex_pad_fed` after `pack_design`: `l0_LC` alone and `f0_DFFLC`. -/
def ex_pad_fed_packed : Design :=
  { cells := [ex_p0, lut_to_lc ex_l0 (new_lc ex_l0 "_LC") true, ff_new_cell ex_f0_enable],
    nets := [ex_n0_enable, ex_n1_pad] }

/-- The LUT `l0`, placed at `X1/Y1/lc0`. -/
def ex_l0_placed : CellInfo :=
  { name := "l0", type := "SB_LUT4", ports := [{ name := "O", net := some "n0" }],
    attrs := [("LUT_INIT", "1010"), ("BEL", "X1/Y1/lc0")], config := [] }

/-- The flip-flop `f0`, placed at `X2/Y2/lc0`. -/
def ex_f0_placed : CellInfo :=
  { name := "f0", type := "SB_DFF", ports := [{ name := "D", net := some "n0" }],
    attrs := [("BEL", "X2/Y2/lc0")], config := [] }

/-- Scenario A with the two cells placed at different locations. -/
def ex_conflict : Design :=
  { cells := [ex_l0_placed, ex_f0_placed], nets := [ex_n0] }

/-- The design `ex_conflict` after `pack_design`: two logic cells, each at the
location of its source, and the net between them. -/
def ex_conflict_packed : Design :=
  { cells := [lut_to_lc ex_l0_placed (new_lc ex_l0_placed "_LC") true,
              dff_to_lc ex_f0_placed (new_lc ex_f0_placed "_DFFLC") true],
    nets := [ex_n0] }

/-- The flip-flop `f0` of scenario A with an attribute `KEEP`. -/
def ex_f0_keep : CellInfo :=
  { name := "f0", type := "SB_DFF", ports := [{ name := "D", net := some "n0" }],
    attrs := [("KEEP", "1"), ("BEL", "X1/Y1/lc0")], config := [] }

/-- Scenario A where the flip-flop carries the attributes `KEEP` and `BEL`. -/
def ex_pair_keep : Design :=
  { cells := [ex_l0, ex_f0_keep], nets := [ex_n0] }

/-- The cell `l0_LC` that `pack_lut_lutffs` makes of `ex_pair_keep`. -/
def ex_l0_lc_keep : CellInfo :=
  { name := "l0_LC", type := "ICESTORM_LC", ports := [],
    attrs := [("LUT_INIT", "1010"), ("BEL", "X1/Y1/lc0")],
    config := [{ kind := .lut, source := "l0", standalone := false },
               { kind := .dff, source := "f0", standalone := false }] }

/-- A cell that is neither a LUT nor a flip-flop, named `l0_LC`. -/
def ex_io_l0_lc : CellInfo :=
  { name := "l0_LC", type := "SB_IO", ports := [{ name := "I", net := some "n0" }],
    attrs := [], config := [] }

/-- The LUT `l0` next to an unrelated cell named `l0_LC`. -/
def ex_lut_collision : Design :=
  { cells := [ex_l0, ex_io_l0_lc],
    nets := [{ name := "n0", driver := some { cell := "l0", port := "O" },
               users := [{ cell := "l0_LC", port := "I" }] }] }

/-- A cell that is neither a LUT nor a flip-flop, named `f0_DFFLC`. -/
def ex_io_f0_dfflc : CellInfo :=
  { name := "f0_DFFLC", type := "SB_IO", ports := [{ name := "O", net := some "n0" }],
    attrs := [], config := [] }

/-- The flip-flop `f0` next to an unrelated cell named `f0_DFFLC`. -/
def ex_ff_collision : Design :=
  { cells := [ex_f0, ex_io_f0_dfflc],
    nets := [{ name := "n0", driver := some { cell := "f0_DFFLC", port := "O" },
               users := [{ cell := "f0", port := "D" }] }] }

/-- A design that already has a cell named `$PACKER_GND`. -/
def ex_gnd_collision : Design :=
  { cells := [{ name := "$PACKER_GND", type := "SB_IO", ports := [], attrs := [],
                config := [] }],
    nets := [] }

/-- The LUT `l0` with a `BEL` attribute that is the empty string. -/
def ex_l0_empty_bel : CellInfo :=
  { name := "l0", type := "SB_LUT4", ports := [{ name := "O", net := some "n0" }],
    attrs := [("LUT_INIT", "1010"), ("BEL", "")], config := [] }

/-- Scenario A where the `BEL` value of the LUT is the empty string and the
flip-flop is placed at `X2/Y2/lc0`. -/
def ex_empty_bel : Design :=
  { cells := [ex_l0_empty_bel, ex_f0_placed], nets := [ex_n0] }

/-- The design `ex_empty_bel` after `pack_lut_lutffs`: the flip-flop and the
net are still there, the LUT is packed alone. -/
def ex_empty_bel_luts : Design :=
  { cells := [ex_f0_placed, lut_to_lc ex_l0_empty_bel (new_lc ex_l0_empty_bel "_LC") true],
    nets := [ex_n0] }

/-- A `GND` cell `g1` that drives the net `n1`. -/
def ex_g1 : CellInfo :=
  { name := "g1", type := "GND", ports := [{ name := "Y", net := some "n1" }],
    attrs := [], config := [] }

/-- A flip-flop `f0` with its data input on `n0` and its enable input on `n1`. -/
def ex_f0_gated : CellInfo :=
  { name := "f0", type := "SB_DFF",
    ports := [{ name := "D", net := some "n0" }, { name := "E", net := some "n1" }],
    attrs := [], config := [] }

/-- The net `n1` from the `GND` cell `g1` to the enable input of `f0`. -/
def ex_n1_gnd : NetInfo :=
  { name := "n1", driver := some { cell := "g1", port := "Y" },
    users := [{ cell := "f0", port := "E" }] }

/-- The net `n1` once `pack_constants` has moved it to `$PACKER_GND`. -/
def ex_n1_packer : NetInfo :=
  { name := "n1", driver := some { cell := "$PACKER_GND", port := "O" },
    users := [{ cell := "f0", port := "E" }] }

/-- Scenario A where the enable input of the flip-flop is tied to ground. -/
def ex_gated : Design :=
  { cells := [ex_l0, ex_f0_gated, ex_g1], nets := [ex_n0, ex_n1_gnd] }

/-- The design `ex_gated` after `pack_constants`. -/
def ex_gated_constants : Design :=
  { cells := [ex_l0, ex_f0_gated, ex_g1, gnd_cell], nets := [ex_n0, ex_n1_packer] }

/-- The design `ex_gated` after `pack_design`. -/
def ex_gated_packed : Design :=
  { cells := [ex_g1, gnd_cell,
              dff_to_lc ex_f0_gated (lut_to_lc ex_l0 (new_lc ex_l0 "_LC") false) false],
    nets := [ex_n1_packer] }

/-- The state of the scan of `pack_lut_lutffs` on scenario A once the loop body
has run for `l0`, the first cell: the net `n0` is erased already, the cells
are not touched yet, and `f0` is still to be visited. -/
def ex_pair_scanned : ScanState :=
  { design := { cells := [ex_l0, ex_f0], nets := [] },
    packed_cells := ["l0", "f0"],
    new_cells := ex_pair_packed.cells }

/-! ## Well-formed designs -/

/-- Port `p` of the cell named `c` is connected to the net named `n`. -/
def connected (g : Design) (c p n : String) : Bool :=
  match cells_find g.cells c with
  | none => false
  | some ci =>
    match ports_at ci p with
    | .error _ => false
    | .ok q => decide (q.net = some n)

/-- The net on the port `q` of the cell `ci`, if there is one, is in the design
and has the port as its driver or among its sinks. -/
def port_listed (g : Design) (ci : CellInfo) (q : PortInfo) : Bool :=
  match q.net with
  | none => true
  | some nm =>
    match nets_find g.nets nm with
    | none => false
    | some n =>
      decide (n.driver = some { cell := ci.name, port := q.name })
        || decide (({ cell := ci.name, port := q.name } : PortRef) ∈ n.users)

/-- A well-formed design: the cells have distinct names, every sink that a net
lists is a port connected to that net, and every port connected to a net is
the driver of that net or one of the sinks it lists.  (A port holds at most
one net and a net at most one driver by the types of `PortInfo` and
`NetInfo`.) -/
def well_formed (g : Design) : Prop :=
  (g.cells.map CellInfo.name).Nodup
  ∧ (∀ n ∈ g.nets, ∀ u ∈ n.users, connected g u.cell u.port n.name = true)
  ∧ (∀ ci ∈ g.cells, ∀ q ∈ ci.ports, port_listed g ci q = true)

instance (g : Design) : Decidable (well_formed g) := by
  unfold well_formed
  infer_instance

/-- The design `ex_enable` with its cells enumerated in another order. -/
def ex_enable_reordered : Design :=
  { cells := [ex_f0_enable, ex_l1, ex_l0], nets := [ex_n0_enable, ex_n1] }

/-- The design `ex_enable` after `pack_lut_lutffs`. -/
def ex_enable_luts : Design :=
  { cells := [lut_to_lc ex_l0 (new_lc ex_l0 "_LC") true,
              dff_to_lc ex_f0_enable (lut_to_lc ex_l1 (new_lc ex_l1 "_LC") false) false],
    nets := [ex_n0_enable] }

/-! ## The scans with the configuration transforms as parameters

`lut_to_lc` and `dff_to_lc` are calls out of `ice40/pack.cc`.  The definitions
of this section are the loop bodies of the two cell scans with the two
transforms as parameters, for the properties that depend on what a transform
writes to the attributes of its target. -/

/-- Lines 61 to 73 of the loop body of `pack_lut_lutffs`, with the transforms
as parameters: line 61 and 62 on a packed pair, then the `BEL` of the
flip-flop at lines 64 and 65; line 73 otherwise. -/
def packed_lut_by (lut_to_lc dff_to_lc : CellInfo → CellInfo → Bool → CellInfo)
    (ci packed : CellInfo) : Option (NetInfo × CellInfo) → CellInfo
  | some (_, dff) =>
    let packed2 := dff_to_lc dff (lut_to_lc ci packed false) false
    match attrs_find dff.attrs "BEL" with
    | some v => { packed2 with attrs := attrs_set packed2.attrs "BEL" v }
    | none => packed2
  | none => lut_to_lc ci packed true

/-- The state after the loop body of `pack_lut_lutffs` for the LUT `ci`, with
the transforms as parameters. -/
def note_lut_by (lut_to_lc dff_to_lc : CellInfo → CellInfo → Bool → CellInfo)
    (st : ScanState) (ci packed : CellInfo) : Option (NetInfo × CellInfo) → ScanState
  | some (o, dff) =>
    { design := { st.design with nets := nets_erase st.design.nets o.name }
      packed_cells := st.packed_cells ++ [ci.name, dff.name]
      new_cells := st.new_cells ++ [packed_lut_by lut_to_lc dff_to_lc ci packed (some (o, dff))] }
  | none =>
    { st with
      packed_cells := st.packed_cells ++ [ci.name]
      new_cells := st.new_cells ++ [packed_lut_by lut_to_lc dff_to_lc ci packed none] }

/-- The body of the scan loop of `pack_lut_lutffs` for one cell `ci`, with the
transforms as parameters. -/
def pack_lut_lutffs_step_by (lut_to_lc dff_to_lc : CellInfo → CellInfo → Bool → CellInfo)
    (is_lut is_ff : CellInfo → Bool) (entry : Design)
    (st : ScanState) (ci : CellInfo) : Except PackError ScanState :=
  if is_lut ci then
    match create_ice_cell st.design "ICESTORM_LC" (ci.name ++ "_LC") with
    | .error e => .error e
    | .ok packed0 =>
      let packed := { packed0 with attrs := attrs_copy ci.attrs packed0.attrs }
      match find_dff is_ff entry ci with
      | .error e => .error e
      | .ok found => .ok (note_lut_by lut_to_lc dff_to_lc st ci packed found)
  else .ok st

/-- The scan loop of `pack_lut_lutffs`, with the transforms as parameters. -/
def pack_lut_lutffs_scan_by (lut_to_lc dff_to_lc : CellInfo → CellInfo → Bool → CellInfo)
    (is_lut is_ff : CellInfo → Bool) (design : Design) : Except PackError ScanState :=
  design.cells.foldlM (pack_lut_lutffs_step_by lut_to_lc dff_to_lc is_lut is_ff design)
    { design := design, packed_cells := [], new_cells := [] }

/-- The body of the scan loop of `pack_nonlut_ffs` for one cell `ci`, with the
transform as a parameter. -/
def pack_nonlut_ffs_step_by (dff_to_lc : CellInfo → CellInfo → Bool → CellInfo)
    (is_ff : CellInfo → Bool) (st : ScanState) (ci : CellInfo) : Except PackError ScanState :=
  if is_ff ci then
    match create_ice_cell st.design "ICESTORM_LC" (ci.name ++ "_DFFLC") with
    | .error e => .error e
    | .ok packed0 =>
      let packed1 := { packed0 with attrs := attrs_copy ci.attrs packed0.attrs }
      .ok { st with
            packed_cells := st.packed_cells ++ [ci.name]
            new_cells := st.new_cells ++ [dff_to_lc ci packed1 true] }
  else .ok st

/-- The scan loop of `pack_nonlut_ffs`, with the transform as a parameter. -/
def pack_nonlut_ffs_scan_by (dff_to_lc : CellInfo → CellInfo → Bool → CellInfo)
    (is_ff : CellInfo → Bool) (design : Design) : Except PackError ScanState :=
  design.cells.foldlM (pack_nonlut_ffs_step_by dff_to_lc is_ff)
    { design := design, packed_cells := [], new_cells := [] }

theorem attrs_find_append (a b : List (String × String)) (k : String) :
    attrs_find (a ++ b) k = (attrs_find a k).orElse (fun _ => attrs_find b k) := by
  induction a with
  | nil => simp [attrs_find]
  | cons kv rest ih =>
    by_cases h : kv.1 = k
    · simp [attrs_find, h]
    · simp [attrs_find, h, ih]

theorem attrs_find_filter_ne (a : List (String × String)) (key k : String) :
    attrs_find (a.filter (fun kv => !decide (kv.1 = key))) k
      = if k = key then none else attrs_find a k := by
  induction a with
  | nil => simp [attrs_find]
  | cons kv rest ih =>
    by_cases h : kv.1 = key
    · by_cases hk : k = key
      · subst hk
        simpa [h] using ih
      · have hk2 : ¬ key = k := fun e => hk e.symm
        simp [h, ih, hk, attrs_find, hk2]
    · by_cases hk : kv.1 = k
      · have : ¬ k = key := fun e => h (hk.trans e)
        simp [h, attrs_find, hk, this]
      · simp [h, attrs_find, hk, ih]

theorem attrs_find_set (a : List (String × String)) (key v k : String) :
    attrs_find (attrs_set a key v) k = if k = key then some v else attrs_find a k := by
  unfold attrs_set
  rw [attrs_find_append, attrs_find_filter_ne]
  by_cases hk : k = key
  · simp [hk, attrs_find]
  · have : ¬ key = k := fun e => hk e.symm
    simp [hk, attrs_find, this]

theorem attrs_find_insert (a : List (String × String)) (kv : String × String) (k : String) :
    attrs_find (attrs_insert a kv) k
      = (attrs_find a k).orElse (fun _ => if kv.1 = k then some kv.2 else none) := by
  unfold attrs_insert
  by_cases h : (attrs_find a kv.1).isSome
  · simp only [h, if_true]
    by_cases hk : kv.1 = k
    · subst hk
      obtain ⟨v, hv⟩ := Option.isSome_iff_exists.mp h
      simp [hv]
    · cases attrs_find a k <;> simp [hk]
  · rw [if_neg h, attrs_find_append]
    simp [attrs_find]

theorem attrs_find_copy (src dst : List (String × String)) (k : String) :
    attrs_find (attrs_copy src dst) k = (attrs_find dst k).orElse (fun _ => attrs_find src k) := by
  unfold attrs_copy
  induction src generalizing dst with
  | nil => cases h : attrs_find dst k <;> simp [attrs_find, h]
  | cons kv rest ih =>
    rw [List.foldl_cons, ih, attrs_find_insert]
    cases attrs_find dst k with
    | some v => simp
    | none =>
      by_cases hk : kv.1 = k
      · simp [attrs_find, hk]
      · simp [attrs_find, hk]

theorem attrs_find_copy_nil (src : List (String × String)) (k : String) :
    attrs_find (attrs_copy src []) k = attrs_find src k := by
  rw [attrs_find_copy]; simp [attrs_find]

theorem cells_find_append (a b : List CellInfo) (n : String) :
    cells_find (a ++ b) n = (cells_find a n).orElse (fun _ => cells_find b n) := by
  induction a with
  | nil => simp [cells_find]
  | cons c rest ih =>
    by_cases h : c.name = n
    · simp [cells_find, h]
    · simp [cells_find, h, ih]

theorem cells_find_some {cells : List CellInfo} {n : String} {c : CellInfo}
    (h : cells_find cells n = some c) : c ∈ cells ∧ c.name = n := by
  induction cells with
  | nil => simp [cells_find] at h
  | cons x rest ih =>
    by_cases hx : x.name = n
    · simp [cells_find, hx] at h
      subst h
      exact ⟨List.mem_cons_self _ _, hx⟩
    · simp [cells_find, hx] at h
      exact ⟨List.mem_cons_of_mem _ (ih h).1, (ih h).2⟩

theorem cells_find_none {cells : List CellInfo} {n : String} :
    cells_find cells n = none ↔ ∀ c ∈ cells, c.name ≠ n := by
  induction cells with
  | nil => simp [cells_find]
  | cons x rest ih =>
    by_cases hx : x.name = n
    · simp [cells_find, hx]
    · simp [cells_find, hx, ih]

theorem cells_find_of_mem {cells : List CellInfo} {c : CellInfo}
    (hnd : (cells.map CellInfo.name).Nodup) (hc : c ∈ cells) :
    cells_find cells c.name = some c := by
  induction cells with
  | nil => simp at hc
  | cons x rest ih =>
    simp only [List.map_cons, List.nodup_cons, List.mem_map, not_exists, not_and] at hnd
    rcases List.mem_cons.mp hc with h | h
    · subst h; simp [cells_find]
    · have hx : x.name ≠ c.name := fun e => hnd.1 c h e.symm
      simp [cells_find, hx, ih hnd.2 h]

theorem cells_find_erase (cells : List CellInfo) (x n : String) :
    cells_find (cells_erase cells x) n = if n = x then none else cells_find cells n := by
  unfold cells_erase
  induction cells with
  | nil => simp [cells_find]
  | cons c rest ih =>
    by_cases h : c.name = x
    · by_cases hn : n = x
      · subst hn
        simpa [h] using ih
      · have hn2 : ¬ x = n := fun e => hn e.symm
        simp [h, ih, hn, cells_find, hn2]
    · by_cases hn : c.name = n
      · have : ¬ n = x := fun e => h (hn.trans e)
        simp [h, cells_find, hn, this]
      · simp [h, cells_find, hn, ih]

theorem cells_find_set (cells : List CellInfo) (c : CellInfo) (n : String) :
    cells_find (cells_set cells c) n = if n = c.name then some c else cells_find cells n := by
  unfold cells_set
  rw [cells_find_append, cells_find_erase]
  by_cases hn : n = c.name
  · simp [hn, cells_find]
  · have : ¬ c.name = n := fun e => hn e.symm
    simp [hn, cells_find, this]

theorem mem_cells_erase {cells : List CellInfo} {x : String} {c : CellInfo} :
    c ∈ cells_erase cells x ↔ c ∈ cells ∧ c.name ≠ x := by
  simp [cells_erase]

theorem mem_cells_set {cells : List CellInfo} {x c : CellInfo} :
    c ∈ cells_set cells x ↔ (c ∈ cells ∧ c.name ≠ x.name) ∨ c = x := by
  simp [cells_set, mem_cells_erase]

theorem mem_foldl_cells_erase {names : List String} {cells : List CellInfo} {c : CellInfo} :
    c ∈ names.foldl cells_erase cells ↔ c ∈ cells ∧ c.name ∉ names := by
  induction names generalizing cells with
  | nil => simp
  | cons x rest ih =>
    rw [List.foldl_cons, ih, mem_cells_erase]
    simp only [List.mem_cons, not_or]
    tauto

theorem cells_find_foldl_erase (names : List String) (cells : List CellInfo) (n : String) :
    cells_find (names.foldl cells_erase cells) n
      = if n ∈ names then none else cells_find cells n := by
  induction names generalizing cells with
  | nil => simp
  | cons x rest ih =>
    rw [List.foldl_cons, ih, cells_find_erase]
    by_cases h1 : n ∈ rest
    · simp [h1]
    · by_cases h2 : n = x
      · simp [h1, h2]
      · simp [h1, h2]

theorem cells_find_foldl_set (new : List CellInfo) (base : List CellInfo) (n : String) :
    cells_find (new.foldl cells_set base) n
      = (cells_find new.reverse n).orElse (fun _ => cells_find base n) := by
  induction new generalizing base with
  | nil => simp [cells_find]
  | cons x rest ih =>
    rw [List.foldl_cons, ih, List.reverse_cons, cells_find_append, cells_find_set]
    cases cells_find rest.reverse n with
    | some v => simp
    | none =>
      by_cases hn : n = x.name
      · simp [hn, cells_find]
      · have : ¬ x.name = n := fun e => hn e.symm
        simp [hn, cells_find, this]

theorem mem_foldl_cells_set {new base : List CellInfo} {c : CellInfo}
    (h : c ∈ new.foldl cells_set base) : c ∈ new ∨ c ∈ base := by
  induction new generalizing base with
  | nil => exact Or.inr h
  | cons x rest ih =>
    rw [List.foldl_cons] at h
    rcases ih h with h1 | h1
    · exact Or.inl (List.mem_cons_of_mem _ h1)
    · rcases mem_cells_set.mp h1 with h2 | h2
      · exact Or.inr h2.1
      · exact Or.inl (h2 ▸ List.mem_cons_self _ _)

theorem nets_find_some {nets : List NetInfo} {n : String} {m : NetInfo}
    (h : nets_find nets n = some m) : m ∈ nets ∧ m.name = n := by
  induction nets with
  | nil => simp [nets_find] at h
  | cons x rest ih =>
    by_cases hx : x.name = n
    · simp [nets_find, hx] at h
      subst h
      exact ⟨List.mem_cons_self _ _, hx⟩
    · simp [nets_find, hx] at h
      exact ⟨List.mem_cons_of_mem _ (ih h).1, (ih h).2⟩

theorem nets_find_none {nets : List NetInfo} {n : String} :
    nets_find nets n = none ↔ ∀ m ∈ nets, m.name ≠ n := by
  induction nets with
  | nil => simp [nets_find]
  | cons x rest ih =>
    by_cases hx : x.name = n
    · simp [nets_find, hx]
    · simp [nets_find, hx, ih]

theorem nets_find_erase (nets : List NetInfo) (x n : String) :
    nets_find (nets_erase nets x) n = if n = x then none else nets_find nets n := by
  unfold nets_erase
  induction nets with
  | nil => simp [nets_find]
  | cons c rest ih =>
    by_cases h : c.name = x
    · by_cases hn : n = x
      · subst hn
        simpa [h] using ih
      · have hn2 : ¬ x = n := fun e => hn e.symm
        simp [h, ih, hn, nets_find, hn2]
    · by_cases hn : c.name = n
      · have : ¬ n = x := fun e => h (hn.trans e)
        simp [h, nets_find, hn, this]
      · simp [h, nets_find, hn, ih]

theorem create_ice_cell_ok {design : Design} {type name : String} {c : CellInfo}
    (h : create_ice_cell design type name = .ok c) :
    cells_find design.cells name = none
      ∧ c = { name := name, type := type, ports := [], attrs := [], config := [] } := by
  unfold create_ice_cell at h
  cases hf : cells_find design.cells name with
  | some v => simp [hf] at h
  | none =>
    simp [hf] at h
    exact ⟨rfl, h.symm⟩

/-! ## Lemmas on `pack_constants` -/

theorem pack_constants_step_ok {entry : Design} {cells cells1 : List CellInfo}
    {ni ni1 : NetInfo}
    (h : pack_constants_step entry gnd_cell vcc_cell cells ni = .ok (ni1, cells1)) :
    ni1 = rewired entry ni
      ∧ cells1 = (match registered entry ni with
                  | some c => cells_set cells c
                  | none => cells) := by
  unfold pack_constants_step at h
  cases hd : ni.driver with
  | none =>
    have hdt : driver_type entry ni = none := by simp [driver_type, hd]
    simp only [hd, Except.ok.injEq, Prod.mk.injEq] at h
    simp [rewired, registered, hdt, h.1.symm, h.2.symm]
  | some d =>
    simp only [hd] at h
    unfold resolve_cell at h
    cases hf : cells_find entry.cells d.cell with
    | none => simp [hf] at h
    | some dc =>
      have hdt : driver_type entry ni = some dc.type := by simp [driver_type, hd, hf]
      simp only [hf] at h
      by_cases h1 : dc.type = "GND"
      · rw [if_pos h1] at h
        simp only [Except.ok.injEq, Prod.mk.injEq] at h
        simp [rewired, registered, hdt, h1, h.1.symm, h.2.symm, gnd_cell]
      · rw [if_neg h1] at h
        by_cases h2 : dc.type = "VCC"
        · rw [if_pos h2] at h
          simp only [Except.ok.injEq, Prod.mk.injEq] at h
          simp [rewired, registered, hdt, h1, h2, h.1.symm, h.2.symm, vcc_cell]
        · rw [if_neg h2] at h
          simp only [Except.ok.injEq, Prod.mk.injEq] at h
          simp [rewired, registered, hdt, h1, h2, h.1.symm, h.2.symm]

theorem pack_constants_loop_ok {entry : Design} :
    ∀ (nets : List NetInfo) (cells : List CellInfo) {nets1 : List NetInfo}
      {cells1 : List CellInfo},
      pack_constants_loop entry gnd_cell vcc_cell nets cells = .ok (nets1, cells1) →
      nets1 = nets.map (rewired entry)
        ∧ cells1 = (nets.filterMap (registered entry)).foldl cells_set cells := by
  intro nets
  induction nets with
  | nil =>
    intro cells nets1 cells1 h
    simp only [pack_constants_loop, Except.ok.injEq, Prod.mk.injEq] at h
    simp [h.1.symm, h.2.symm]
  | cons ni rest ih =>
    intro cells nets1 cells1 h
    simp only [pack_constants_loop] at h
    cases hs : pack_constants_step entry gnd_cell vcc_cell cells ni with
    | error e => simp [hs] at h
    | ok r =>
      obtain ⟨ni1, cellsA⟩ := r
      simp only [hs] at h
      cases hl : pack_constants_loop entry gnd_cell vcc_cell rest cellsA with
      | error e => simp [hl] at h
      | ok r2 =>
        obtain ⟨restB, cellsB⟩ := r2
        simp only [hl, Except.ok.injEq, Prod.mk.injEq] at h
        obtain ⟨hn, hc⟩ := pack_constants_step_ok hs
        obtain ⟨hn2, hc2⟩ := ih cellsA hl
        refine ⟨?_, ?_⟩
        · rw [← h.1, hn, hn2]; rfl
        · rw [← h.2, hc2, hc]
          cases hr : registered entry ni with
          | none => simp [List.filterMap_cons, hr]
          | some c => simp [List.filterMap_cons, hr]

theorem pack_constants_ok {g g1 : Design} (h : pack_constants g = .ok g1) :
    cells_find g.cells "$PACKER_GND" = none ∧ cells_find g.cells "$PACKER_VCC" = none
      ∧ g1.nets = g.nets.map (rewired g)
      ∧ g1.cells = (g.nets.filterMap (registered g)).foldl cells_set g.cells := by
  unfold pack_constants at h
  cases hg : create_ice_cell g "ICESTORM_LC" "$PACKER_GND" with
  | error e => simp [hg] at h
  | ok gnd0 =>
    simp only [hg] at h
    cases hv : create_ice_cell g "ICESTORM_LC" "$PACKER_VCC" with
    | error e => simp [hv] at h
    | ok vcc0 =>
      simp only [hv] at h
      obtain ⟨hg1, hg2⟩ := create_ice_cell_ok hg
      obtain ⟨hv1, hv2⟩ := create_ice_cell_ok hv
      subst hg2 hv2
      have e1 : ({ name := "$PACKER_GND", type := "ICESTORM_LC", ports := [],
                   attrs := attrs_set [] "LUT_INIT" "0", config := [] } : CellInfo)
                = gnd_cell := rfl
      have e2 : ({ name := "$PACKER_VCC", type := "ICESTORM_LC", ports := [],
                   attrs := attrs_set [] "LUT_INIT" "1", config := [] } : CellInfo)
                = vcc_cell := rfl
      simp only [e1, e2] at h
      cases hl : pack_constants_loop g gnd_cell vcc_cell g.nets g.cells with
      | error e => simp [hl] at h
      | ok r =>
        obtain ⟨n1, c1⟩ := r
        simp only [hl, Except.ok.injEq] at h
        obtain ⟨hn, hc⟩ := pack_constants_loop_ok g.nets g.cells hl
        subst h
        exact ⟨hg1, hv1, hn, hc⟩

theorem filter_name_cells_set (cells : List CellInfo) (c : CellInfo) (n : String) :
    (cells_set cells c).filter (fun x => decide (x.name = n))
      = if c.name = n then [c] else cells.filter (fun x => decide (x.name = n)) := by
  unfold cells_set cells_erase
  rw [List.filter_append, List.filter_filter]
  by_cases hc : c.name = n
  · subst hc
    rw [if_pos rfl]
    have h0 : cells.filter (fun a => decide (a.name = c.name) && !decide (a.name = c.name)) = [] := by
      rw [List.filter_eq_nil_iff]
      intro a _
      by_cases ha : a.name = c.name <;> simp [ha]
    rw [h0]
    simp
  · rw [if_neg hc]
    have h0 : cells.filter (fun a => decide (a.name = n) && !decide (a.name = c.name))
        = cells.filter (fun a => decide (a.name = n)) := by
      apply List.filter_congr
      intro a _
      by_cases ha : a.name = n
      · have h1 : ¬ n = c.name := fun e => hc e.symm
        subst ha
        simp [h1]
      · simp [ha]
    rw [h0]
    simp [hc]

theorem filter_name_foldl_set (n : String) (x : CellInfo) :
    ∀ (new base : List CellInfo), (∀ c ∈ new, c.name = n → c = x) →
      (new.foldl cells_set base).filter (fun c => decide (c.name = n))
        = if (∃ c ∈ new, c.name = n) then [x]
          else base.filter (fun c => decide (c.name = n)) := by
  intro new
  induction new with
  | nil => intro base _; simp
  | cons c rest ih =>
    intro base hx
    rw [List.foldl_cons, ih (cells_set base c) (fun a ha => hx a (List.mem_cons_of_mem _ ha))]
    by_cases hr : ∃ a ∈ rest, a.name = n
    · have : ∃ a ∈ c :: rest, a.name = n := by
        obtain ⟨a, ha, hn⟩ := hr
        exact ⟨a, List.mem_cons_of_mem _ ha, hn⟩
      rw [if_pos hr, if_pos this]
    · rw [if_neg hr, filter_name_cells_set]
      by_cases hc : c.name = n
      · have : ∃ a ∈ c :: rest, a.name = n := ⟨c, List.mem_cons_self _ _, hc⟩
        rw [if_pos hc, if_pos this, hx c (List.mem_cons_self _ _) hc]
      · have : ¬ ∃ a ∈ c :: rest, a.name = n := by
          rintro ⟨a, ha, hn⟩
          rcases List.mem_cons.mp ha with h1 | h1
          · exact hc (h1 ▸ hn)
          · exact hr ⟨a, h1, hn⟩
        rw [if_neg hc, if_neg this]

theorem registered_cases {g : Design} {ni : NetInfo} {c : CellInfo}
    (h : registered g ni = some c) :
    (c = gnd_cell ∧ driver_type g ni = some "GND")
      ∨ (c = vcc_cell ∧ driver_type g ni = some "VCC") := by
  unfold registered at h
  by_cases h1 : driver_type g ni = some "GND"
  · rw [if_pos h1] at h
    exact Or.inl ⟨(Option.some.inj h).symm, h1⟩
  · rw [if_neg h1] at h
    by_cases h2 : driver_type g ni = some "VCC"
    · rw [if_pos h2] at h
      exact Or.inr ⟨(Option.some.inj h).symm, h2⟩
    · rw [if_neg h2] at h
      cases h

theorem registered_vcc {g : Design} {ni : NetInfo} (h : driver_type g ni = some "VCC") :
    registered g ni = some vcc_cell := by
  unfold registered
  rw [h]
  rfl

theorem registered_gnd {g : Design} {ni : NetInfo} (h : driver_type g ni = some "GND") :
    registered g ni = some gnd_cell := by
  unfold registered
  rw [if_pos h]

theorem rewired_vcc {g : Design} {ni : NetInfo} (h : driver_type g ni = some "VCC") :
    rewired g ni = { ni with driver := some { cell := "$PACKER_VCC", port := "O" } } := by
  unfold rewired
  rw [h]
  rfl

/-- The cells named `$PACKER_GND` after `pack_constants`: the canonical cell,
once, when a net is driven by a `GND` cell, and none otherwise. -/
theorem pack_constants_gnd_cells {g g1 : Design} (h : pack_constants g = .ok g1) :
    g1.cells.filter (fun c => decide (c.name = "$PACKER_GND"))
      = if (∃ ni ∈ g.nets, driver_type g ni = some "GND") then [gnd_cell] else [] := by
  obtain ⟨hg, _, _, hc⟩ := pack_constants_ok h
  rw [hc, filter_name_foldl_set "$PACKER_GND" gnd_cell]
  · have hb : g.cells.filter (fun c => decide (c.name = "$PACKER_GND")) = [] := by
      rw [List.filter_eq_nil_iff]
      intro a ha
      simpa using cells_find_none.mp hg a ha
    rw [hb]
    have hiff : (∃ c ∈ g.nets.filterMap (registered g), c.name = "$PACKER_GND")
        ↔ (∃ ni ∈ g.nets, driver_type g ni = some "GND") := by
      constructor
      · rintro ⟨c, hc1, hc2⟩
        obtain ⟨ni, hni, hr⟩ := List.mem_filterMap.mp hc1
        rcases registered_cases hr with ⟨_, h2⟩ | ⟨h1, _⟩
        · exact ⟨ni, hni, h2⟩
        · subst h1; exact absurd hc2 (by decide)
      · rintro ⟨ni, hni, hd⟩
        exact ⟨gnd_cell, List.mem_filterMap.mpr ⟨ni, hni, registered_gnd hd⟩, rfl⟩
    by_cases hex : ∃ ni ∈ g.nets, driver_type g ni = some "GND"
    · rw [if_pos hex, if_pos (hiff.mpr hex)]
    · rw [if_neg hex, if_neg (fun e => hex (hiff.mp e))]
  · intro c hc1 hc2
    obtain ⟨ni, _, hr⟩ := List.mem_filterMap.mp hc1
    rcases registered_cases hr with ⟨h1, _⟩ | ⟨h1, _⟩
    · exact h1
    · subst h1; exact absurd hc2 (by decide)

/-- The cells named `$PACKER_VCC` after `pack_constants`: the canonical cell,
once, when a net is driven by a `VCC` cell, and none otherwise. -/
theorem pack_constants_vcc_cells {g g1 : Design} (h : pack_constants g = .ok g1) :
    g1.cells.filter (fun c => decide (c.name = "$PACKER_VCC"))
      = if (∃ ni ∈ g.nets, driver_type g ni = some "VCC") then [vcc_cell] else [] := by
  obtain ⟨_, hv, _, hc⟩ := pack_constants_ok h
  rw [hc, filter_name_foldl_set "$PACKER_VCC" vcc_cell]
  · have hb : g.cells.filter (fun c => decide (c.name = "$PACKER_VCC")) = [] := by
      rw [List.filter_eq_nil_iff]
      intro a ha
      simpa using cells_find_none.mp hv a ha
    rw [hb]
    have hiff : (∃ c ∈ g.nets.filterMap (registered g), c.name = "$PACKER_VCC")
        ↔ (∃ ni ∈ g.nets, driver_type g ni = some "VCC") := by
      constructor
      · rintro ⟨c, hc1, hc2⟩
        obtain ⟨ni, hni, hr⟩ := List.mem_filterMap.mp hc1
        rcases registered_cases hr with ⟨h1, _⟩ | ⟨_, h2⟩
        · subst h1; exact absurd hc2 (by decide)
        · exact ⟨ni, hni, h2⟩
      · rintro ⟨ni, hni, hd⟩
        exact ⟨vcc_cell, List.mem_filterMap.mpr ⟨ni, hni, registered_vcc hd⟩, rfl⟩
    by_cases hex : ∃ ni ∈ g.nets, driver_type g ni = some "VCC"
    · rw [if_pos hex, if_pos (hiff.mpr hex)]
    · rw [if_neg hex, if_neg (fun e => hex (hiff.mp e))]
  · intro c hc1 hc2
    obtain ⟨ni, _, hr⟩ := List.mem_filterMap.mp hc1
    rcases registered_cases hr with ⟨h1, _⟩ | ⟨h1, _⟩
    · subst h1; exact absurd hc2 (by decide)
    · exact h1

theorem cells_find_of_filter_singleton {cells : List CellInfo} {n : String} {x : CellInfo}
    (h : cells.filter (fun c => decide (c.name = n)) = [x]) : cells_find cells n = some x := by
  induction cells with
  | nil => simp at h
  | cons c rest ih =>
    by_cases hc : c.name = n
    · simp only [List.filter_cons, hc, decide_True, if_true, List.cons.injEq] at h
      rw [← h.1]
      simp [cells_find, hc]
    · simp only [List.filter_cons, hc, decide_False] at h
      simp [cells_find, hc, ih h]

/-! ## The constants pass -/

/-- C1: after `pack_constants`, a net whose driver cell had type `GND` (resp.
`VCC`) on entry is driven by port `O` of the cell `$PACKER_GND` (resp.
`$PACKER_VCC`); that cell is registered in the design under that name, and it
is the only cell of that name in the design, however many such nets there
are, so all of them share it. -/
theorem pack_constants_rehomes (g g1 : Design) (h : pack_constants g = .ok g1)
    (i : Nat) (ni : NetInfo) (hni : g.nets[i]? = some ni) :
    (driver_type g ni = some "GND" →
        g1.nets[i]? = some { ni with driver := some { cell := "$PACKER_GND", port := "O" } }
        ∧ cells_find g1.cells "$PACKER_GND" = some gnd_cell
        ∧ g1.cells.filter (fun c => decide (c.name = "$PACKER_GND")) = [gnd_cell])
    ∧ (driver_type g ni = some "VCC" →
        g1.nets[i]? = some { ni with driver := some { cell := "$PACKER_VCC", port := "O" } }
        ∧ cells_find g1.cells "$PACKER_VCC" = some vcc_cell
        ∧ g1.cells.filter (fun c => decide (c.name = "$PACKER_VCC")) = [vcc_cell]) := by
  obtain ⟨_, _, hn, _⟩ := pack_constants_ok h
  have hmem : ni ∈ g.nets := by
    obtain ⟨hi, he⟩ := List.getElem?_eq_some.mp hni
    exact he ▸ List.getElem_mem hi
  have hget : g1.nets[i]? = some (rewired g ni) := by
    rw [hn, List.getElem?_map, hni]; rfl
  constructor
  · intro hd
    have hf : g1.cells.filter (fun c => decide (c.name = "$PACKER_GND")) = [gnd_cell] := by
      rw [pack_constants_gnd_cells h, if_pos ⟨ni, hmem, hd⟩]
    refine ⟨?_, cells_find_of_filter_singleton hf, hf⟩
    rw [hget]
    unfold rewired
    rw [if_pos hd]
  · intro hd
    have hf : g1.cells.filter (fun c => decide (c.name = "$PACKER_VCC")) = [vcc_cell] := by
      rw [pack_constants_vcc_cells h, if_pos ⟨ni, hmem, hd⟩]
    refine ⟨?_, cells_find_of_filter_singleton hf, hf⟩
    rw [hget, rewired_vcc hd]

/-- Scenario C: the second of two `GND`-driven nets is driven by `$PACKER_GND`
after the pass, and the design has exactly one cell of that name. -/
theorem pack_constants_rehomes_witness :
    pack_constants ex_two_gnd = .ok ex_two_gnd_packed
    ∧ ex_two_gnd_packed.nets[1]?
        = some { name := "n1", driver := some { cell := "$PACKER_GND", port := "O" },
                 users := [{ cell := "y", port := "I" }] }
    ∧ cells_find ex_two_gnd_packed.cells "$PACKER_GND" = some gnd_cell
    ∧ ex_two_gnd_packed.cells.filter (fun c => decide (c.name = "$PACKER_GND")) = [gnd_cell] :=
  ⟨by decide,
   (pack_constants_rehomes ex_two_gnd ex_two_gnd_packed (by decide) 1
      { name := "n1", driver := some { cell := "g2", port := "Y" },
        users := [{ cell := "y", port := "I" }] } (by decide)).1 (by decide)⟩

/-- C7, as the code behaves: the canonical cells are registered only when a net
uses them.  After `pack_constants` the design holds the cell `$PACKER_GND`
(with `LUT_INIT` = "0") exactly once when some net was driven by a `GND` cell,
and no cell of that name otherwise; likewise `$PACKER_VCC` (with `LUT_INIT` =
"1") and `VCC`. -/
theorem pack_constants_registers_used (g g1 : Design) (h : pack_constants g = .ok g1) :
    ((∃ ni ∈ g.nets, driver_type g ni = some "GND") →
        g1.cells.filter (fun c => decide (c.name = "$PACKER_GND")) = [gnd_cell])
    ∧ ((¬ ∃ ni ∈ g.nets, driver_type g ni = some "GND") →
        cells_find g1.cells "$PACKER_GND" = none)
    ∧ ((∃ ni ∈ g.nets, driver_type g ni = some "VCC") →
        g1.cells.filter (fun c => decide (c.name = "$PACKER_VCC")) = [vcc_cell])
    ∧ ((¬ ∃ ni ∈ g.nets, driver_type g ni = some "VCC") →
        cells_find g1.cells "$PACKER_VCC" = none)
    ∧ attrs_find gnd_cell.attrs "LUT_INIT" = some "0"
    ∧ attrs_find vcc_cell.attrs "LUT_INIT" = some "1" := by
  refine ⟨?_, ?_, ?_, ?_, by decide, by decide⟩
  · intro hex
    rw [pack_constants_gnd_cells h, if_pos hex]
  · intro hex
    have hf := pack_constants_gnd_cells h
    rw [if_neg hex, List.filter_eq_nil_iff] at hf
    rw [cells_find_none]
    intro c hc
    simpa using hf c hc
  · intro hex
    rw [pack_constants_vcc_cells h, if_pos hex]
  · intro hex
    have hf := pack_constants_vcc_cells h
    rw [if_neg hex, List.filter_eq_nil_iff] at hf
    rw [cells_find_none]
    intro c hc
    simpa using hf c hc

/-- Scenario C has a `GND`-driven net and no `VCC`-driven net: after the pass
`$PACKER_GND` is registered once and `$PACKER_VCC` is not registered. -/
theorem pack_constants_registers_used_witness :
    pack_constants ex_two_gnd = .ok ex_two_gnd_packed
    ∧ ex_two_gnd_packed.cells.filter (fun c => decide (c.name = "$PACKER_GND")) = [gnd_cell]
    ∧ cells_find ex_two_gnd_packed.cells "$PACKER_VCC" = none :=
  ⟨by decide,
   (pack_constants_registers_used ex_two_gnd ex_two_gnd_packed (by decide)).1
     ⟨{ name := "n0", driver := some { cell := "g1", port := "Y" },
        users := [{ cell := "x", port := "I" }] }, by decide, by decide⟩,
   (pack_constants_registers_used ex_two_gnd ex_two_gnd_packed (by decide)).2.2.2.1 (by decide)⟩

/-- C7 fails as stated: on a design without constant drivers `pack_constants`
succeeds and leaves the design as it was, with neither `$PACKER_GND` nor
`$PACKER_VCC` in it. -/
theorem pack_constants_unused_not_registered :
    pack_constants ex_no_const = .ok ex_no_const
    ∧ cells_find ex_no_const.cells "$PACKER_GND" = none
    ∧ cells_find ex_no_const.cells "$PACKER_VCC" = none := by
  decide

/-! ## Lemmas on the scans -/

theorem pack_lut_lutffs_step_ok {is_lut is_ff : CellInfo → Bool} {entry : Design}
    {st st1 : ScanState} {ci : CellInfo}
    (h : pack_lut_lutffs_step is_lut is_ff entry st ci = .ok st1) (hl : is_lut ci = true) :
    cells_find st.design.cells (ci.name ++ "_LC") = none
      ∧ ∃ found, find_dff is_ff entry ci = .ok found
          ∧ st1 = note_lut st ci (new_lc ci "_LC") found := by
  unfold pack_lut_lutffs_step at h
  rw [if_pos hl] at h
  cases hc : create_ice_cell st.design "ICESTORM_LC" (ci.name ++ "_LC") with
  | error e => simp [hc] at h
  | ok packed0 =>
    simp only [hc] at h
    obtain ⟨h1, h2⟩ := create_ice_cell_ok hc
    subst h2
    cases hf : find_dff is_ff entry ci with
    | error e => simp [hf] at h
    | ok found =>
      simp only [hf, Except.ok.injEq] at h
      exact ⟨h1, found, rfl, h.symm⟩

theorem note_lut_eq (is_ff : CellInfo → Bool) (entry : Design) (st : ScanState) (ci : CellInfo)
    {found : Option (NetInfo × CellInfo)} (hf : find_dff is_ff entry ci = .ok found) :
    (note_lut st ci (new_lc ci "_LC") found).design.cells = st.design.cells
      ∧ (note_lut st ci (new_lc ci "_LC") found).design.nets
          = (match lut_erased_net is_ff entry ci with
             | some n => nets_erase st.design.nets n
             | none => st.design.nets)
      ∧ (note_lut st ci (new_lc ci "_LC") found).packed_cells
          = st.packed_cells ++ lut_packed_names is_ff entry ci
      ∧ (note_lut st ci (new_lc ci "_LC") found).new_cells
          = st.new_cells ++ [lut_new_cell is_ff entry ci] := by
  have hfd : found_dff is_ff entry ci = found := by simp [found_dff, hf]
  unfold lut_erased_net lut_packed_names lut_new_cell
  rw [hfd]
  cases found with
  | none => simp [note_lut]
  | some m =>
    obtain ⟨o, dff⟩ := m
    simp [note_lut]

theorem pack_lut_lutffs_fold_ok {is_lut is_ff : CellInfo → Bool} {entry : Design} :
    ∀ (cs : List CellInfo) (st st1 : ScanState),
      cs.foldlM (pack_lut_lutffs_step is_lut is_ff entry) st = .ok st1 →
      st1.design.cells = st.design.cells
        ∧ st1.design.nets
            = ((cs.filter is_lut).filterMap (lut_erased_net is_ff entry)).foldl nets_erase
                st.design.nets
        ∧ st1.packed_cells
            = st.packed_cells ++ (cs.filter is_lut).flatMap (lut_packed_names is_ff entry)
        ∧ st1.new_cells = st.new_cells ++ (cs.filter is_lut).map (lut_new_cell is_ff entry)
        ∧ ∀ ci ∈ cs, is_lut ci = true →
            cells_find st.design.cells (ci.name ++ "_LC") = none
              ∧ ∃ found, find_dff is_ff entry ci = .ok found := by
  intro cs
  induction cs with
  | nil =>
    intro st st1 h
    simp only [List.foldlM_nil, pure, Except.pure, Except.ok.injEq] at h
    subst h
    simp
  | cons ci rest ih =>
    intro st st1 h
    rw [List.foldlM_cons] at h
    cases hs : pack_lut_lutffs_step is_lut is_ff entry st ci with
    | error e => simp [hs, bind, Except.bind] at h
    | ok st2 =>
      simp only [hs, bind, Except.bind] at h
      obtain ⟨i1, i2, i3, i4, i5⟩ := ih st2 st1 h
      by_cases hl : is_lut ci = true
      · obtain ⟨hfresh, found, hf, hst⟩ := pack_lut_lutffs_step_ok hs hl
        obtain ⟨e1, e2, e3, e4⟩ := note_lut_eq is_ff entry st ci hf
        rw [← hst] at e1 e2 e3 e4
        refine ⟨i1.trans e1, ?_, ?_, ?_, ?_⟩
        · rw [i2, e2, List.filter_cons, if_pos hl, List.filterMap_cons]
          cases lut_erased_net is_ff entry ci <;> rfl
        · rw [i3, e3, List.filter_cons, if_pos hl, List.flatMap_cons, List.append_assoc]
        · rw [i4, e4, List.filter_cons, if_pos hl, List.map_cons, List.append_assoc]
          rfl
        · intro c hc hcl
          rcases List.mem_cons.mp hc with h1 | h1
          · subst h1; exact ⟨hfresh, found, hf⟩
          · have := i5 c h1 hcl
            rw [e1] at this
            exact this
      · have hst : st2 = st := by
          unfold pack_lut_lutffs_step at hs
          rw [if_neg hl] at hs
          exact (Except.ok.inj hs).symm
        subst hst
        refine ⟨i1, ?_, ?_, ?_, ?_⟩
        · rw [i2, List.filter_cons, if_neg hl]
        · rw [i3, List.filter_cons, if_neg hl]
        · rw [i4, List.filter_cons, if_neg hl]
        · intro c hc hcl
          rcases List.mem_cons.mp hc with h1 | h1
          · subst h1; exact absurd hcl hl
          · exact i5 c h1 hcl

/-- What a successful `pack_lut_lutffs` returns, and what its success implies. -/
theorem pack_lut_lutffs_ok {is_lut is_ff : CellInfo → Bool} {g g2 : Design}
    (h : pack_lut_lutffs is_lut is_ff g = .ok g2) :
    g2.cells
        = ((g.cells.filter is_lut).map (lut_new_cell is_ff g)).foldl cells_set
            (((g.cells.filter is_lut).flatMap (lut_packed_names is_ff g)).foldl cells_erase
              g.cells)
      ∧ g2.nets
          = ((g.cells.filter is_lut).filterMap (lut_erased_net is_ff g)).foldl nets_erase g.nets
      ∧ ∀ ci ∈ g.cells, is_lut ci = true →
          cells_find g.cells (ci.name ++ "_LC") = none
            ∧ ∃ found, find_dff is_ff g ci = .ok found := by
  unfold pack_lut_lutffs pack_lut_lutffs_scan at h
  cases hs : g.cells.foldlM (pack_lut_lutffs_step is_lut is_ff g)
      { design := g, packed_cells := [], new_cells := [] } with
  | error e => simp [hs] at h
  | ok st =>
    simp only [hs, Except.ok.injEq] at h
    obtain ⟨i1, i2, i3, i4, i5⟩ := pack_lut_lutffs_fold_ok g.cells _ st hs
    subst h
    simp only [List.nil_append] at i3 i4
    refine ⟨?_, ?_, i5⟩
    · simp only [commit, i1, i3, i4]
    · simp only [commit, i2]

theorem pack_nonlut_ffs_fold_ok {is_ff : CellInfo → Bool} :
    ∀ (cs : List CellInfo) (st st1 : ScanState),
      cs.foldlM (pack_nonlut_ffs_step is_ff) st = .ok st1 →
      st1.design = st.design
        ∧ st1.packed_cells = st.packed_cells ++ (cs.filter is_ff).map CellInfo.name
        ∧ st1.new_cells = st.new_cells ++ (cs.filter is_ff).map ff_new_cell
        ∧ ∀ ci ∈ cs, is_ff ci = true →
            cells_find st.design.cells (ci.name ++ "_DFFLC") = none := by
  intro cs
  induction cs with
  | nil =>
    intro st st1 h
    simp only [List.foldlM_nil, pure, Except.pure, Except.ok.injEq] at h
    subst h
    simp
  | cons ci rest ih =>
    intro st st1 h
    rw [List.foldlM_cons] at h
    cases hs : pack_nonlut_ffs_step is_ff st ci with
    | error e => simp [hs, bind, Except.bind] at h
    | ok st2 =>
      simp only [hs, bind, Except.bind] at h
      obtain ⟨i1, i2, i3, i4⟩ := ih st2 st1 h
      unfold pack_nonlut_ffs_step at hs
      by_cases hl : is_ff ci = true
      · rw [if_pos hl] at hs
        cases hc : create_ice_cell st.design "ICESTORM_LC" (ci.name ++ "_DFFLC") with
        | error e => simp [hc] at hs
        | ok packed0 =>
          simp only [hc, Except.ok.injEq] at hs
          obtain ⟨h1, h2⟩ := create_ice_cell_ok hc
          subst h2
          subst hs
          refine ⟨i1, ?_, ?_, ?_⟩
          · rw [i2, List.filter_cons, if_pos hl, List.map_cons, List.append_assoc]
            rfl
          · rw [i3, List.filter_cons, if_pos hl, List.map_cons, List.append_assoc]
            rfl
          · intro c hc hcl
            rcases List.mem_cons.mp hc with h3 | h3
            · subst h3; exact h1
            · exact i4 c h3 hcl
      · rw [if_neg hl] at hs
        have hst : st2 = st := (Except.ok.inj hs).symm
        subst hst
        refine ⟨i1, ?_, ?_, ?_⟩
        · rw [i2, List.filter_cons, if_neg hl]
        · rw [i3, List.filter_cons, if_neg hl]
        · intro c hc hcl
          rcases List.mem_cons.mp hc with h1 | h1
          · subst h1; exact absurd hcl hl
          · exact i4 c h1 hcl

/-- What a successful `pack_nonlut_ffs` returns, and what its success implies. -/
theorem pack_nonlut_ffs_ok {is_ff : CellInfo → Bool} {g g3 : Design}
    (h : pack_nonlut_ffs is_ff g = .ok g3) :
    g3.cells
        = ((g.cells.filter is_ff).map ff_new_cell).foldl cells_set
            (((g.cells.filter is_ff).map CellInfo.name).foldl cells_erase g.cells)
      ∧ g3.nets = g.nets
      ∧ ∀ ci ∈ g.cells, is_ff ci = true →
          cells_find g.cells (ci.name ++ "_DFFLC") = none := by
  unfold pack_nonlut_ffs at h
  cases hs : g.cells.foldlM (pack_nonlut_ffs_step is_ff)
      { design := g, packed_cells := [], new_cells := [] } with
  | error e => simp [hs] at h
  | ok st =>
    simp only [hs, Except.ok.injEq] at h
    obtain ⟨i1, i2, i3, i4⟩ := pack_nonlut_ffs_fold_ok g.cells _ st hs
    subst h
    simp only [List.nil_append] at i2 i3
    refine ⟨?_, ?_, i4⟩
    · simp only [commit, i1, i2, i3]
    · simp only [commit, i1]

theorem resolve_users_singleton {g : Design} {u : PortRef} {cs : List CellInfo} :
    resolve_users g [u] = .ok cs ↔ ∃ c, cells_find g.cells u.cell = some c ∧ cs = [c] := by
  unfold resolve_users resolve_cell
  cases hf : cells_find g.cells u.cell with
  | none => simp
  | some c =>
    simp only [resolve_users, Except.ok.injEq, Option.some.injEq]
    constructor
    · intro h; exact ⟨c, rfl, h.symm⟩
    · rintro ⟨c1, h1, h2⟩; rw [h2, h1]

/-- The exclusive match of `net_only_drives`: the only user of the net is the
given port of a cell that satisfies the predicate, and the net has a driver. -/
theorem net_only_drives_exclusive {g : Design} {n : NetInfo} {pred : CellInfo → Bool}
    {port : String} {c : CellInfo} :
    net_only_drives g (some n) pred port true = .ok (some c)
      ↔ n.driver.isSome = true ∧ n.users = [{ cell := c.name, port := port }]
          ∧ cells_find g.cells c.name = some c ∧ pred c = true := by
  constructor
  · intro h
    unfold net_only_drives at h
    simp only at h
    by_cases hd : n.driver.isNone = true
    · rw [if_pos hd] at h; cases h
    · rw [if_neg hd] at h
      have hds : n.driver.isSome = true := by
        cases hdd : n.driver with
        | none => simp [hdd] at hd
        | some d => rfl
      cases hr : resolve_users g (n.users.filter (fun u => decide (u.port = port))) with
      | error e => simp [hr] at h
      | ok cands =>
        simp only [hr] at h
        split at h
        · rename_i c1 hc1
          by_cases hlen : n.users.length = 1
          · simp only [hlen, ne_eq, not_true_eq_false, decide_False, Bool.and_false,
              Bool.false_eq_true, if_false, Except.ok.injEq, Option.some.injEq] at h
            subst h
            obtain ⟨u, hu⟩ := List.length_eq_one.mp hlen
            rw [hu] at hr
            by_cases hp : u.port = port
            · simp only [List.filter_cons, hp, decide_True, if_true, List.filter_nil] at hr
              obtain ⟨c2, hc2, hcs⟩ := resolve_users_singleton.mp hr
              subst hcs
              simp only [List.filter_cons, List.filter_nil] at hc1
              by_cases hpc : pred c2 = true
              · rw [if_pos hpc] at hc1
                simp only [List.cons.injEq, and_true] at hc1
                subst hc1
                obtain ⟨_, hn⟩ := cells_find_some hc2
                refine ⟨hds, ?_, ?_, hpc⟩
                · rw [hu]
                  cases u
                  simp only at hn hp
                  simp [hn, hp]
                · rw [hn]; exact hc2
              · rw [if_neg hpc] at hc1
                cases hc1
            · simp only [List.filter_cons, hp, decide_False, List.filter_nil] at hr
              simp only [resolve_users, Except.ok.injEq] at hr
              subst hr
              simp at hc1
          · simp [hlen] at h
        · cases h
  · rintro ⟨hd, hu, hf, hp⟩
    unfold net_only_drives
    have hdn : ¬ n.driver.isNone = true := by
      cases hdd : n.driver with
      | none => simp [hdd] at hd
      | some d => simp
    simp only
    rw [if_neg hdn, hu]
    simp only [List.filter_cons, decide_True, if_true, List.filter_nil]
    rw [resolve_users_singleton.mpr ⟨c, hf, rfl⟩]
    simp [hp]

theorem net_only_drives_none {g : Design} {pred : CellInfo → Bool} {port : String}
    {excl : Bool} : net_only_drives g none pred port excl = .ok none := rfl

/-- When `find_dff` returns a flip-flop: the net on port `O` of the LUT has a
driver, its only user is port `D` of the flip-flop, and the two cells do not
both carry a `BEL` attribute with different values. -/
theorem find_dff_some {is_ff : CellInfo → Bool} {g : Design} {ci : CellInfo} {o : NetInfo}
    {dff : CellInfo} :
    find_dff is_ff g ci = .ok (some (o, dff))
      ↔ ∃ p, ports_at ci "O" = .ok p ∧ p.net = some o.name
          ∧ nets_find g.nets o.name = some o
          ∧ o.driver.isSome = true ∧ o.users = [{ cell := dff.name, port := "D" }]
          ∧ cells_find g.cells dff.name = some dff ∧ is_ff dff = true
          ∧ ¬ ((attrs_find ci.attrs "BEL").isSome = true
                ∧ (attrs_find dff.attrs "BEL").isSome = true
                ∧ attrs_find ci.attrs "BEL" ≠ attrs_find dff.attrs "BEL") := by
  constructor
  · intro h
    unfold find_dff at h
    cases hp : ports_at ci "O" with
    | error e => simp [hp] at h
    | ok p =>
      simp only [hp] at h
      cases hn : p.net with
      | none =>
        simp only [hn, resolve_net, net_only_drives_none] at h
        cases h
      | some nm =>
        simp only [hn, resolve_net] at h
        cases hnf : nets_find g.nets nm with
        | none => simp [hnf] at h
        | some o1 =>
          simp only [hnf] at h
          cases hm : net_only_drives g (some o1) is_ff "D" true with
          | error e => simp [hm] at h
          | ok r =>
            simp only [hm] at h
            cases r with
            | none => cases h
            | some d1 =>
              simp only at h
              split at h
              · cases h
              · rename_i hcond
                simp only [Except.ok.injEq, Option.some.injEq, Prod.mk.injEq] at h
                obtain ⟨h1, h2⟩ := h
                subst h1 h2
                obtain ⟨a1, a2, a3, a4⟩ := net_only_drives_exclusive.mp hm
                obtain ⟨_, hnm⟩ := nets_find_some hnf
                refine ⟨p, rfl, ?_, ?_, a1, a2, a3, a4, ?_⟩
                · rw [hn, hnm]
                · rw [hnm]; exact hnf
                · rintro ⟨b1, b2, b3⟩
                  apply hcond
                  simp [b1, b2, b3]
  · rintro ⟨p, hp, hn, hnf, a1, a2, a3, a4, hcond⟩
    unfold find_dff
    simp only [hp, hn, resolve_net, hnf]
    rw [net_only_drives_exclusive.mpr ⟨a1, a2, a3, a4⟩]
    simp only
    split
    · rename_i hc
      exfalso
      apply hcond
      simp only [Bool.and_eq_true, decide_eq_true_eq] at hc
      exact ⟨hc.1.1, hc.1.2, hc.2⟩
    · rfl

/-! ## Names -/

theorem append_right_cancel {a b s : String} (h : a ++ s = b ++ s) : a = b := by
  have h1 := congrArg String.data h
  simp only [String.data_append] at h1
  exact String.ext (List.append_cancel_right h1)

theorem lc_ne_dfflc (a b : String) : a ++ "_LC" ≠ b ++ "_DFFLC" := by
  intro h
  have h1 := congrArg (fun s => s.data.reverse) h
  simp [String.data_append] at h1

theorem dfflc_ne_gnd (a : String) : a ++ "_DFFLC" ≠ "$PACKER_GND" := by
  intro h
  have h1 := congrArg (fun s => s.data.reverse) h
  simp [String.data_append] at h1

theorem dfflc_ne_vcc (a : String) : a ++ "_DFFLC" ≠ "$PACKER_VCC" := by
  intro h
  have h1 := congrArg (fun s => s.data.reverse) h
  simp [String.data_append] at h1

theorem lc_ne_gnd (a : String) : a ++ "_LC" ≠ "$PACKER_GND" := by
  intro h
  have h1 := congrArg (fun s => s.data.reverse) h
  simp [String.data_append] at h1

theorem lc_ne_vcc (a : String) : a ++ "_LC" ≠ "$PACKER_VCC" := by
  intro h
  have h1 := congrArg (fun s => s.data.reverse) h
  simp [String.data_append] at h1

/-! ## The cells and nets after each pass -/

theorem packed_lut_name (ci p : CellInfo) (m : Option (NetInfo × CellInfo)) :
    (packed_lut ci p m).name = p.name ∧ (packed_lut ci p m).type = p.type := by
  cases m with
  | none => simp [packed_lut, lut_to_lc]
  | some m =>
    obtain ⟨o, dff⟩ := m
    simp only [packed_lut]
    cases attrs_find dff.attrs "BEL" <;> simp [lut_to_lc, dff_to_lc]

theorem lut_new_cell_name (is_ff : CellInfo → Bool) (g : Design) (ci : CellInfo) :
    (lut_new_cell is_ff g ci).name = ci.name ++ "_LC"
      ∧ (lut_new_cell is_ff g ci).type = "ICESTORM_LC" := by
  unfold lut_new_cell
  exact packed_lut_name ci (new_lc ci "_LC") _

theorem ff_new_cell_name (ci : CellInfo) :
    (ff_new_cell ci).name = ci.name ++ "_DFFLC" ∧ (ff_new_cell ci).type = "ICESTORM_LC" := by
  simp [ff_new_cell, dff_to_lc, new_lc]

theorem nets_find_foldl_erase (names : List String) (nets : List NetInfo) (n : String) :
    nets_find (names.foldl nets_erase nets) n
      = if n ∈ names then none else nets_find nets n := by
  induction names generalizing nets with
  | nil => simp
  | cons x rest ih =>
    rw [List.foldl_cons, ih, nets_find_erase]
    by_cases h1 : n ∈ rest
    · simp [h1]
    · by_cases h2 : n = x
      · simp [h1, h2]
      · simp [h1, h2]

theorem mem_foldl_cells_set_of_base {new base : List CellInfo} {c : CellInfo}
    (hc : c ∈ base) (hne : ∀ x ∈ new, x.name ≠ c.name) : c ∈ new.foldl cells_set base := by
  induction new generalizing base with
  | nil => exact hc
  | cons x rest ih =>
    rw [List.foldl_cons]
    apply ih
    · exact mem_cells_set.mpr (Or.inl ⟨hc, fun e => hne x (List.mem_cons_self _ _) e.symm⟩)
    · intro y hy; exact hne y (List.mem_cons_of_mem _ hy)

theorem mem_foldl_cells_set_of_new {new base : List CellInfo} {c : CellInfo}
    (hc : c ∈ new) : ∃ x ∈ new, x.name = c.name ∧ x ∈ new.foldl cells_set base := by
  induction new generalizing base c with
  | nil => simp at hc
  | cons y rest ih =>
    rw [List.foldl_cons]
    by_cases hr : ∃ z ∈ rest, z.name = c.name
    · obtain ⟨z, hz, hzn⟩ := hr
      obtain ⟨x, hx, hxn, hxm⟩ := @ih (cells_set base y) z hz
      exact ⟨x, List.mem_cons_of_mem _ hx, hxn.trans hzn, hxm⟩
    · have hy : y = c := by
        rcases List.mem_cons.mp hc with h1 | h1
        · exact h1.symm
        · exact absurd ⟨c, h1, rfl⟩ hr
      subst hy
      refine ⟨y, List.mem_cons_self _ _, rfl, ?_⟩
      apply mem_foldl_cells_set_of_base
      · exact mem_cells_set.mpr (Or.inr rfl)
      · intro x hx e; exact hr ⟨x, hx, e⟩

/-- The lookups in the cell map after `pack_constants`. -/
theorem pack_constants_find {g g1 : Design} (h : pack_constants g = .ok g1) (x : String)
    (hg : x ≠ "$PACKER_GND") (hv : x ≠ "$PACKER_VCC") :
    cells_find g1.cells x = cells_find g.cells x := by
  obtain ⟨_, _, _, hc⟩ := pack_constants_ok h
  rw [hc, cells_find_foldl_set]
  cases hf : cells_find (g.nets.filterMap (registered g)).reverse x with
  | none => simp
  | some c =>
    exfalso
    obtain ⟨hm, hn⟩ := cells_find_some hf
    obtain ⟨ni, _, hr⟩ := List.mem_filterMap.mp (List.mem_reverse.mp hm)
    rcases registered_cases hr with ⟨h1, _⟩ | ⟨h1, _⟩
    · subst h1; exact hg hn.symm
    · subst h1; exact hv hn.symm

theorem pack_constants_find_some {g g1 : Design} (h : pack_constants g = .ok g1) {x : String}
    {c : CellInfo} (hf : cells_find g.cells x = some c) : cells_find g1.cells x = some c := by
  obtain ⟨hg, hv, _, _⟩ := pack_constants_ok h
  rw [pack_constants_find h x, hf]
  · intro e; rw [e, hg] at hf; cases hf
  · intro e; rw [e, hv] at hf; cases hf

theorem pack_constants_mem {g g1 : Design} (h : pack_constants g = .ok g1) {c : CellInfo}
    (hc : c ∈ g.cells) : c ∈ g1.cells := by
  obtain ⟨hg, hv, _, hcs⟩ := pack_constants_ok h
  rw [hcs]
  apply mem_foldl_cells_set_of_base hc
  intro x hx e
  obtain ⟨ni, _, hr⟩ := List.mem_filterMap.mp hx
  rcases registered_cases hr with ⟨h1, _⟩ | ⟨h1, _⟩
  · subst h1; exact cells_find_none.mp hg c hc e.symm
  · subst h1; exact cells_find_none.mp hv c hc e.symm

theorem pack_constants_mem_cases {g g1 : Design} (h : pack_constants g = .ok g1) {c : CellInfo}
    (hc : c ∈ g1.cells) : c ∈ g.cells ∨ c = gnd_cell ∨ c = vcc_cell := by
  obtain ⟨_, _, _, hcs⟩ := pack_constants_ok h
  rw [hcs] at hc
  rcases mem_foldl_cells_set hc with h1 | h1
  · obtain ⟨ni, _, hr⟩ := List.mem_filterMap.mp h1
    rcases registered_cases hr with ⟨h2, _⟩ | ⟨h2, _⟩
    · exact Or.inr (Or.inl h2)
    · exact Or.inr (Or.inr h2)
  · exact Or.inl h1

theorem rewired_name (g : Design) (ni : NetInfo) :
    (rewired g ni).name = ni.name ∧ (rewired g ni).users = ni.users
      ∧ ((rewired g ni).driver.isSome = ni.driver.isSome) := by
  unfold rewired
  by_cases h1 : driver_type g ni = some "GND"
  · rw [if_pos h1]
    refine ⟨rfl, rfl, ?_⟩
    cases hd : ni.driver with
    | none => simp [driver_type, hd] at h1
    | some d => rfl
  · rw [if_neg h1]
    by_cases h2 : driver_type g ni = some "VCC"
    · rw [if_pos h2]
      refine ⟨rfl, rfl, ?_⟩
      cases hd : ni.driver with
      | none => simp [driver_type, hd] at h2
      | some d => rfl
    · rw [if_neg h2]
      exact ⟨rfl, rfl, rfl⟩

theorem nets_find_map_rewired (g : Design) (nets : List NetInfo) (n : String) :
    nets_find (nets.map (rewired g)) n = (nets_find nets n).map (rewired g) := by
  induction nets with
  | nil => simp [nets_find]
  | cons x rest ih =>
    simp only [List.map_cons, nets_find, (rewired_name g x).1]
    by_cases hx : x.name = n
    · simp [hx]
    · simp [hx, ih]

theorem pack_constants_nets_find {g g1 : Design} (h : pack_constants g = .ok g1) (n : String) :
    nets_find g1.nets n = (nets_find g.nets n).map (rewired g) := by
  obtain ⟨_, _, hn, _⟩ := pack_constants_ok h
  rw [hn, nets_find_map_rewired]

/-- A successful `pack_design` is the three passes in order, each successful. -/
theorem pack_design_ok {is_lut is_ff : CellInfo → Bool} {g g3 : Design}
    (h : pack_design is_lut is_ff g = .ok g3) :
    ∃ g1 g2, pack_constants g = .ok g1 ∧ pack_lut_lutffs is_lut is_ff g1 = .ok g2
      ∧ pack_nonlut_ffs is_ff g2 = .ok g3 := by
  unfold pack_design at h
  cases h1 : pack_constants g with
  | error e => simp [h1] at h
  | ok g1 =>
    simp only [h1] at h
    cases h2 : pack_lut_lutffs is_lut is_ff g1 with
    | error e => simp [h2] at h
    | ok g2 =>
      simp only [h2] at h
      exact ⟨g1, g2, rfl, h2, h⟩

theorem cells_find_isSome_of_mem {cells : List CellInfo} {c : CellInfo} (hc : c ∈ cells) :
    ∃ x, cells_find cells c.name = some x := by
  cases hf : cells_find cells c.name with
  | some x => exact ⟨x, rfl⟩
  | none => exact absurd rfl (cells_find_none.mp hf c hc)

/-- The lookups in the cell map after `pack_lut_lutffs`: the new cells first
(the last one queued under a name wins), then the cells that were not erased. -/
theorem pack_lut_lutffs_find {is_lut is_ff : CellInfo → Bool} {g g2 : Design}
    (h : pack_lut_lutffs is_lut is_ff g = .ok g2) (x : String) :
    cells_find g2.cells x
      = (cells_find ((g.cells.filter is_lut).map (lut_new_cell is_ff g)).reverse x).orElse
          (fun _ => if x ∈ (g.cells.filter is_lut).flatMap (lut_packed_names is_ff g) then none
                    else cells_find g.cells x) := by
  obtain ⟨hc, _, _⟩ := pack_lut_lutffs_ok h
  rw [hc, cells_find_foldl_set, cells_find_foldl_erase]

/-- A name of the design on entry is not the name of a cell queued by a
successful `pack_lut_lutffs`. -/
theorem pack_lut_lutffs_new_fresh {is_lut is_ff : CellInfo → Bool} {g g2 : Design}
    (h : pack_lut_lutffs is_lut is_ff g = .ok g2) {x : String} {c : CellInfo}
    (hx : cells_find g.cells x = some c) :
    cells_find ((g.cells.filter is_lut).map (lut_new_cell is_ff g)).reverse x = none := by
  obtain ⟨_, _, hfresh⟩ := pack_lut_lutffs_ok h
  rw [cells_find_none]
  intro y hy hyn
  obtain ⟨ci, hci, hcy⟩ := List.mem_map.mp (List.mem_reverse.mp hy)
  obtain ⟨hcm, hcl⟩ := List.mem_filter.mp hci
  have h1 := (hfresh ci hcm hcl).1
  rw [← hcy, (lut_new_cell_name is_ff g ci).1] at hyn
  rw [hyn, hx] at h1
  cases h1

theorem pack_lut_lutffs_find_old {is_lut is_ff : CellInfo → Bool} {g g2 : Design}
    (h : pack_lut_lutffs is_lut is_ff g = .ok g2) {x : String} {c : CellInfo}
    (hx : cells_find g.cells x = some c) :
    cells_find g2.cells x
      = if x ∈ (g.cells.filter is_lut).flatMap (lut_packed_names is_ff g) then none
        else some c := by
  rw [pack_lut_lutffs_find h, pack_lut_lutffs_new_fresh h hx, hx]
  rfl

theorem pack_lut_lutffs_find_new {is_lut is_ff : CellInfo → Bool} {g g2 : Design}
    (h : pack_lut_lutffs is_lut is_ff g = .ok g2) {L : CellInfo} (hL : L ∈ g.cells)
    (hl : is_lut L = true) :
    ∃ L1, L1 ∈ g.cells ∧ is_lut L1 = true ∧ L1.name = L.name
      ∧ cells_find g2.cells (L.name ++ "_LC") = some (lut_new_cell is_ff g L1) := by
  rw [pack_lut_lutffs_find h]
  have hmem : lut_new_cell is_ff g L ∈ ((g.cells.filter is_lut).map (lut_new_cell is_ff g)).reverse :=
    List.mem_reverse.mpr (List.mem_map.mpr ⟨L, List.mem_filter.mpr ⟨hL, hl⟩, rfl⟩)
  obtain ⟨c, hc⟩ := cells_find_isSome_of_mem hmem
  rw [(lut_new_cell_name is_ff g L).1] at hc
  rw [hc]
  obtain ⟨hcm, hcn⟩ := cells_find_some hc
  obtain ⟨L1, hL1, hc1⟩ := List.mem_map.mp (List.mem_reverse.mp hcm)
  obtain ⟨hL1m, hL1l⟩ := List.mem_filter.mp hL1
  refine ⟨L1, hL1m, hL1l, ?_, ?_⟩
  · rw [← hc1, (lut_new_cell_name is_ff g L1).1] at hcn
    exact append_right_cancel hcn
  · rw [hc1]; rfl

theorem mem_of_nodup_name {cells : List CellInfo} (hnd : (cells.map CellInfo.name).Nodup)
    {a b : CellInfo} (ha : a ∈ cells) (hb : b ∈ cells) (hn : a.name = b.name) : a = b := by
  have h1 := cells_find_of_mem hnd ha
  have h2 := cells_find_of_mem hnd hb
  rw [hn, h2] at h1
  exact (Option.some.inj h1).symm

theorem pack_lut_lutffs_nets_find {is_lut is_ff : CellInfo → Bool} {g g2 : Design}
    (h : pack_lut_lutffs is_lut is_ff g = .ok g2) (x : String) :
    nets_find g2.nets x
      = if x ∈ (g.cells.filter is_lut).filterMap (lut_erased_net is_ff g) then none
        else nets_find g.nets x := by
  obtain ⟨_, hn, _⟩ := pack_lut_lutffs_ok h
  rw [hn, nets_find_foldl_erase]

theorem found_dff_of_find {is_ff : CellInfo → Bool} {g : Design} {ci : CellInfo}
    {m : Option (NetInfo × CellInfo)} (h : find_dff is_ff g ci = .ok m) :
    found_dff is_ff g ci = m := by
  simp [found_dff, h]

/-- The lookups in the cell map after `pack_nonlut_ffs`. -/
theorem pack_nonlut_ffs_find {is_ff : CellInfo → Bool} {g g3 : Design}
    (h : pack_nonlut_ffs is_ff g = .ok g3) (x : String) :
    cells_find g3.cells x
      = (cells_find ((g.cells.filter is_ff).map ff_new_cell).reverse x).orElse
          (fun _ => if x ∈ (g.cells.filter is_ff).map CellInfo.name then none
                    else cells_find g.cells x) := by
  obtain ⟨hc, _, _⟩ := pack_nonlut_ffs_ok h
  rw [hc, cells_find_foldl_set, cells_find_foldl_erase]

/-- The pair of a LUT and the flip-flop on its output net, as `pack_lut_lutffs`
matches it. -/
theorem find_dff_pair {is_ff : CellInfo → Bool} {g : Design} {L F : CellInfo} {n : NetInfo}
    {p : PortInfo} (hp : ports_at L "O" = .ok p) (hpn : p.net = some n.name)
    (hn : nets_find g.nets n.name = some n) (hdrv : n.driver.isSome = true)
    (husers : n.users = [{ cell := F.name, port := "D" }])
    (hF : cells_find g.cells F.name = some F) (hff : is_ff F = true)
    (hbel : ¬ ((attrs_find L.attrs "BEL").isSome = true
                ∧ (attrs_find F.attrs "BEL").isSome = true
                ∧ attrs_find L.attrs "BEL" ≠ attrs_find F.attrs "BEL")) :
    found_dff is_ff g L = some (n, F) :=
  found_dff_of_find (find_dff_some.mpr ⟨p, hp, hpn, hn, hdrv, husers, hF, hff, hbel⟩)

/-- The effect of `pack_lut_lutffs` on a LUT and the flip-flop it is packed
with: both names and the net between them are gone, the new cell is there. -/
theorem pack_lut_lutffs_pair {is_lut is_ff : CellInfo → Bool} {g g2 : Design}
    (h : pack_lut_lutffs is_lut is_ff g = .ok g2) {L F : CellInfo} {n : NetInfo}
    (hL : L ∈ g.cells) (hlut : is_lut L = true)
    (hfound : found_dff is_ff g L = some (n, F))
    (hF : cells_find g.cells F.name = some F) :
    cells_find g2.cells L.name = none ∧ cells_find g2.cells F.name = none
      ∧ (∃ c, cells_find g2.cells (L.name ++ "_LC") = some c ∧ c.type = "ICESTORM_LC")
      ∧ nets_find g2.nets n.name = none := by
  have hLf : L ∈ g.cells.filter is_lut := List.mem_filter.mpr ⟨hL, hlut⟩
  have hnames : lut_packed_names is_ff g L = [L.name, F.name] := by
    simp [lut_packed_names, hfound]
  refine ⟨?_, ?_, ?_, ?_⟩
  · obtain ⟨x, hx⟩ := cells_find_isSome_of_mem hL
    rw [pack_lut_lutffs_find_old h hx, if_pos]
    exact List.mem_flatMap.mpr ⟨L, hLf, by simp [hnames]⟩
  · rw [pack_lut_lutffs_find_old h hF, if_pos]
    exact List.mem_flatMap.mpr ⟨L, hLf, by simp [hnames]⟩
  · obtain ⟨L1, _, _, _, hc⟩ := pack_lut_lutffs_find_new h hL hlut
    exact ⟨_, hc, (lut_new_cell_name is_ff g L1).2⟩
  · rw [pack_lut_lutffs_nets_find h, if_pos]
    exact List.mem_filterMap.mpr ⟨L, hLf, by simp [lut_erased_net, hfound]⟩

/-! ## LUT and flip-flop pairs -/

/-- C2: a LUT `L` whose output net `n` (the net on its port `O`, with a
driver) has port `D` of a flip-flop `F` as its only sink, where `L` and `F` do
not both carry a `BEL` attribute with different values.  After
`pack_lut_lutffs` the design has no cell named as `L` or as `F`, it has a cell
named `L.name ++ "_LC"` of type `ICESTORM_LC`, and it has no net named as `n`.
After `pack_design` no cell named `F.name ++ "_DFFLC"` has been made: a design
that had no cell of that name on entry has none at the end. -/
theorem pack_merges_lut_ff_pair (is_lut is_ff : CellInfo → Bool) (g : Design)
    (L F : CellInfo) (n : NetInfo) (p : PortInfo)
    (hL : L ∈ g.cells) (hlut : is_lut L = true)
    (hp : ports_at L "O" = .ok p) (hpn : p.net = some n.name)
    (hn : nets_find g.nets n.name = some n) (hdrv : n.driver.isSome = true)
    (husers : n.users = [{ cell := F.name, port := "D" }])
    (hF : cells_find g.cells F.name = some F) (hff : is_ff F = true)
    (hbel : ¬ ((attrs_find L.attrs "BEL").isSome = true
                ∧ (attrs_find F.attrs "BEL").isSome = true
                ∧ attrs_find L.attrs "BEL" ≠ attrs_find F.attrs "BEL")) :
    (∀ g2, pack_lut_lutffs is_lut is_ff g = .ok g2 →
        cells_find g2.cells L.name = none ∧ cells_find g2.cells F.name = none
        ∧ (∃ c, cells_find g2.cells (L.name ++ "_LC") = some c ∧ c.type = "ICESTORM_LC")
        ∧ nets_find g2.nets n.name = none)
    ∧ (∀ g3, pack_design is_lut is_ff g = .ok g3 →
        cells_find g.cells (F.name ++ "_DFFLC") = none →
        cells_find g3.cells (F.name ++ "_DFFLC") = none) := by
  constructor
  · intro g2 h
    exact pack_lut_lutffs_pair h hL hlut (find_dff_pair hp hpn hn hdrv husers hF hff hbel) hF
  · intro g3 h hfresh
    obtain ⟨g1, g2, h1, h2, h3⟩ := pack_design_ok h
    have hn1 : nets_find g1.nets (rewired g n).name = some (rewired g n) := by
      rw [pack_constants_nets_find h1, (rewired_name g n).1, hn]; rfl
    have hfound : found_dff is_ff g1 L = some (rewired g n, F) :=
      find_dff_pair hp (by rw [(rewired_name g n).1]; exact hpn) hn1
        (by rw [(rewired_name g n).2.2]; exact hdrv)
        (by rw [(rewired_name g n).2.1]; exact husers)
        (pack_constants_find_some h1 hF) hff hbel
    have hF2 : cells_find g2.cells F.name = none :=
      (pack_lut_lutffs_pair h2 (pack_constants_mem h1 hL) hlut hfound
        (pack_constants_find_some h1 hF)).2.1
    have hD1 : cells_find g1.cells (F.name ++ "_DFFLC") = none := by
      rw [pack_constants_find h1 _ (dfflc_ne_gnd _) (dfflc_ne_vcc _)]; exact hfresh
    have hD2 : cells_find g2.cells (F.name ++ "_DFFLC") = none := by
      rw [pack_lut_lutffs_find h2]
      have hnew : cells_find ((g1.cells.filter is_lut).map (lut_new_cell is_ff g1)).reverse
          (F.name ++ "_DFFLC") = none := by
        rw [cells_find_none]
        intro y hy hyn
        obtain ⟨ci, _, hcy⟩ := List.mem_map.mp (List.mem_reverse.mp hy)
        rw [← hcy, (lut_new_cell_name is_ff g1 ci).1] at hyn
        exact lc_ne_dfflc _ _ hyn
      rw [hnew, hD1]
      simp
    rw [pack_nonlut_ffs_find h3]
    have hnew : cells_find ((g2.cells.filter is_ff).map ff_new_cell).reverse
        (F.name ++ "_DFFLC") = none := by
      rw [cells_find_none]
      intro y hy hyn
      obtain ⟨ci, hci, hcy⟩ := List.mem_map.mp (List.mem_reverse.mp hy)
      rw [← hcy, (ff_new_cell_name ci).1] at hyn
      exact cells_find_none.mp hF2 ci (List.mem_filter.mp hci).1 (append_right_cancel hyn)
    rw [hnew, hD2]
    simp

/-- Scenario A: `l0` and `f0` are packed into `l0_LC`; `l0`, `f0` and `n0` are
gone, and `pack_design` makes no `f0_DFFLC`. -/
theorem pack_merges_lut_ff_pair_witness :
    pack_lut_lutffs ex_is_lut ex_is_ff ex_pair = .ok ex_pair_packed
    ∧ pack_design ex_is_lut ex_is_ff ex_pair = .ok ex_pair_packed
    ∧ (cells_find ex_pair_packed.cells "l0" = none ∧ cells_find ex_pair_packed.cells "f0" = none
        ∧ (∃ c, cells_find ex_pair_packed.cells ("l0" ++ "_LC") = some c
              ∧ c.type = "ICESTORM_LC")
        ∧ nets_find ex_pair_packed.nets "n0" = none)
    ∧ cells_find ex_pair_packed.cells ("f0" ++ "_DFFLC") = none :=
  ⟨by decide, by decide,
   (pack_merges_lut_ff_pair ex_is_lut ex_is_ff ex_pair ex_l0 ex_f0 ex_n0
      { name := "O", net := some "n0" } (by decide) (by decide) (by decide) (by decide)
      (by decide) (by decide) (by decide) (by decide) (by decide) (by decide)).1
      ex_pair_packed (by decide),
   (pack_merges_lut_ff_pair ex_is_lut ex_is_ff ex_pair ex_l0 ex_f0 ex_n0
      { name := "O", net := some "n0" } (by decide) (by decide) (by decide) (by decide)
      (by decide) (by decide) (by decide) (by decide) (by decide) (by decide)).2
      ex_pair_packed (by decide) (by decide)⟩

/-! ## Cells that a pass keeps, cells that it replaces -/

theorem found_dff_some {is_ff : CellInfo → Bool} {g : Design} {ci : CellInfo}
    {m : NetInfo × CellInfo} (h : found_dff is_ff g ci = some m) :
    find_dff is_ff g ci = .ok (some m) := by
  unfold found_dff at h
  cases hf : find_dff is_ff g ci with
  | error e => simp [hf] at h
  | ok r =>
    simp only [hf] at h
    rw [h]

theorem mem_lut_packed_names {is_ff : CellInfo → Bool} {g : Design} {ci : CellInfo}
    {x : String} (h : x ∈ lut_packed_names is_ff g ci) :
    x = ci.name ∨ ∃ o dff, found_dff is_ff g ci = some (o, dff) ∧ x = dff.name := by
  unfold lut_packed_names at h
  cases hf : found_dff is_ff g ci with
  | none =>
    simp only [hf, List.mem_singleton] at h
    exact Or.inl h
  | some m =>
    obtain ⟨o, dff⟩ := m
    simp only [hf, List.mem_cons, List.mem_singleton, List.not_mem_nil, or_false] at h
    rcases h with h | h
    · exact Or.inl h
    · exact Or.inr ⟨o, dff, rfl, h⟩

theorem pack_lut_lutffs_keeps {is_lut is_ff : CellInfo → Bool} {g g2 : Design}
    (h : pack_lut_lutffs is_lut is_ff g = .ok g2) {x : String} {c : CellInfo}
    (hx : cells_find g.cells x = some c)
    (hk : ∀ ci ∈ g.cells, is_lut ci = true → x ∉ lut_packed_names is_ff g ci) :
    cells_find g2.cells x = some c := by
  rw [pack_lut_lutffs_find_old h hx, if_neg]
  intro hm
  obtain ⟨ci, hci, hxi⟩ := List.mem_flatMap.mp hm
  exact hk ci (List.mem_filter.mp hci).1 (List.mem_filter.mp hci).2 hxi

theorem pack_lut_lutffs_mem {is_lut is_ff : CellInfo → Bool} {g g2 : Design}
    (h : pack_lut_lutffs is_lut is_ff g = .ok g2) {y : CellInfo} (hy : y ∈ g2.cells) :
    (∃ ci ∈ g.cells, is_lut ci = true ∧ y = lut_new_cell is_ff g ci)
      ∨ (y ∈ g.cells
          ∧ y.name ∉ (g.cells.filter is_lut).flatMap (lut_packed_names is_ff g)) := by
  obtain ⟨hc, _, _⟩ := pack_lut_lutffs_ok h
  rw [hc] at hy
  rcases mem_foldl_cells_set hy with h1 | h1
  · obtain ⟨ci, hci, he⟩ := List.mem_map.mp h1
    exact Or.inl ⟨ci, (List.mem_filter.mp hci).1, (List.mem_filter.mp hci).2, he.symm⟩
  · exact Or.inr (mem_foldl_cells_erase.mp h1)

theorem pack_nonlut_ffs_mem {is_ff : CellInfo → Bool} {g g3 : Design}
    (h : pack_nonlut_ffs is_ff g = .ok g3) {y : CellInfo} (hy : y ∈ g3.cells) :
    (∃ ci ∈ g.cells, is_ff ci = true ∧ y = ff_new_cell ci)
      ∨ (y ∈ g.cells ∧ y.name ∉ (g.cells.filter is_ff).map CellInfo.name) := by
  obtain ⟨hc, _, _⟩ := pack_nonlut_ffs_ok h
  rw [hc] at hy
  rcases mem_foldl_cells_set hy with h1 | h1
  · obtain ⟨ci, hci, he⟩ := List.mem_map.mp h1
    exact Or.inl ⟨ci, (List.mem_filter.mp hci).1, (List.mem_filter.mp hci).2, he.symm⟩
  · exact Or.inr (mem_foldl_cells_erase.mp h1)

/-- The flip-flop `f0`, the only cell of its name on entry to `pack_nonlut_ffs`,
is replaced by its own logic cell. -/
theorem pack_nonlut_ffs_packs {is_ff : CellInfo → Bool} {g g3 : Design}
    (h : pack_nonlut_ffs is_ff g = .ok g3) {f0 : CellInfo} (hf : f0 ∈ g.cells)
    (hff : is_ff f0 = true) (huniq : ∀ y ∈ g.cells, y.name = f0.name → y = f0) :
    cells_find g3.cells f0.name = none
      ∧ cells_find g3.cells (f0.name ++ "_DFFLC") = some (ff_new_cell f0) := by
  obtain ⟨_, _, hfresh⟩ := pack_nonlut_ffs_ok h
  have hfm : f0 ∈ g.cells.filter is_ff := List.mem_filter.mpr ⟨hf, hff⟩
  constructor
  · rw [pack_nonlut_ffs_find h]
    have hnew : cells_find ((g.cells.filter is_ff).map ff_new_cell).reverse f0.name = none := by
      rw [cells_find_none]
      intro y hy hyn
      obtain ⟨ci, hci, hcy⟩ := List.mem_map.mp (List.mem_reverse.mp hy)
      have h1 := hfresh ci (List.mem_filter.mp hci).1 (List.mem_filter.mp hci).2
      rw [← hcy, (ff_new_cell_name ci).1] at hyn
      rw [hyn] at h1
      exact cells_find_none.mp h1 f0 hf rfl
    rw [hnew, if_pos (List.mem_map.mpr ⟨f0, hfm, rfl⟩)]
    rfl
  · rw [pack_nonlut_ffs_find h]
    have hmem : ff_new_cell f0 ∈ ((g.cells.filter is_ff).map ff_new_cell).reverse :=
      List.mem_reverse.mpr (List.mem_map.mpr ⟨f0, hfm, rfl⟩)
    obtain ⟨c, hc⟩ := cells_find_isSome_of_mem hmem
    rw [(ff_new_cell_name f0).1] at hc
    rw [hc]
    obtain ⟨hcm, hcn⟩ := cells_find_some hc
    obtain ⟨ci, hci, hcy⟩ := List.mem_map.mp (List.mem_reverse.mp hcm)
    rw [← hcy, (ff_new_cell_name ci).1] at hcn
    have := huniq ci (List.mem_filter.mp hci).1 (append_right_cancel hcn)
    subst this
    rw [hcy]
    rfl

theorem pack_constants_nets_mem {g g1 : Design} (h : pack_constants g = .ok g1) {m : NetInfo}
    (hm : m ∈ g1.nets) : ∃ m0 ∈ g.nets, m = rewired g m0 := by
  obtain ⟨_, _, hn, _⟩ := pack_constants_ok h
  rw [hn] at hm
  obtain ⟨m0, h0, h1⟩ := List.mem_map.mp hm
  exact ⟨m0, h0, h1.symm⟩

/-- A cell of the input that `pack_lut_lutffs`, run after `pack_constants`,
neither takes for a LUT nor packs with one, is kept, and no other cell has its
name. -/
theorem pack_design_keeps_until_ffs {is_lut is_ff : CellInfo → Bool} {g g1 g2 : Design}
    (hnd : (g.cells.map CellInfo.name).Nodup)
    (h1 : pack_constants g = .ok g1) (h2 : pack_lut_lutffs is_lut is_ff g1 = .ok g2)
    {f0 : CellInfo} (hf : f0 ∈ g.cells) (hnl : is_lut f0 = false)
    (hnm : ∀ ci ∈ g1.cells, is_lut ci = true → ∀ o dff,
        found_dff is_ff g1 ci = some (o, dff) → dff.name ≠ f0.name) :
    f0 ∈ g2.cells ∧ ∀ y ∈ g2.cells, y.name = f0.name → y = f0 := by
  obtain ⟨hg, hv, _, _⟩ := pack_constants_ok h1
  have huniq1 : ∀ y ∈ g1.cells, y.name = f0.name → y = f0 := by
    intro y hy hyn
    rcases pack_constants_mem_cases h1 hy with h | h | h
    · exact mem_of_nodup_name hnd h hf hyn
    · subst h; exact absurd hyn.symm (cells_find_none.mp hg f0 hf)
    · subst h; exact absurd hyn.symm (cells_find_none.mp hv f0 hf)
  have hf1 : cells_find g1.cells f0.name = some f0 :=
    pack_constants_find_some h1 (cells_find_of_mem hnd hf)
  have hkeep : ∀ ci ∈ g1.cells, is_lut ci = true → f0.name ∉ lut_packed_names is_ff g1 ci := by
    intro ci hci hcl hx
    rcases mem_lut_packed_names hx with h | ⟨o, dff, hfd, hn⟩
    · have := huniq1 ci hci h.symm
      subst this
      rw [hnl] at hcl
      cases hcl
    · exact hnm ci hci hcl o dff hfd hn.symm
  have hf2 := pack_lut_lutffs_keeps h2 hf1 hkeep
  refine ⟨(cells_find_some hf2).1, ?_⟩
  intro y hy hyn
  rcases pack_lut_lutffs_mem h2 hy with ⟨ci, hci, hcl, he⟩ | ⟨hy1, _⟩
  · exfalso
    have hnew := pack_lut_lutffs_new_fresh h2 hf1
    rw [cells_find_none] at hnew
    exact hnew y (List.mem_reverse.mpr (List.mem_map.mpr
      ⟨ci, List.mem_filter.mpr ⟨hci, hcl⟩, he.symm⟩)) hyn
  · exact huniq1 y hy1 hyn

/-- A net with more than one sink, or with a single sink that is not port `D`
of a flip-flop, is not the net of a packed pair. -/
theorem no_pair_of_sinks {is_ff : CellInfo → Bool} {g : Design} {n : NetInfo}
    (hsinks : 1 < n.users.length ∨ ∃ u, n.users = [u]
        ∧ ¬ (u.port = "D" ∧ ∃ F, cells_find g.cells u.cell = some F ∧ is_ff F = true))
    {F : CellInfo} (hu : n.users = [{ cell := F.name, port := "D" }])
    (hF : cells_find g.cells F.name = some F) (hff : is_ff F = true) : False := by
  rcases hsinks with h | ⟨u, h1, h2⟩
  · rw [hu] at h
    simp at h
  · rw [hu] at h1
    simp only [List.cons.injEq, and_true] at h1
    subst h1
    exact h2 ⟨rfl, F, hF, hff⟩

theorem found_dff_unmatched {is_ff : CellInfo → Bool} {g : Design} {L : CellInfo}
    {n : NetInfo} {p : PortInfo} (hp : ports_at L "O" = .ok p) (hpn : p.net = some n.name)
    (hn : nets_find g.nets n.name = some n)
    (hsinks : 1 < n.users.length ∨ ∃ u, n.users = [u]
        ∧ ¬ (u.port = "D" ∧ ∃ F, cells_find g.cells u.cell = some F ∧ is_ff F = true)) :
    found_dff is_ff g L = none := by
  cases hf : found_dff is_ff g L with
  | none => rfl
  | some m =>
    exfalso
    obtain ⟨o, dff⟩ := m
    obtain ⟨p1, a1, a2, a3, _, a5, a6, a7, _⟩ := find_dff_some.mp (found_dff_some hf)
    rw [hp] at a1
    have hpe : p = p1 := Except.ok.inj a1
    subst hpe
    rw [hpn] at a2
    have hne : n.name = o.name := Option.some.inj a2
    rw [← hne, hn] at a3
    have hno : n = o := Option.some.inj a3
    subst hno
    exact no_pair_of_sinks hsinks a5 a6 a7

/-- The net of a LUT that is not packed with a flip-flop is not erased by
`pack_lut_lutffs`, whatever the other LUTs are packed with. -/
theorem pack_lut_lutffs_keeps_net {is_lut is_ff : CellInfo → Bool} {g g2 : Design}
    (h : pack_lut_lutffs is_lut is_ff g = .ok g2) {n : NetInfo}
    (hn : nets_find g.nets n.name = some n)
    (hno : ∀ F, n.users = [{ cell := F.name, port := "D" }] →
        cells_find g.cells F.name = some F → is_ff F = true →
        ∀ ci ∈ g.cells, is_lut ci = true → found_dff is_ff g ci ≠ some (n, F)) :
    nets_find g2.nets n.name = some n := by
  rw [pack_lut_lutffs_nets_find h, if_neg, hn]
  intro hm
  obtain ⟨ci, hci, he⟩ := List.mem_filterMap.mp hm
  unfold lut_erased_net at he
  cases hf : found_dff is_ff g ci with
  | none => simp [hf] at he
  | some m =>
    obtain ⟨o, dff⟩ := m
    simp only [hf, Option.map_some', Option.some.injEq] at he
    obtain ⟨p1, _, _, a3, _, a5, a6, a7, _⟩ := find_dff_some.mp (found_dff_some hf)
    rw [he, hn] at a3
    have hno2 : n = o := Option.some.inj a3
    subst hno2
    exact hno dff a5 a6 a7 ci (List.mem_filter.mp hci).1 (List.mem_filter.mp hci).2 hf

/-- C3, as the code behaves.  In a design whose cells have distinct names, take
a LUT `L` whose output net `n` has more than one sink, or a single sink that is
not port `D` of a flip-flop.  After `pack_lut_lutffs` no cell is named as `L`,
the cell `L.name ++ "_LC"` is the new cell configured by `lut_to_lc` alone
with `no_dff = true`, and the net `n` is still in the design; the loop body
notes only `L` as packed and leaves the design as it is.  After `pack_design`,
a flip-flop `f0` among the sinks of `n` that is not a LUT and that
`pack_lut_lutffs` packs with no LUT (`find_dff` gives it for no LUT of `g1`,
the design that `pack_constants` hands to `pack_lut_lutffs`) has been replaced
by its own cell `f0.name ++ "_DFFLC"`. -/
theorem pack_unmatched_lut_standalone (is_lut is_ff : CellInfo → Bool) (g : Design)
    (L : CellInfo) (n : NetInfo) (p : PortInfo)
    (hnd : (g.cells.map CellInfo.name).Nodup)
    (hL : L ∈ g.cells) (hlut : is_lut L = true)
    (hp : ports_at L "O" = .ok p) (hpn : p.net = some n.name)
    (hn : nets_find g.nets n.name = some n)
    (hsinks : 1 < n.users.length ∨ ∃ u, n.users = [u]
        ∧ ¬ (u.port = "D" ∧ ∃ F, cells_find g.cells u.cell = some F ∧ is_ff F = true)) :
    (∀ g2, pack_lut_lutffs is_lut is_ff g = .ok g2 →
        cells_find g2.cells L.name = none
        ∧ cells_find g2.cells (L.name ++ "_LC") = some (lut_to_lc L (new_lc L "_LC") true)
        ∧ (lut_to_lc L (new_lc L "_LC") true).config
            = [{ kind := .lut, source := L.name, standalone := true }]
        ∧ nets_find g2.nets n.name = some n)
    ∧ (∀ st st1, pack_lut_lutffs_step is_lut is_ff g st L = .ok st1 →
        st1.packed_cells = st.packed_cells ++ [L.name] ∧ st1.design = st.design)
    ∧ (∀ g1 g3 f0 q, pack_constants g = .ok g1 → pack_design is_lut is_ff g = .ok g3 →
        f0 ∈ g.cells → is_ff f0 = true → is_lut f0 = false →
        { cell := f0.name, port := q } ∈ n.users →
        (∀ ci ∈ g1.cells, is_lut ci = true → ∀ o F,
            find_dff is_ff g1 ci = .ok (some (o, F)) → F.name ≠ f0.name) →
        cells_find g3.cells f0.name = none
        ∧ cells_find g3.cells (f0.name ++ "_DFFLC")
            = some (dff_to_lc f0 (new_lc f0 "_DFFLC") true)) := by
  have hnone : found_dff is_ff g L = none := found_dff_unmatched hp hpn hn hsinks
  refine ⟨?_, ?_, ?_⟩
  · intro g2 h
    have hLf : L ∈ g.cells.filter is_lut := List.mem_filter.mpr ⟨hL, hlut⟩
    refine ⟨?_, ?_, rfl, ?_⟩
    · obtain ⟨x, hx⟩ := cells_find_isSome_of_mem hL
      rw [pack_lut_lutffs_find_old h hx, if_pos]
      exact List.mem_flatMap.mpr ⟨L, hLf, by simp [lut_packed_names, hnone]⟩
    · obtain ⟨L1, hL1, _, hname, hc⟩ := pack_lut_lutffs_find_new h hL hlut
      have := mem_of_nodup_name hnd hL1 hL hname
      subst this
      rw [hc]
      simp [lut_new_cell, hnone, packed_lut]
    · apply pack_lut_lutffs_keeps_net h hn
      intro F hu hF hff
      exact absurd hff (fun _ => no_pair_of_sinks hsinks hu hF hff)
  · intro st st1 h
    obtain ⟨_, found, hf, hst⟩ := pack_lut_lutffs_step_ok h hlut
    have hfn : found = none := by
      rw [← found_dff_of_find hf]; exact hnone
    subst hfn
    rw [hst]
    exact ⟨rfl, rfl⟩
  · intro g1 g3 f0 q hc h hf hff hnl _ hnomatch
    obtain ⟨g1a, g2, h1, h2, h3⟩ := pack_design_ok h
    have hg1 : g1a = g1 := by
      rw [hc] at h1
      exact (Except.ok.inj h1).symm
    subst hg1
    have hnm : ∀ ci ∈ g1a.cells, is_lut ci = true → ∀ o dff,
        found_dff is_ff g1a ci = some (o, dff) → dff.name ≠ f0.name := by
      intro ci hci hcl o dff hfd
      exact hnomatch ci hci hcl o dff (found_dff_some hfd)
    obtain ⟨hf2, huniq⟩ := pack_design_keeps_until_ffs hnd h1 h2 hf hnl hnm
    exact pack_nonlut_ffs_packs h3 hf2 hff huniq

/-- Scenario B: `n0` has a second sink, so `l0` is packed alone into `l0_LC`,
`n0` stays, and `f0` is packed into `f0_DFFLC` by `pack_nonlut_ffs`.  The
design `ex_pad_fed`: the only sink of `n0` is port `E` of `f0`, whose port `D`
is the only sink of a net driven by a pad; `f0` is packed with no LUT and is
packed into `f0_DFFLC`. -/
theorem pack_unmatched_lut_standalone_witness :
    pack_lut_lutffs ex_is_lut ex_is_ff ex_fanout = .ok ex_fanout_luts
    ∧ pack_design ex_is_lut ex_is_ff ex_fanout = .ok ex_fanout_packed
    ∧ (cells_find ex_fanout_luts.cells "l0" = none
        ∧ cells_find ex_fanout_luts.cells ("l0" ++ "_LC")
            = some (lut_to_lc ex_l0 (new_lc ex_l0 "_LC") true)
        ∧ (lut_to_lc ex_l0 (new_lc ex_l0 "_LC") true).config
            = [{ kind := .lut, source := "l0", standalone := true }]
        ∧ nets_find ex_fanout_luts.nets "n0" = some ex_n0_fanout)
    ∧ (cells_find ex_fanout_packed.cells "f0" = none
        ∧ cells_find ex_fanout_packed.cells ("f0" ++ "_DFFLC")
            = some (dff_to_lc ex_f0 (new_lc ex_f0 "_DFFLC") true))
    ∧ pack_design ex_is_lut ex_is_ff ex_pad_fed = .ok ex_pad_fed_packed
    ∧ ex_n1_pad.users = [{ cell := "f0", port := "D" }]
    ∧ (cells_find ex_pad_fed_packed.cells "f0" = none
        ∧ cells_find ex_pad_fed_packed.cells ("f0" ++ "_DFFLC")
            = some (dff_to_lc ex_f0_enable (new_lc ex_f0_enable "_DFFLC") true)) :=
  ⟨by decide, by decide,
   (pack_unmatched_lut_standalone ex_is_lut ex_is_ff ex_fanout ex_l0 ex_n0_fanout
      { name := "O", net := some "n0" } (by decide) (by decide) (by decide) (by decide)
      (by decide) (by decide) (Or.inl (by decide))).1 ex_fanout_luts (by decide),
   (pack_unmatched_lut_standalone ex_is_lut ex_is_ff ex_fanout ex_l0 ex_n0_fanout
      { name := "O", net := some "n0" } (by decide) (by decide) (by decide) (by decide)
      (by decide) (by decide) (Or.inl (by decide))).2.2 ex_fanout ex_fanout_packed ex_f0 "D"
      (by decide) (by decide) (by decide) (by decide) (by decide) (by decide)
      (by
        intro ci hci hl o F hfd
        simp only [ex_fanout, List.mem_cons, List.mem_singleton, List.not_mem_nil,
          or_false] at hci
        rcases hci with h | h | h
        · subst h
          have hnone : find_dff ex_is_ff ex_fanout ex_l0 = .ok none := by decide
          rw [hnone] at hfd
          cases hfd
        · subst h
          exact absurd hl (by decide)
        · subst h
          exact absurd hl (by decide)),
   by decide, by decide,
   (pack_unmatched_lut_standalone ex_is_lut ex_is_ff ex_pad_fed ex_l0 ex_n0_enable
      { name := "O", net := some "n0" } (by decide) (by decide) (by decide) (by decide)
      (by decide) (by decide)
      (Or.inr ⟨{ cell := "f0", port := "E" }, rfl, by intro h; exact absurd h.1 (by decide)⟩)).2.2
      ex_pad_fed ex_pad_fed_packed ex_f0_enable "E"
      (by decide) (by decide) (by decide) (by decide) (by decide) (by decide)
      (by
        intro ci hci hl o F hfd
        simp only [ex_pad_fed, List.mem_cons, List.mem_singleton, List.not_mem_nil,
          or_false] at hci
        rcases hci with h | h | h
        · subst h
          have hnone : find_dff ex_is_ff ex_pad_fed ex_l0 = .ok none := by decide
          rw [hnone] at hfd
          cases hfd
        · subst h
          exact absurd hl (by decide)
        · subst h
          exact absurd hl (by decide))⟩

/-- C3 fails as stated: in `ex_enable` the only sink of the output net `n0` of
the LUT `l0` is port `E` of the flip-flop `f0`, not a port `D`; `f0` is packed
with the LUT `l1` that drives its port `D`, and `pack_design` leaves no cell
`f0_DFFLC`. -/
theorem pack_design_sink_ff_packed_elsewhere :
    ex_l0 ∈ ex_enable.cells ∧ ex_is_lut ex_l0 = true
    ∧ ports_at ex_l0 "O" = .ok { name := "O", net := some "n0" }
    ∧ nets_find ex_enable.nets "n0" = some ex_n0_enable
    ∧ ex_n0_enable.users = [{ cell := "f0", port := "E" }]
    ∧ cells_find ex_enable.cells "f0" = some ex_f0_enable ∧ ex_is_ff ex_f0_enable = true
    ∧ pack_design ex_is_lut ex_is_ff ex_enable = .ok ex_enable_packed
    ∧ cells_find ex_enable_packed.cells "f0_DFFLC" = none := by
  decide

theorem pack_constants_uniq {g g1 : Design} (hnd : (g.cells.map CellInfo.name).Nodup)
    (h1 : pack_constants g = .ok g1) {c : CellInfo} (hc : c ∈ g.cells) :
    ∀ y ∈ g1.cells, y.name = c.name → y = c := by
  obtain ⟨hg, hv, _, _⟩ := pack_constants_ok h1
  intro y hy hyn
  rcases pack_constants_mem_cases h1 hy with h | h | h
  · exact mem_of_nodup_name hnd h hc hyn
  · subst h; exact absurd hyn.symm (cells_find_none.mp hg c hc)
  · subst h; exact absurd hyn.symm (cells_find_none.mp hv c hc)

theorem ports_at_const {p : PortInfo} :
    ports_at gnd_cell "O" ≠ .ok p ∧ ports_at vcc_cell "O" ≠ .ok p := by
  constructor <;> intro h <;> simp [ports_at, gnd_cell, vcc_cell] at h

/-- A LUT and the flip-flop on its output net that carry different `BEL`
values: after `pack_constants`, `pack_lut_lutffs` packs the flip-flop with no
LUT, when no other LUT has its port `O` on the net and no other net has port
`D` of the flip-flop as its only sink. -/
theorem conflict_pair_unmatched (is_lut is_ff : CellInfo → Bool) {g g1 : Design}
    {L F : CellInfo} {n : NetInfo} {p : PortInfo} {bl bf : String}
    (h1 : pack_constants g = .ok g1)
    (hp : ports_at L "O" = .ok p) (hpn : p.net = some n.name)
    (hn : nets_find g.nets n.name = some n)
    (hF : cells_find g.cells F.name = some F)
    (hbl : attrs_find L.attrs "BEL" = some bl) (hbf : attrs_find F.attrs "BEL" = some bf)
    (hne : bl ≠ bf)
    (hw1 : ∀ ci ∈ g.cells, is_lut ci = true →
        ∀ q, ports_at ci "O" = .ok q → q.net = some n.name → ci = L)
    (hw2 : ∀ m ∈ g.nets, m.users = [{ cell := F.name, port := "D" }] → m = n) :
    ∀ ci ∈ g1.cells, is_lut ci = true → ∀ o dff,
      found_dff is_ff g1 ci = some (o, dff) → dff.name ≠ F.name := by
  intro ci hci hcl o dff hfd hname
  obtain ⟨q, a1, a2, a3, _, a5, a6, _, a8⟩ := find_dff_some.mp (found_dff_some hfd)
  obtain ⟨m0, hm0, he⟩ := pack_constants_nets_mem h1 (nets_find_some a3).1
  have hm0u : m0.users = [{ cell := F.name, port := "D" }] := by
    rw [← (rewired_name g m0).2.1, ← he, a5, hname]
  have hm0n := hw2 m0 hm0 hm0u
  subst hm0n
  have hon : o.name = m0.name := by rw [he]; exact (rewired_name g m0).1
  have hdf : dff = F := by
    rw [hname, pack_constants_find_some h1 hF] at a6
    exact (Option.some.inj a6).symm
  subst hdf
  have hciL : ci = L := by
    rcases pack_constants_mem_cases h1 hci with h | h | h
    · exact hw1 ci h hcl q a1 (by rw [a2, hon])
    · subst h; exact absurd a1 ports_at_const.1
    · subst h; exact absurd a1 ports_at_const.2
  subst hciL
  apply a8
  rw [hbl, hbf]
  exact ⟨rfl, rfl, fun e => hne (Option.some.inj e)⟩

/-- C4: a LUT `L` and a flip-flop `F` (not itself a LUT), where port `D` of `F`
is the only sink of the output net `n` of `L` and the two cells carry
different `BEL` values, in a design with distinct cell names that is well
formed around the pair (no other LUT has its port `O` on `n`, no other net
has port `D` of `F` as its only sink).  `pack_design` does not pack them
together: at the end neither `L` nor `F` is in the design, the cell
`L.name ++ "_LC"` is configured from `L` alone and carries the `BEL` value of
`L`, the cell `F.name ++ "_DFFLC"` is configured from `F` alone and carries
the `BEL` value of `F`, and the net `n` is still in the design with its sinks.
The classifiers are assumed false on `ICESTORM_LC` cells. -/
theorem pack_design_keeps_conflicting_pair_apart (is_lut is_ff : CellInfo → Bool)
    (g g3 : Design) (L F : CellInfo) (n : NetInfo) (p : PortInfo) (bl bf : String)
    (hlc : ∀ c : CellInfo, c.type = "ICESTORM_LC" → is_lut c = false ∧ is_ff c = false)
    (hnd : (g.cells.map CellInfo.name).Nodup)
    (hL : L ∈ g.cells) (hlut : is_lut L = true)
    (hp : ports_at L "O" = .ok p) (hpn : p.net = some n.name)
    (hn : nets_find g.nets n.name = some n)
    (husers : n.users = [{ cell := F.name, port := "D" }])
    (hF : cells_find g.cells F.name = some F) (hff : is_ff F = true)
    (hnl : is_lut F = false)
    (hbl : attrs_find L.attrs "BEL" = some bl) (hbf : attrs_find F.attrs "BEL" = some bf)
    (hne : bl ≠ bf)
    (hw1 : ∀ ci ∈ g.cells, is_lut ci = true →
        ∀ q, ports_at ci "O" = .ok q → q.net = some n.name → ci = L)
    (hw2 : ∀ m ∈ g.nets, m.users = [{ cell := F.name, port := "D" }] → m = n)
    (h : pack_design is_lut is_ff g = .ok g3) :
    L ∉ g3.cells ∧ F ∉ g3.cells
    ∧ cells_find g3.cells (L.name ++ "_LC") = some (lut_to_lc L (new_lc L "_LC") true)
    ∧ attrs_find (lut_to_lc L (new_lc L "_LC") true).attrs "BEL" = some bl
    ∧ cells_find g3.cells (F.name ++ "_DFFLC") = some (dff_to_lc F (new_lc F "_DFFLC") true)
    ∧ attrs_find (dff_to_lc F (new_lc F "_DFFLC") true).attrs "BEL" = some bf
    ∧ ∃ n3, nets_find g3.nets n.name = some n3 ∧ n3.users = n.users := by
  obtain ⟨g1, g2, h1, h2, h3⟩ := pack_design_ok h
  have hFm : F ∈ g.cells := (cells_find_some hF).1
  have hun := conflict_pair_unmatched is_lut is_ff h1 hp hpn hn hF hbl hbf hne hw1 hw2
  have hL1 : L ∈ g1.cells := pack_constants_mem h1 hL
  have hLf : L ∈ g1.cells.filter is_lut := List.mem_filter.mpr ⟨hL1, hlut⟩
  -- the LUT is packed alone
  have hnone : found_dff is_ff g1 L = none := by
    cases hfd : found_dff is_ff g1 L with
    | none => rfl
    | some m =>
      exfalso
      obtain ⟨o, dff⟩ := m
      obtain ⟨q, a1, a2, a3, _, a5, _, _, _⟩ := find_dff_some.mp (found_dff_some hfd)
      rw [hp] at a1
      have hq : p = q := Except.ok.inj a1
      subst hq
      rw [hpn] at a2
      rw [← Option.some.inj a2, pack_constants_nets_find h1, hn] at a3
      have ho : rewired g n = o := Option.some.inj a3
      rw [← ho, (rewired_name g n).2.1, husers] at a5
      simp only [List.cons.injEq, PortRef.mk.injEq, and_true] at a5
      exact hun L hL1 hlut o dff hfd a5.symm
  have hL2 : cells_find g2.cells L.name = none := by
    obtain ⟨x, hx⟩ := cells_find_isSome_of_mem hL1
    rw [pack_lut_lutffs_find_old h2 hx, if_pos]
    exact List.mem_flatMap.mpr ⟨L, hLf, by simp [lut_packed_names, hnone]⟩
  have hLC2 : cells_find g2.cells (L.name ++ "_LC")
      = some (lut_to_lc L (new_lc L "_LC") true) := by
    obtain ⟨L1, hL1m, _, hname, hc⟩ := pack_lut_lutffs_find_new h2 hL1 hlut
    have := pack_constants_uniq hnd h1 hL L1 hL1m hname
    subst this
    rw [hc]
    simp [lut_new_cell, hnone, packed_lut]
  -- the flip-flop is left to `pack_nonlut_ffs`
  obtain ⟨hF2, huniq⟩ := pack_design_keeps_until_ffs hnd h1 h2 hFm hnl hun
  obtain ⟨hF3, hFD3⟩ := pack_nonlut_ffs_packs h3 hF2 hff huniq
  obtain ⟨_, hnets3, _⟩ := pack_nonlut_ffs_ok h3
  obtain ⟨_, _, hfresh2⟩ := pack_lut_lutffs_ok h2
  refine ⟨?_, ?_, ?_, ?_, hFD3, ?_, ?_⟩
  · intro hL3
    rcases pack_nonlut_ffs_mem h3 hL3 with ⟨ci, _, _, he⟩ | ⟨hm, _⟩
    · have ht : L.type = "ICESTORM_LC" := by rw [he]; exact (ff_new_cell_name ci).2
      rw [(hlc L ht).1] at hlut
      cases hlut
    · exact cells_find_none.mp hL2 L hm rfl
  · intro hF3m
    exact cells_find_none.mp hF3 F hF3m rfl
  · rw [pack_nonlut_ffs_find h3]
    have hnew : cells_find ((g2.cells.filter is_ff).map ff_new_cell).reverse
        (L.name ++ "_LC") = none := by
      rw [cells_find_none]
      intro y hy hyn
      obtain ⟨ci, _, hcy⟩ := List.mem_map.mp (List.mem_reverse.mp hy)
      rw [← hcy, (ff_new_cell_name ci).1] at hyn
      exact lc_ne_dfflc _ _ hyn.symm
    rw [hnew, hLC2, if_neg]
    · rfl
    · intro hm
      obtain ⟨y, hy, hyn⟩ := List.mem_map.mp hm
      obtain ⟨hy2, hyf⟩ := List.mem_filter.mp hy
      rcases pack_lut_lutffs_mem h2 hy2 with ⟨ci, _, _, he⟩ | ⟨hy1, _⟩
      · have ht : y.type = "ICESTORM_LC" := by rw [he]; exact (lut_new_cell_name is_ff g1 ci).2
        rw [(hlc y ht).2] at hyf
        cases hyf
      · exact cells_find_none.mp (hfresh2 L hL1 hlut).1 y hy1 hyn
  · simp only [lut_to_lc, new_lc]
    rw [attrs_find_copy_nil, hbl]
  · simp only [dff_to_lc, new_lc]
    rw [attrs_find_copy_nil, hbf]
  · refine ⟨rewired g n, ?_, (rewired_name g n).2.1⟩
    rw [hnets3]
    have hn1 : nets_find g1.nets (rewired g n).name = some (rewired g n) := by
      rw [pack_constants_nets_find h1, (rewired_name g n).1, hn]; rfl
    have := pack_lut_lutffs_keeps_net h2 hn1 (by
      intro F1 hu1 _ _ ci hci hcl hfd
      rw [(rewired_name g n).2.1, husers] at hu1
      simp only [List.cons.injEq, PortRef.mk.injEq, and_true] at hu1
      exact hun ci hci hcl _ F1 hfd hu1.symm)
    rw [(rewired_name g n).1] at this
    exact this

/-- The design `ex_conflict`: `l0` at `X1/Y1/lc0` and `f0` at `X2/Y2/lc0` end
as the two cells `l0_LC` and `f0_DFFLC`, each at the location of its source. -/
theorem pack_design_keeps_conflicting_pair_apart_witness :
    pack_design ex_is_lut ex_is_ff ex_conflict = .ok ex_conflict_packed
    ∧ ex_l0_placed ∉ ex_conflict_packed.cells ∧ ex_f0_placed ∉ ex_conflict_packed.cells
    ∧ cells_find ex_conflict_packed.cells ("l0" ++ "_LC")
        = some (lut_to_lc ex_l0_placed (new_lc ex_l0_placed "_LC") true)
    ∧ attrs_find (lut_to_lc ex_l0_placed (new_lc ex_l0_placed "_LC") true).attrs "BEL"
        = some "X1/Y1/lc0"
    ∧ cells_find ex_conflict_packed.cells ("f0" ++ "_DFFLC")
        = some (dff_to_lc ex_f0_placed (new_lc ex_f0_placed "_DFFLC") true)
    ∧ attrs_find (dff_to_lc ex_f0_placed (new_lc ex_f0_placed "_DFFLC") true).attrs "BEL"
        = some "X2/Y2/lc0"
    ∧ ∃ n3, nets_find ex_conflict_packed.nets "n0" = some n3 ∧ n3.users = ex_n0.users :=
  ⟨by decide,
   pack_design_keeps_conflicting_pair_apart ex_is_lut ex_is_ff ex_conflict ex_conflict_packed
     ex_l0_placed ex_f0_placed ex_n0 { name := "O", net := some "n0" }
     "X1/Y1/lc0" "X2/Y2/lc0"
     (by intro c hc; simp [ex_is_lut, ex_is_ff, hc])
     (by decide) (by decide) (by decide) (by decide) (by decide) (by decide) (by decide)
     (by decide) (by decide) (by decide) (by decide) (by decide) (by decide)
     (by
       intro ci hci _ q hq _
       simp only [ex_conflict, List.mem_cons, List.mem_singleton, List.not_mem_nil,
         or_false] at hci
       rcases hci with h | h
       · exact h
       · subst h
         simp [ports_at, ex_f0_placed] at hq)
     (by decide) (by decide)⟩

/-! ## Attributes of the new cells -/

theorem packed_lut_attrs (ci : CellInfo) (m : Option (NetInfo × CellInfo)) (k : String) :
    attrs_find (packed_lut ci (new_lc ci "_LC") m).attrs k
      = match m with
        | none => attrs_find ci.attrs k
        | some (_, dff) =>
          if k = "BEL" then
            (attrs_find dff.attrs "BEL").orElse (fun _ => attrs_find ci.attrs "BEL")
          else attrs_find ci.attrs k := by
  cases m with
  | none => simp [packed_lut, lut_to_lc, new_lc, attrs_find_copy_nil]
  | some m =>
    obtain ⟨o, dff⟩ := m
    simp only [packed_lut]
    cases hb : attrs_find dff.attrs "BEL" with
    | none =>
      simp only [lut_to_lc, dff_to_lc, new_lc, attrs_find_copy_nil]
      by_cases hk : k = "BEL"
      · simp [hk]
      · simp [hk]
    | some v =>
      simp only [lut_to_lc, dff_to_lc, new_lc, attrs_find_set, attrs_find_copy_nil]
      by_cases hk : k = "BEL"
      · simp [hk]
      · simp [hk]

/-! ## Attribute keys of the new cells, for transforms that carry attributes -/

/-- With the transforms of this file the parametrised scans are the scans. -/
theorem scans_by_transforms :
    pack_lut_lutffs_scan_by lut_to_lc dff_to_lc = pack_lut_lutffs_scan
    ∧ (∀ (is_ff : CellInfo → Bool) (g : Design),
        pack_nonlut_ffs_scan_by dff_to_lc is_ff g
          = g.cells.foldlM (pack_nonlut_ffs_step is_ff)
              { design := g, packed_cells := [], new_cells := [] }) :=
  ⟨rfl, fun _ _ => rfl⟩

/-- C6: in a design with distinct cell names, after `pack_lut_lutffs` the cell
`L.name ++ "_LC"` made for a LUT `L` has every attribute of `L`, with the value
it has on `L`, whether `L` is packed with a flip-flop or not. -/
theorem lut_attrs_kept (is_lut is_ff : CellInfo → Bool) (g g2 : Design) (L : CellInfo)
    (k v : String) (hnd : (g.cells.map CellInfo.name).Nodup)
    (hL : L ∈ g.cells) (hlut : is_lut L = true) (hk : attrs_find L.attrs k = some v)
    (h : pack_lut_lutffs is_lut is_ff g = .ok g2) :
    ∃ c, cells_find g2.cells (L.name ++ "_LC") = some c ∧ attrs_find c.attrs k = some v := by
  obtain ⟨L1, hL1, _, hname, hc⟩ := pack_lut_lutffs_find_new h hL hlut
  have := mem_of_nodup_name hnd hL1 hL hname
  subst this
  refine ⟨_, hc, ?_⟩
  rw [lut_new_cell, packed_lut_attrs]
  cases hfd : found_dff is_ff g L1 with
  | none => exact hk
  | some m =>
    obtain ⟨o, F⟩ := m
    simp only
    by_cases hkb : k = "BEL"
    · subst hkb
      rw [if_pos rfl]
      obtain ⟨_, _, _, _, _, _, _, _, a8⟩ := find_dff_some.mp (found_dff_some hfd)
      cases hb : attrs_find F.attrs "BEL" with
      | none => simpa using hk
      | some w =>
        have hvw : v = w := by
          by_contra hne
          apply a8
          rw [hk, hb]
          exact ⟨rfl, rfl, fun e => hne (Option.some.inj e)⟩
        subst hvw
        rfl
    · rw [if_neg hkb]
      exact hk

/-- The design `ex_pair_keep`: the truth table of `l0` is on `l0_LC`. -/
theorem lut_attrs_kept_witness :
    ∃ c, cells_find [ex_l0_lc_keep] ("l0" ++ "_LC") = some c
      ∧ attrs_find c.attrs "LUT_INIT" = some "1010" :=
  lut_attrs_kept ex_is_lut ex_is_ff ex_pair_keep { cells := [ex_l0_lc_keep], nets := [] }
    ex_l0 "LUT_INIT" "1010" (by decide) (by decide) (by decide) (by decide) (by decide)

/-! ## The whole design after packing -/

/-- The cell made for a LUT by `pack_lut_lutffs` is still there, under its
name, after `pack_nonlut_ffs`. -/
theorem pack_nonlut_ffs_keeps_lc {is_lut is_ff : CellInfo → Bool} {g1 g2 g3 : Design}
    (hlc : ∀ c : CellInfo, c.type = "ICESTORM_LC" → is_lut c = false ∧ is_ff c = false)
    (h2 : pack_lut_lutffs is_lut is_ff g1 = .ok g2) (h3 : pack_nonlut_ffs is_ff g2 = .ok g3)
    {L : CellInfo} (hL : L ∈ g1.cells) (hlut : is_lut L = true) :
    cells_find g3.cells (L.name ++ "_LC") = cells_find g2.cells (L.name ++ "_LC") := by
  obtain ⟨_, _, hfresh2⟩ := pack_lut_lutffs_ok h2
  rw [pack_nonlut_ffs_find h3]
  have hnew : cells_find ((g2.cells.filter is_ff).map ff_new_cell).reverse
      (L.name ++ "_LC") = none := by
    rw [cells_find_none]
    intro y hy hyn
    obtain ⟨ci, _, hcy⟩ := List.mem_map.mp (List.mem_reverse.mp hy)
    rw [← hcy, (ff_new_cell_name ci).1] at hyn
    exact lc_ne_dfflc _ _ hyn.symm
  rw [hnew, if_neg]
  · rfl
  · intro hm
    obtain ⟨y, hy, hyn⟩ := List.mem_map.mp hm
    obtain ⟨hy2, hyf⟩ := List.mem_filter.mp hy
    rcases pack_lut_lutffs_mem h2 hy2 with ⟨ci, _, _, he⟩ | ⟨hy1, _⟩
    · have ht : y.type = "ICESTORM_LC" := by rw [he]; exact (lut_new_cell_name is_ff g1 ci).2
      rw [(hlc y ht).2] at hyf
      cases hyf
    · exact cells_find_none.mp (hfresh2 L hL hlut).1 y hy1 hyn

theorem mem_lut_packed_names_self (is_ff : CellInfo → Bool) (g : Design) (ci : CellInfo) :
    ci.name ∈ lut_packed_names is_ff g ci := by
  unfold lut_packed_names
  cases found_dff is_ff g ci with
  | none => simp
  | some m => obtain ⟨o, dff⟩ := m; simp

/-- No cell is a LUT or a flip-flop after `pack_design`, when the classifiers
are false on `ICESTORM_LC` cells. -/
theorem pack_design_no_lut_ff {is_lut is_ff : CellInfo → Bool} {g g3 : Design}
    (hlc : ∀ c : CellInfo, c.type = "ICESTORM_LC" → is_lut c = false ∧ is_ff c = false)
    (h : pack_design is_lut is_ff g = .ok g3) :
    ∀ c ∈ g3.cells, is_lut c = false ∧ is_ff c = false := by
  obtain ⟨g1, g2, _, h2, h3⟩ := pack_design_ok h
  intro c hc
  rcases pack_nonlut_ffs_mem h3 hc with ⟨ci, _, _, he⟩ | ⟨hc2, hnn⟩
  · exact hlc c (by rw [he]; exact (ff_new_cell_name ci).2)
  · constructor
    · rcases pack_lut_lutffs_mem h2 hc2 with ⟨ci, _, _, he⟩ | ⟨hc1, hnp⟩
      · exact (hlc c (by rw [he]; exact (lut_new_cell_name is_ff g1 ci).2)).1
      · cases hl : is_lut c with
        | false => rfl
        | true =>
          exfalso
          apply hnp
          exact List.mem_flatMap.mpr
            ⟨c, List.mem_filter.mpr ⟨hc1, hl⟩, mem_lut_packed_names_self is_ff g1 c⟩
    · cases hf : is_ff c with
      | false => rfl
      | true =>
        exfalso
        apply hnn
        exact List.mem_map.mpr ⟨c, List.mem_filter.mpr ⟨hc2, hf⟩, rfl⟩

theorem lut_new_cell_config_pair {is_ff : CellInfo → Bool} {g : Design} {ci : CellInfo}
    {o : NetInfo} {dff : CellInfo} (h : found_dff is_ff g ci = some (o, dff)) :
    (lut_new_cell is_ff g ci).config
      = [{ kind := .lut, source := ci.name, standalone := false },
         { kind := .dff, source := dff.name, standalone := false }] := by
  unfold lut_new_cell
  rw [h]
  simp only [packed_lut]
  cases attrs_find dff.attrs "BEL" <;> simp [lut_to_lc, dff_to_lc, new_lc]

/-- C8: after `pack_design` no cell of the design is a LUT or a flip-flop, when
the classifiers are false on `ICESTORM_LC` cells.  Every LUT `L` of the input
is gone and the design has a cell `L.name ++ "_LC"` of type `ICESTORM_LC`.  In
an input with distinct cell names, every flip-flop `F` (not also a LUT) is
gone, and either it was packed with a LUT `L` into the cell `L.name ++ "_LC"`,
configured from `L` and from `F`, or the design has the cell
`F.name ++ "_DFFLC"` made of `F` alone; both are of type `ICESTORM_LC`. -/
theorem pack_design_only_logic_cells (is_lut is_ff : CellInfo → Bool) (g g3 : Design)
    (hlc : ∀ c : CellInfo, c.type = "ICESTORM_LC" → is_lut c = false ∧ is_ff c = false)
    (h : pack_design is_lut is_ff g = .ok g3) :
    (∀ c ∈ g3.cells, is_lut c = false ∧ is_ff c = false)
    ∧ (∀ L ∈ g.cells, is_lut L = true →
        L ∉ g3.cells
        ∧ ∃ c, cells_find g3.cells (L.name ++ "_LC") = some c ∧ c.type = "ICESTORM_LC")
    ∧ ((g.cells.map CellInfo.name).Nodup →
        ∀ F ∈ g.cells, is_ff F = true → is_lut F = false →
          F ∉ g3.cells
          ∧ ((∃ L ∈ g.cells, is_lut L = true
                ∧ ∃ c, cells_find g3.cells (L.name ++ "_LC") = some c
                    ∧ c.type = "ICESTORM_LC"
                    ∧ c.config = [{ kind := .lut, source := L.name, standalone := false },
                                  { kind := .dff, source := F.name, standalone := false }])
             ∨ (cells_find g3.cells (F.name ++ "_DFFLC")
                  = some (dff_to_lc F (new_lc F "_DFFLC") true)
                ∧ (dff_to_lc F (new_lc F "_DFFLC") true).type = "ICESTORM_LC"))) := by
  have hno := pack_design_no_lut_ff hlc h
  obtain ⟨g1, g2, h1, h2, h3⟩ := pack_design_ok h
  refine ⟨hno, ?_, ?_⟩
  · intro L hL hlut
    constructor
    · intro hL3
      rw [(hno L hL3).1] at hlut
      cases hlut
    · have hL1 := pack_constants_mem h1 hL
      obtain ⟨L1, _, _, _, hc⟩ := pack_lut_lutffs_find_new h2 hL1 hlut
      rw [pack_nonlut_ffs_keeps_lc hlc h2 h3 hL1 hlut]
      exact ⟨_, hc, (lut_new_cell_name is_ff g1 L1).2⟩
  · intro hnd F hF hff hnl
    constructor
    · intro hF3
      rw [(hno F hF3).2] at hff
      cases hff
    · by_cases hex : ∃ ci ∈ g1.cells, is_lut ci = true ∧ ∃ o dff,
          found_dff is_ff g1 ci = some (o, dff) ∧ dff.name = F.name
      · left
        obtain ⟨ci, hci, hcl, o, dff, hfd, hname⟩ := hex
        have hcig : ci ∈ g.cells := by
          rcases pack_constants_mem_cases h1 hci with hh | hh | hh
          · exact hh
          · subst hh; rw [(hlc gnd_cell rfl).1] at hcl; cases hcl
          · subst hh; rw [(hlc vcc_cell rfl).1] at hcl; cases hcl
        obtain ⟨L1, hL1, _, hn1, hc⟩ := pack_lut_lutffs_find_new h2 hci hcl
        have := pack_constants_uniq hnd h1 hcig L1 hL1 hn1
        subst this
        refine ⟨L1, hcig, hcl, _, ?_, (lut_new_cell_name is_ff g1 L1).2, ?_⟩
        · rw [pack_nonlut_ffs_keeps_lc hlc h2 h3 hci hcl]
          exact hc
        · rw [lut_new_cell_config_pair hfd, hname]
      · right
        have hnm : ∀ ci ∈ g1.cells, is_lut ci = true → ∀ o dff,
            found_dff is_ff g1 ci = some (o, dff) → dff.name ≠ F.name := by
          intro ci hci hcl o dff hfd hname
          exact hex ⟨ci, hci, hcl, o, dff, hfd, hname⟩
        obtain ⟨hF2, huniq⟩ := pack_design_keeps_until_ffs hnd h1 h2 hF hnl hnm
        exact ⟨(pack_nonlut_ffs_packs h3 hF2 hff huniq).2, rfl⟩

/-- Scenario B: after `pack_design` the design has the cells `x`, `l0_LC` and
`f0_DFFLC`, none of them a LUT or a flip-flop. -/
theorem pack_design_only_logic_cells_witness :
    pack_design ex_is_lut ex_is_ff ex_fanout = .ok ex_fanout_packed
    ∧ (∀ c ∈ ex_fanout_packed.cells, ex_is_lut c = false ∧ ex_is_ff c = false)
    ∧ (ex_l0 ∉ ex_fanout_packed.cells
        ∧ ∃ c, cells_find ex_fanout_packed.cells ("l0" ++ "_LC") = some c
            ∧ c.type = "ICESTORM_LC") :=
  ⟨by decide,
   (pack_design_only_logic_cells ex_is_lut ex_is_ff ex_fanout ex_fanout_packed
      (by intro c hc; simp [ex_is_lut, ex_is_ff, hc]) (by decide)).1,
   (pack_design_only_logic_cells ex_is_lut ex_is_ff ex_fanout ex_fanout_packed
      (by intro c hc; simp [ex_is_lut, ex_is_ff, hc]) (by decide)).2.1 ex_l0
      (by decide) (by decide)⟩

/-! ## The flip-flop pass -/

theorem pack_nonlut_ffs_fold_succeeds {is_ff : CellInfo → Bool} :
    ∀ (cs : List CellInfo) (st : ScanState),
      (∀ ci ∈ cs, is_ff ci = true →
          cells_find st.design.cells (ci.name ++ "_DFFLC") = none) →
      cs.foldlM (pack_nonlut_ffs_step is_ff) st
        = .ok { design := st.design
                packed_cells := st.packed_cells ++ (cs.filter is_ff).map CellInfo.name
                new_cells := st.new_cells ++ (cs.filter is_ff).map ff_new_cell } := by
  intro cs
  induction cs with
  | nil => intro st _; simp [pure, Except.pure]
  | cons ci rest ih =>
    intro st hfresh
    rw [List.foldlM_cons]
    by_cases hl : is_ff ci = true
    · have hc := hfresh ci (List.mem_cons_self _ _) hl
      have hs : pack_nonlut_ffs_step is_ff st ci
          = .ok { st with packed_cells := st.packed_cells ++ [ci.name]
                          new_cells := st.new_cells ++ [ff_new_cell ci] } := by
        simp [pack_nonlut_ffs_step, hl, create_ice_cell, hc, ff_new_cell, new_lc]
      rw [hs]
      simp only [bind, Except.bind]
      rw [ih { design := st.design, packed_cells := st.packed_cells ++ [ci.name],
               new_cells := st.new_cells ++ [ff_new_cell ci] }
            (fun c hcm hcl => hfresh c (List.mem_cons_of_mem _ hcm) hcl)]
      simp [List.filter_cons, hl]
    · have hs : pack_nonlut_ffs_step is_ff st ci = .ok st := by
        simp [pack_nonlut_ffs_step, hl]
      rw [hs]
      simp only [bind, Except.bind]
      rw [ih st (fun c hcm hcl => hfresh c (List.mem_cons_of_mem _ hcm) hcl)]
      simp [List.filter_cons, hl]

/-- The pass `pack_nonlut_ffs` returns a design exactly when no flip-flop `F`
of the design stands next to a cell named `F.name ++ "_DFFLC"`, and the cells
it returns do not depend on the nets. -/
theorem pack_nonlut_ffs_succeeds {is_ff : CellInfo → Bool} {g : Design}
    (hfresh : ∀ ci ∈ g.cells, is_ff ci = true →
        cells_find g.cells (ci.name ++ "_DFFLC") = none) :
    pack_nonlut_ffs is_ff g
      = .ok { cells := ((g.cells.filter is_ff).map ff_new_cell).foldl cells_set
                (((g.cells.filter is_ff).map CellInfo.name).foldl cells_erase g.cells)
              nets := g.nets } := by
  unfold pack_nonlut_ffs
  rw [pack_nonlut_ffs_fold_succeeds g.cells _ hfresh]
  simp [commit]

/-- C9: in a design with distinct cell names, a flip-flop `D` on entry to
`pack_nonlut_ffs` is gone afterwards, and the design has the cell
`D.name ++ "_DFFLC"` of type `ICESTORM_LC`, made of `D` alone: it has the
attributes of `D` with their values and is configured by one call of
`dff_to_lc` with `pass_as_lut = true`.  The nets play no part: they are left
as they are, and with any other nets the pass returns the same cells.  Every
cell of the input that is not a flip-flop and whose name is not one of the new
names is still in the design. -/
theorem pack_nonlut_ffs_wraps (is_ff : CellInfo → Bool) (g g3 : Design) (D : CellInfo)
    (hnd : (g.cells.map CellInfo.name).Nodup) (hD : D ∈ g.cells) (hff : is_ff D = true)
    (h : pack_nonlut_ffs is_ff g = .ok g3) :
    cells_find g3.cells D.name = none
    ∧ cells_find g3.cells (D.name ++ "_DFFLC") = some (dff_to_lc D (new_lc D "_DFFLC") true)
    ∧ (dff_to_lc D (new_lc D "_DFFLC") true).type = "ICESTORM_LC"
    ∧ (∀ k, attrs_find (dff_to_lc D (new_lc D "_DFFLC") true).attrs k = attrs_find D.attrs k)
    ∧ (dff_to_lc D (new_lc D "_DFFLC") true).config
        = [{ kind := .dff, source := D.name, standalone := true }]
    ∧ g3.nets = g.nets
    ∧ (∀ nets, pack_nonlut_ffs is_ff { cells := g.cells, nets := nets }
        = .ok { cells := g3.cells, nets := nets })
    ∧ (∀ c ∈ g.cells, is_ff c = false →
        (∀ F ∈ g.cells, is_ff F = true → c.name ≠ F.name ++ "_DFFLC") → c ∈ g3.cells) := by
  obtain ⟨hcells, hnets, hfresh⟩ := pack_nonlut_ffs_ok h
  obtain ⟨h1, h2⟩ := pack_nonlut_ffs_packs h hD hff
    (fun y hy hyn => mem_of_nodup_name hnd hy hD hyn)
  refine ⟨h1, h2, rfl, ?_, rfl, hnets, ?_, ?_⟩
  · intro k
    simp only [dff_to_lc, new_lc]
    exact attrs_find_copy_nil D.attrs k
  · intro nets
    rw [@pack_nonlut_ffs_succeeds is_ff { cells := g.cells, nets := nets } hfresh, hcells]
  · intro c hc hcf hcn
    rw [hcells]
    apply mem_foldl_cells_set_of_base
    · rw [mem_foldl_cells_erase]
      refine ⟨hc, ?_⟩
      intro hm
      obtain ⟨F, hF, hFn⟩ := List.mem_map.mp hm
      have := mem_of_nodup_name hnd (List.mem_filter.mp hF).1 hc hFn
      subst this
      rw [(List.mem_filter.mp hF).2] at hcf
      cases hcf
    · intro x hx hxn
      obtain ⟨F, hF, he⟩ := List.mem_map.mp hx
      rw [← he, (ff_new_cell_name F).1] at hxn
      exact hcn F (List.mem_filter.mp hF).1 (List.mem_filter.mp hF).2 hxn.symm

/-- Scenario B on entry to `pack_nonlut_ffs`: `f0` is replaced by `f0_DFFLC`,
the cells `x` and `l0_LC` and the net `n0` stay. -/
theorem pack_nonlut_ffs_wraps_witness :
    pack_nonlut_ffs ex_is_ff ex_fanout_luts = .ok ex_fanout_packed
    ∧ cells_find ex_fanout_packed.cells "f0" = none
    ∧ cells_find ex_fanout_packed.cells ("f0" ++ "_DFFLC")
        = some (dff_to_lc ex_f0 (new_lc ex_f0 "_DFFLC") true)
    ∧ ex_fanout_packed.nets = ex_fanout_luts.nets
    ∧ ex_x ∈ ex_fanout_packed.cells :=
  ⟨by decide,
   (pack_nonlut_ffs_wraps ex_is_ff ex_fanout_luts ex_fanout_packed ex_f0 (by decide)
      (by decide) (by decide) (by decide)).1,
   (pack_nonlut_ffs_wraps ex_is_ff ex_fanout_luts ex_fanout_packed ex_f0 (by decide)
      (by decide) (by decide) (by decide)).2.1,
   (pack_nonlut_ffs_wraps ex_is_ff ex_fanout_luts ex_fanout_packed ex_f0 (by decide)
      (by decide) (by decide) (by decide)).2.2.2.2.2.1,
   (pack_nonlut_ffs_wraps ex_is_ff ex_fanout_luts ex_fanout_packed ex_f0 (by decide)
      (by decide) (by decide) (by decide)).2.2.2.2.2.2.2 ex_x (by decide) (by decide)
      (by decide)⟩

/-! ## Name collisions -/

theorem error_of_not_ok {α : Type} :
    ∀ (x : Except PackError α), (∀ a, ¬ x = Except.ok a) → ∃ e, x = Except.error e
  | .error e, _ => ⟨e, rfl⟩
  | .ok a, h => (h a rfl).elim

/-- A cell of the input that is neither a LUT nor a flip-flop is still in the
design after a `pack_design` that returns one. -/
theorem pack_design_keeps_others {is_lut is_ff : CellInfo → Bool} {g g3 : Design}
    (hnd : (g.cells.map CellInfo.name).Nodup) (h : pack_design is_lut is_ff g = .ok g3)
    {c : CellInfo} (hc : c ∈ g.cells) (hnl : is_lut c = false) (hnf : is_ff c = false) :
    c ∈ g3.cells := by
  obtain ⟨g1, g2, h1, h2, h3⟩ := pack_design_ok h
  have hnm : ∀ ci ∈ g1.cells, is_lut ci = true → ∀ o dff,
      found_dff is_ff g1 ci = some (o, dff) → dff.name ≠ c.name := by
    intro ci _ _ o dff hfd hname
    obtain ⟨_, _, _, _, _, _, a6, a7, _⟩ := find_dff_some.mp (found_dff_some hfd)
    have := pack_constants_uniq hnd h1 hc dff (cells_find_some a6).1 hname
    subst this
    rw [hnf] at a7
    cases a7
  obtain ⟨hc2, huniq⟩ := pack_design_keeps_until_ffs hnd h1 h2 hc hnl hnm
  obtain ⟨hcells, _, hfresh⟩ := pack_nonlut_ffs_ok h3
  rw [hcells]
  apply mem_foldl_cells_set_of_base
  · rw [mem_foldl_cells_erase]
    refine ⟨hc2, ?_⟩
    intro hm
    obtain ⟨F, hF, hFn⟩ := List.mem_map.mp hm
    have := huniq F (List.mem_filter.mp hF).1 hFn
    subst this
    rw [(List.mem_filter.mp hF).2] at hnf
    cases hnf
  · intro x hx hxn
    obtain ⟨F, hF, he⟩ := List.mem_map.mp hx
    rw [← he, (ff_new_cell_name F).1] at hxn
    have := hfresh F (List.mem_filter.mp hF).1 (List.mem_filter.mp hF).2
    exact cells_find_none.mp this c hc2 hxn.symm

/-- C10: a name collision on creation is fatal.  `pack_design` fails when the
design has a cell named `$PACKER_GND` or `$PACKER_VCC`, when a LUT `L` stands
next to a cell named `L.name ++ "_LC"`, and when `pack_nonlut_ffs` is reached
with a flip-flop `F` next to a cell named `F.name ++ "_DFFLC"`.  A run that
returns a design has replaced no cell: in an input with distinct cell names,
every cell that is neither a LUT nor a flip-flop is still in the design. -/
theorem name_collision_is_fatal (is_lut is_ff : CellInfo → Bool) (g : Design) :
    ((cells_find g.cells "$PACKER_GND" ≠ none ∨ cells_find g.cells "$PACKER_VCC" ≠ none) →
        ∃ e, pack_design is_lut is_ff g = .error e)
    ∧ (∀ L ∈ g.cells, is_lut L = true → cells_find g.cells (L.name ++ "_LC") ≠ none →
        ∃ e, pack_design is_lut is_ff g = .error e)
    ∧ (∀ g1 g2, pack_constants g = .ok g1 → pack_lut_lutffs is_lut is_ff g1 = .ok g2 →
        ∀ F ∈ g2.cells, is_ff F = true → cells_find g2.cells (F.name ++ "_DFFLC") ≠ none →
        ∃ e, pack_design is_lut is_ff g = .error e)
    ∧ ((g.cells.map CellInfo.name).Nodup → ∀ g3, pack_design is_lut is_ff g = .ok g3 →
        ∀ c ∈ g.cells, is_lut c = false → is_ff c = false → c ∈ g3.cells) := by
  refine ⟨?_, ?_, ?_, ?_⟩
  · intro hheld
    apply error_of_not_ok
    intro g3 h
    obtain ⟨g1, _, h1, _, _⟩ := pack_design_ok h
    obtain ⟨hg, hv, _, _⟩ := pack_constants_ok h1
    rcases hheld with hh | hh
    · exact hh hg
    · exact hh hv
  · intro L hL hlut hheld
    apply error_of_not_ok
    intro g3 h
    obtain ⟨g1, g2, h1, h2, _⟩ := pack_design_ok h
    obtain ⟨_, _, hfresh⟩ := pack_lut_lutffs_ok h2
    have hn := (hfresh L (pack_constants_mem h1 hL) hlut).1
    cases hx : cells_find g.cells (L.name ++ "_LC") with
    | none => exact hheld hx
    | some x =>
      rw [pack_constants_find_some h1 hx] at hn
      cases hn
  · intro g1 g2 h1 h2 F hF hff hheld
    apply error_of_not_ok
    intro g3 h
    obtain ⟨g1a, g2a, h1a, h2a, h3⟩ := pack_design_ok h
    rw [h1] at h1a
    have e1 : g1 = g1a := Except.ok.inj h1a
    subst e1
    rw [h2] at h2a
    have e2 : g2 = g2a := Except.ok.inj h2a
    subst e2
    obtain ⟨_, _, hfresh⟩ := pack_nonlut_ffs_ok h3
    exact hheld (hfresh F hF hff)
  · intro hnd g3 h c hc hnl hnf
    exact pack_design_keeps_others hnd h hc hnl hnf

/-- The three collisions of the claim: `$PACKER_GND` already in the design, the
LUT `l0` next to a cell `l0_LC`, the flip-flop `f0` next to a cell `f0_DFFLC`.
In each case `pack_design` fails. -/
theorem name_collision_is_fatal_witness :
    (∃ e, pack_design ex_is_lut ex_is_ff ex_gnd_collision = .error e)
    ∧ (∃ e, pack_design ex_is_lut ex_is_ff ex_lut_collision = .error e)
    ∧ (∃ e, pack_design ex_is_lut ex_is_ff ex_ff_collision = .error e)
    ∧ pack_design ex_is_lut ex_is_ff ex_lut_collision = .error (.nameCollision "l0_LC")
    ∧ pack_design ex_is_lut ex_is_ff ex_ff_collision = .error (.nameCollision "f0_DFFLC") :=
  ⟨(name_collision_is_fatal ex_is_lut ex_is_ff ex_gnd_collision).1 (Or.inl (by decide)),
   (name_collision_is_fatal ex_is_lut ex_is_ff ex_lut_collision).2.1 ex_l0 (by decide)
     (by decide) (by decide),
   (name_collision_is_fatal ex_is_lut ex_is_ff ex_ff_collision).2.2.1 ex_ff_collision
     ex_ff_collision (by decide) (by decide) ex_f0 (by decide) (by decide) (by decide),
   by decide, by decide⟩

/-! ## When the passes return a design -/

theorem pack_lut_lutffs_fold_succeeds {is_lut is_ff : CellInfo → Bool} {entry : Design} :
    ∀ (cs : List CellInfo) (st : ScanState),
      (∀ ci ∈ cs, is_lut ci = true →
          cells_find st.design.cells (ci.name ++ "_LC") = none
            ∧ ∃ found, find_dff is_ff entry ci = .ok found) →
      ∃ st1, cs.foldlM (pack_lut_lutffs_step is_lut is_ff entry) st = .ok st1 := by
  intro cs
  induction cs with
  | nil => intro st _; exact ⟨st, rfl⟩
  | cons ci rest ih =>
    intro st hok
    rw [List.foldlM_cons]
    by_cases hl : is_lut ci = true
    · obtain ⟨hc, found, hf⟩ := hok ci (List.mem_cons_self _ _) hl
      have hs : pack_lut_lutffs_step is_lut is_ff entry st ci
          = .ok (note_lut st ci (new_lc ci "_LC") found) := by
        simp [pack_lut_lutffs_step, hl, create_ice_cell, hc, hf, new_lc]
      rw [hs]
      simp only [bind, Except.bind]
      apply ih
      intro c hcm hcl
      rw [(note_lut_eq is_ff entry st ci hf).1]
      exact hok c (List.mem_cons_of_mem _ hcm) hcl
    · have hs : pack_lut_lutffs_step is_lut is_ff entry st ci = .ok st := by
        simp [pack_lut_lutffs_step, hl]
      rw [hs]
      simp only [bind, Except.bind]
      exact ih st (fun c hcm hcl => hok c (List.mem_cons_of_mem _ hcm) hcl)

/-- The pass `pack_lut_lutffs` returns a design when, for every LUT of the
design, the name of its new cell is free and the search for its flip-flop
does not fail. -/
theorem pack_lut_lutffs_succeeds {is_lut is_ff : CellInfo → Bool} {g : Design}
    (hok : ∀ ci ∈ g.cells, is_lut ci = true →
        cells_find g.cells (ci.name ++ "_LC") = none
          ∧ ∃ found, find_dff is_ff g ci = .ok found) :
    ∃ g2, pack_lut_lutffs is_lut is_ff g = .ok g2 := by
  obtain ⟨st, hst⟩ := @pack_lut_lutffs_fold_succeeds is_lut is_ff g g.cells
    { design := g, packed_cells := [], new_cells := [] } hok
  exact ⟨commit st, by simp [pack_lut_lutffs, pack_lut_lutffs_scan, hst]⟩

theorem pack_constants_loop_succeeds {entry : Design} :
    ∀ (nets : List NetInfo) (cells : List CellInfo),
      (∀ ni ∈ nets, ∀ d, ni.driver = some d → ∃ c, cells_find entry.cells d.cell = some c) →
      ∃ r, pack_constants_loop entry gnd_cell vcc_cell nets cells = .ok r := by
  intro nets
  induction nets with
  | nil => intro cells _; exact ⟨([], cells), rfl⟩
  | cons ni rest ih =>
    intro cells hres
    have hs : ∃ r, pack_constants_step entry gnd_cell vcc_cell cells ni = .ok r := by
      unfold pack_constants_step
      cases hd : ni.driver with
      | none => exact ⟨_, rfl⟩
      | some d =>
        obtain ⟨c, hc⟩ := hres ni (List.mem_cons_self _ _) d hd
        simp only [resolve_cell, hc]
        by_cases h1 : c.type = "GND"
        · rw [if_pos h1]; exact ⟨_, rfl⟩
        · rw [if_neg h1]
          by_cases h2 : c.type = "VCC"
          · rw [if_pos h2]; exact ⟨_, rfl⟩
          · rw [if_neg h2]; exact ⟨_, rfl⟩
    obtain ⟨⟨ni1, cells1⟩, hs1⟩ := hs
    obtain ⟨⟨rest1, cells2⟩, hl⟩ := ih cells1 (fun n hn => hres n (List.mem_cons_of_mem _ hn))
    exact ⟨(ni1 :: rest1, cells2), by simp [pack_constants_loop, hs1, hl]⟩

/-- The pass `pack_constants` returns a design when the names `$PACKER_GND` and
`$PACKER_VCC` are free and the driver of every net is a cell of the design. -/
theorem pack_constants_succeeds {g : Design}
    (hg : cells_find g.cells "$PACKER_GND" = none)
    (hv : cells_find g.cells "$PACKER_VCC" = none)
    (hres : ∀ ni ∈ g.nets, ∀ d, ni.driver = some d → ∃ c, cells_find g.cells d.cell = some c) :
    ∃ g1, pack_constants g = .ok g1 := by
  obtain ⟨⟨nets, cells⟩, hl⟩ := pack_constants_loop_succeeds g.nets g.cells hres
  refine ⟨{ cells := cells, nets := nets }, ?_⟩
  have e1 : ({ name := "$PACKER_GND", type := "ICESTORM_LC", ports := [],
               attrs := attrs_set [] "LUT_INIT" "0", config := [] } : CellInfo)
            = gnd_cell := rfl
  have e2 : ({ name := "$PACKER_VCC", type := "ICESTORM_LC", ports := [],
               attrs := attrs_set [] "LUT_INIT" "1", config := [] } : CellInfo)
            = vcc_cell := rfl
  simp only [pack_constants, create_ice_cell, hg, hv, Option.isSome_none, Bool.false_eq_true,
    if_false, e1, e2, hl]

/-! ## The placement check -/

theorem find_dff_conflict {is_ff : CellInfo → Bool} {g : Design} {L F : CellInfo} {n : NetInfo}
    {p : PortInfo} {bl bf : String} (hp : ports_at L "O" = .ok p) (hpn : p.net = some n.name)
    (hn : nets_find g.nets n.name = some n) (hdrv : n.driver.isSome = true)
    (husers : n.users = [{ cell := F.name, port := "D" }])
    (hF : cells_find g.cells F.name = some F) (hff : is_ff F = true)
    (hbl : attrs_find L.attrs "BEL" = some bl) (hbf : attrs_find F.attrs "BEL" = some bf)
    (hne : bl ≠ bf) : find_dff is_ff g L = .ok none := by
  unfold find_dff
  simp only [hp, hpn, resolve_net, hn]
  rw [net_only_drives_exclusive.mpr ⟨hdrv, husers, hF, hff⟩]
  simp only [hbl, hbf]
  rw [if_pos]
  simp [hne]

/-- C11, as the code behaves: the placement check compares the two `BEL` values
as they are, and an empty string is a value like any other.  For a LUT `L` and
a flip-flop `F` that match structurally (port `D` of `F` is the only sink of
the net `n` on port `O` of `L`, and `n` has a driver), in a design with
distinct cell names: when a `BEL` attribute is absent on one of them, or both
values are equal, `pack_lut_lutffs` packs the pair (no cell named as `F` is
left, the net `n` is erased, the cell `L.name ++ "_LC"` is configured from `L`
and from `F`); when both carry a `BEL` value and the values differ, the pair
is rejected. -/
theorem bel_check_compares_values (is_lut is_ff : CellInfo → Bool) (g : Design)
    (L F : CellInfo) (n : NetInfo) (p : PortInfo)
    (hnd : (g.cells.map CellInfo.name).Nodup)
    (hL : L ∈ g.cells) (hlut : is_lut L = true)
    (hp : ports_at L "O" = .ok p) (hpn : p.net = some n.name)
    (hn : nets_find g.nets n.name = some n) (hdrv : n.driver.isSome = true)
    (husers : n.users = [{ cell := F.name, port := "D" }])
    (hF : cells_find g.cells F.name = some F) (hff : is_ff F = true) :
    ((attrs_find L.attrs "BEL" = none ∨ attrs_find F.attrs "BEL" = none
        ∨ attrs_find L.attrs "BEL" = attrs_find F.attrs "BEL") →
      find_dff is_ff g L = .ok (some (n, F))
      ∧ ∀ g2, pack_lut_lutffs is_lut is_ff g = .ok g2 →
          cells_find g2.cells F.name = none
          ∧ nets_find g2.nets n.name = none
          ∧ cells_find g2.cells (L.name ++ "_LC")
              = some (packed_lut L (new_lc L "_LC") (some (n, F)))
          ∧ (packed_lut L (new_lc L "_LC") (some (n, F))).config
              = [{ kind := .lut, source := L.name, standalone := false },
                 { kind := .dff, source := F.name, standalone := false }])
    ∧ ((∃ bl bf, attrs_find L.attrs "BEL" = some bl ∧ attrs_find F.attrs "BEL" = some bf
          ∧ bl ≠ bf) →
      find_dff is_ff g L = .ok none) := by
  constructor
  · intro hbel
    have hcond : ¬ ((attrs_find L.attrs "BEL").isSome = true
        ∧ (attrs_find F.attrs "BEL").isSome = true
        ∧ attrs_find L.attrs "BEL" ≠ attrs_find F.attrs "BEL") := by
      rintro ⟨h1, h2, h3⟩
      rcases hbel with h | h | h
      · rw [h] at h1; cases h1
      · rw [h] at h2; cases h2
      · exact h3 h
    have hfind : find_dff is_ff g L = .ok (some (n, F)) :=
      find_dff_some.mpr ⟨p, hp, hpn, hn, hdrv, husers, hF, hff, hcond⟩
    have hfound := found_dff_of_find hfind
    refine ⟨hfind, ?_⟩
    intro g2 h
    obtain ⟨_, b2, _, b4⟩ := pack_lut_lutffs_pair h hL hlut hfound hF
    obtain ⟨L1, hL1, _, hname, hc⟩ := pack_lut_lutffs_find_new h hL hlut
    have := mem_of_nodup_name hnd hL1 hL hname
    subst this
    have hcfg := lut_new_cell_config_pair hfound
    unfold lut_new_cell at hc hcfg
    rw [hfound] at hc hcfg
    exact ⟨b2, b4, hc, hcfg⟩
  · rintro ⟨bl, bf, hbl, hbf, hne⟩
    exact find_dff_conflict hp hpn hn hdrv husers hF hff hbl hbf hne

/-- Scenario A: neither cell carries a `BEL` attribute, and the pair is
packed. -/
theorem bel_check_compares_values_witness :
    find_dff ex_is_ff ex_pair ex_l0 = .ok (some (ex_n0, ex_f0))
    ∧ pack_lut_lutffs ex_is_lut ex_is_ff ex_pair = .ok ex_pair_packed
    ∧ cells_find ex_pair_packed.cells "f0" = none
    ∧ nets_find ex_pair_packed.nets "n0" = none :=
  ⟨((bel_check_compares_values ex_is_lut ex_is_ff ex_pair ex_l0 ex_f0 ex_n0
        { name := "O", net := some "n0" } (by decide) (by decide) (by decide) (by decide)
        (by decide) (by decide) (by decide) (by decide) (by decide) (by decide)).1
        (Or.inl (by decide))).1,
   by decide,
   (((bel_check_compares_values ex_is_lut ex_is_ff ex_pair ex_l0 ex_f0 ex_n0
        { name := "O", net := some "n0" } (by decide) (by decide) (by decide) (by decide)
        (by decide) (by decide) (by decide) (by decide) (by decide) (by decide)).1
        (Or.inl (by decide))).2 ex_pair_packed (by decide)).1,
   (((bel_check_compares_values ex_is_lut ex_is_ff ex_pair ex_l0 ex_f0 ex_n0
        { name := "O", net := some "n0" } (by decide) (by decide) (by decide) (by decide)
        (by decide) (by decide) (by decide) (by decide) (by decide) (by decide)).1
        (Or.inl (by decide))).2 ex_pair_packed (by decide)).2.1⟩

/-- C11 fails as stated: in `ex_empty_bel` the LUT `l0` and the flip-flop `f0`
match structurally and the `BEL` value of `l0` is the empty string, yet the
pair is rejected: after `pack_lut_lutffs` the flip-flop `f0` and the net `n0`
are still in the design and `l0_LC` is configured from `l0` alone. -/
theorem empty_bel_pair_rejected :
    ports_at ex_l0_empty_bel "O" = .ok { name := "O", net := some "n0" }
    ∧ nets_find ex_empty_bel.nets "n0" = some ex_n0
    ∧ ex_n0.users = [{ cell := "f0", port := "D" }]
    ∧ cells_find ex_empty_bel.cells "f0" = some ex_f0_placed
    ∧ ex_is_lut ex_l0_empty_bel = true ∧ ex_is_ff ex_f0_placed = true
    ∧ attrs_find ex_l0_empty_bel.attrs "BEL" = some ""
    ∧ find_dff ex_is_ff ex_empty_bel ex_l0_empty_bel = .ok none
    ∧ pack_lut_lutffs ex_is_lut ex_is_ff ex_empty_bel = .ok ex_empty_bel_luts
    ∧ cells_find ex_empty_bel_luts.cells "f0" = some ex_f0_placed
    ∧ nets_find ex_empty_bel_luts.nets "n0" = some ex_n0 := by
  decide

/-! ## What `pack_constants` leaves in place -/

theorem rewired_other {g : Design} {ni : NetInfo} (h1 : driver_type g ni ≠ some "GND")
    (h2 : driver_type g ni ≠ some "VCC") : rewired g ni = ni := by
  unfold rewired
  rw [if_neg h1, if_neg h2]

/-- C15: `pack_constants` removes no cell, so every `GND` and `VCC` cell of the
input is still in the design; the net map has the same nets at the same
places, each with its name and its sinks; and a net whose driver is absent, or
is a cell of another type than `GND` and `VCC`, is left as it is. -/
theorem pack_constants_frame (g g1 : Design) (h : pack_constants g = .ok g1) :
    (∀ c ∈ g.cells, c ∈ g1.cells)
    ∧ g1.nets.length = g.nets.length
    ∧ g1.nets.map NetInfo.name = g.nets.map NetInfo.name
    ∧ (∀ (i : Nat) (ni : NetInfo), g.nets[i]? = some ni →
        ∃ ni1, g1.nets[i]? = some ni1 ∧ ni1.name = ni.name ∧ ni1.users = ni.users
          ∧ (driver_type g ni ≠ some "GND" → driver_type g ni ≠ some "VCC" → ni1 = ni)) := by
  obtain ⟨_, _, hn, _⟩ := pack_constants_ok h
  refine ⟨fun c hc => pack_constants_mem h hc, ?_, ?_, ?_⟩
  · rw [hn, List.length_map]
  · rw [hn, List.map_map]
    apply List.map_congr_left
    intro ni _
    exact (rewired_name g ni).1
  · intro i ni hni
    refine ⟨rewired g ni, ?_, (rewired_name g ni).1, (rewired_name g ni).2.1, rewired_other⟩
    rw [hn, List.getElem?_map, hni]
    rfl

/-- The design `ex_gated`: the `GND` cell `g1` stays, the net `n0` driven by the
LUT is left as it is, and the net `n1` keeps its name and its sink. -/
theorem pack_constants_frame_witness :
    pack_constants ex_gated = .ok ex_gated_constants
    ∧ ex_g1 ∈ ex_gated_constants.cells
    ∧ ex_gated_constants.nets.map NetInfo.name = ex_gated.nets.map NetInfo.name
    ∧ ∃ ni1, ex_gated_constants.nets[0]? = some ni1 ∧ ni1.name = ex_n0.name
        ∧ ni1.users = ex_n0.users
        ∧ (driver_type ex_gated ex_n0 ≠ some "GND" → driver_type ex_gated ex_n0 ≠ some "VCC" →
            ni1 = ex_n0) :=
  ⟨by decide,
   (pack_constants_frame ex_gated ex_gated_constants (by decide)).1 ex_g1 (by decide),
   (pack_constants_frame ex_gated ex_gated_constants (by decide)).2.2.1,
   (pack_constants_frame ex_gated ex_gated_constants (by decide)).2.2.2 0 ex_n0 (by decide)⟩

/-! ## Scan and mutation -/

/-- C12, as the code behaves.  The two cell scans leave the cell map alone:
after any part of the scan of `pack_lut_lutffs` or of `pack_nonlut_ffs` the
cells of the design are those on entry, and the packed cells are erased and
the new cells registered by the two loops that follow the scan, which touch
the cells only.  The nets are not covered: the loop body of `pack_lut_lutffs`
erases the net of a packed pair at once, and is the only place where a net is
erased.  `pack_constants` is one loop over the nets, which keeps every net in
its place under its name, and registers the constant cells in the cell map
while it runs. -/
theorem cell_scans_leave_cells (is_lut is_ff : CellInfo → Bool) (entry : Design) :
    (∀ (cs : List CellInfo) (st st1 : ScanState),
        cs.foldlM (pack_lut_lutffs_step is_lut is_ff entry) st = .ok st1 →
        st1.design.cells = st.design.cells)
    ∧ (∀ (st st1 : ScanState) (ci : CellInfo) (o : NetInfo) (dff : CellInfo),
        is_lut ci = true → pack_lut_lutffs_step is_lut is_ff entry st ci = .ok st1 →
        find_dff is_ff entry ci = .ok (some (o, dff)) →
        st1.design.nets = nets_erase st.design.nets o.name)
    ∧ (∀ (st st1 : ScanState) (ci : CellInfo),
        pack_lut_lutffs_step is_lut is_ff entry st ci = .ok st1 →
        (is_lut ci = false ∨ find_dff is_ff entry ci = .ok none) →
        st1.design = st.design)
    ∧ (∀ (cs : List CellInfo) (st st1 : ScanState),
        cs.foldlM (pack_nonlut_ffs_step is_ff) st = .ok st1 → st1.design = st.design)
    ∧ (∀ st : ScanState,
        (commit st).nets = st.design.nets
        ∧ (commit st).cells
            = st.new_cells.foldl cells_set (st.packed_cells.foldl cells_erase st.design.cells))
    ∧ (∀ (nets nets1 : List NetInfo) (cells cells1 : List CellInfo),
        pack_constants_loop entry gnd_cell vcc_cell nets cells = .ok (nets1, cells1) →
        nets1.map NetInfo.name = nets.map NetInfo.name
        ∧ cells1 = (nets.filterMap (registered entry)).foldl cells_set cells) := by
  refine ⟨?_, ?_, ?_, ?_, ?_, ?_⟩
  · intro cs st st1 h
    exact (pack_lut_lutffs_fold_ok cs st st1 h).1
  · intro st st1 ci o dff hl h hf
    obtain ⟨_, found, hf1, hst⟩ := pack_lut_lutffs_step_ok h hl
    rw [hf] at hf1
    have := Except.ok.inj hf1
    subst this
    rw [hst]
    rfl
  · intro st st1 ci h hcase
    by_cases hl : is_lut ci = true
    · obtain ⟨_, found, hf1, hst⟩ := pack_lut_lutffs_step_ok h hl
      rcases hcase with hc | hc
      · rw [hc] at hl; cases hl
      · rw [hc] at hf1
        have := Except.ok.inj hf1
        subst this
        rw [hst]
        rfl
    · unfold pack_lut_lutffs_step at h
      rw [if_neg hl] at h
      rw [← Except.ok.inj h]
  · intro cs st st1 h
    exact (pack_nonlut_ffs_fold_ok cs st st1 h).1
  · intro st
    exact ⟨rfl, rfl⟩
  · intro nets nets1 cells cells1 h
    obtain ⟨hn, hc⟩ := pack_constants_loop_ok nets cells h
    refine ⟨?_, hc⟩
    rw [hn, List.map_map]
    apply List.map_congr_left
    intro ni _
    exact (rewired_name entry ni).1

/-- Scenario A: after the loop body of `pack_lut_lutffs` has run for `l0` the
cells of the design are those on entry. -/
theorem cell_scans_leave_cells_witness :
    pack_lut_lutffs_step ex_is_lut ex_is_ff ex_pair
        { design := ex_pair, packed_cells := [], new_cells := [] } ex_l0 = .ok ex_pair_scanned
    ∧ ex_pair_scanned.design.cells = ex_pair.cells :=
  ⟨by decide,
   (cell_scans_leave_cells ex_is_lut ex_is_ff ex_pair).1 [ex_l0]
      { design := ex_pair, packed_cells := [], new_cells := [] } ex_pair_scanned (by decide)⟩

/-- C12 fails as stated.  In scenario A the scan of `pack_lut_lutffs` has erased
the net `n0` from the net map as soon as the loop body has run for `l0`, while
`f0` is still to be visited.  In scenario C the loop of `pack_constants` has
registered `$PACKER_GND` in the cell map as soon as its body has run for the
net `n0`, while `n1` is still to be visited. -/
theorem scan_modifies_collections :
    ex_pair.cells = [ex_l0, ex_f0] ∧ ex_pair.nets = [ex_n0]
    ∧ pack_lut_lutffs_step ex_is_lut ex_is_ff ex_pair
        { design := ex_pair, packed_cells := [], new_cells := [] } ex_l0 = .ok ex_pair_scanned
    ∧ ex_pair_scanned.design.nets = []
    ∧ ex_two_gnd.nets.map NetInfo.name = ["n0", "n1"]
    ∧ (pack_constants_step ex_two_gnd gnd_cell vcc_cell ex_two_gnd.cells
          { name := "n0", driver := some { cell := "g1", port := "Y" },
            users := [{ cell := "x", port := "I" }] }).map Prod.snd
        = .ok (ex_two_gnd.cells ++ [gnd_cell]) := by
  decide

/-! ## One LUT for a flip-flop -/

theorem ports_at_ok {ci : CellInfo} {p : String} {q : PortInfo} (h : ports_at ci p = .ok q) :
    q ∈ ci.ports ∧ q.name = p := by
  unfold ports_at at h
  cases hf : ci.ports.find? (fun x => decide (x.name = p)) with
  | none => simp [hf] at h
  | some x =>
    simp only [hf, Except.ok.injEq] at h
    subst h
    refine ⟨List.mem_of_find?_eq_some hf, ?_⟩
    simpa using List.find?_some hf

theorem connected_iff {g : Design} {c p n : String} :
    connected g c p n = true
      ↔ ∃ ci q, cells_find g.cells c = some ci ∧ ports_at ci p = .ok q ∧ q.net = some n := by
  unfold connected
  cases hc : cells_find g.cells c with
  | none => simp
  | some ci =>
    cases hp : ports_at ci p with
    | error e => simp [hp]
    | ok q => simp [hp]

/-- In a well-formed design, the cell whose port `O` is on a net whose only
sink is a port `D` is the driver of that net. -/
theorem lut_is_driver {g : Design} (hwf : well_formed g) {L : CellInfo} {p : PortInfo}
    {o : NetInfo} {d : String} (hL : L ∈ g.cells) (hp : ports_at L "O" = .ok p)
    (hpn : p.net = some o.name) (hn : nets_find g.nets o.name = some o)
    (hu : o.users = [{ cell := d, port := "D" }]) :
    o.driver = some { cell := L.name, port := "O" } := by
  obtain ⟨hq, hqn⟩ := ports_at_ok hp
  have h := hwf.2.2 L hL p hq
  unfold port_listed at h
  simp only [hpn, hn, hqn, Bool.or_eq_true, decide_eq_true_eq] at h
  rcases h with h | h
  · exact h
  · rw [hu] at h
    simp at h

/-- The LUT that `pack_lut_lutffs` packs a flip-flop with is determined by the
flip-flop, in a well-formed design. -/
theorem find_dff_injective {is_ff : CellInfo → Bool} {g : Design} (hwf : well_formed g)
    {L1 L2 D1 D2 : CellInfo} {o1 o2 : NetInfo} (hL1 : L1 ∈ g.cells) (hL2 : L2 ∈ g.cells)
    (h1 : find_dff is_ff g L1 = .ok (some (o1, D1)))
    (h2 : find_dff is_ff g L2 = .ok (some (o2, D2))) (hD : D1.name = D2.name) :
    L1 = L2 ∧ o1 = o2 ∧ D1 = D2 := by
  obtain ⟨p1, a1, a2, a3, _, a5, a6, _, _⟩ := find_dff_some.mp h1
  obtain ⟨p2, b1, b2, b3, _, b5, b6, _, _⟩ := find_dff_some.mp h2
  have hDD : D1 = D2 := by
    rw [hD, b6] at a6
    exact (Option.some.inj a6).symm
  subst hDD
  -- port `D` of the flip-flop is on both nets
  have c1 := hwf.2.1 o1 (nets_find_some a3).1 { cell := D1.name, port := "D" }
    (by rw [a5]; exact List.mem_singleton.mpr rfl)
  have c2 := hwf.2.1 o2 (nets_find_some b3).1 { cell := D1.name, port := "D" }
    (by rw [b5]; exact List.mem_singleton.mpr rfl)
  obtain ⟨ci1, q1, e1, e2, e3⟩ := connected_iff.mp c1
  obtain ⟨ci2, q2, f1, f2, f3⟩ := connected_iff.mp c2
  simp only at e1 e2 e3 f1 f2 f3
  rw [e1] at f1
  have hci : ci1 = ci2 := Option.some.inj f1
  subst hci
  rw [e2] at f2
  have hq : q1 = q2 := Except.ok.inj f2
  subst hq
  rw [e3] at f3
  have hname : o1.name = o2.name := Option.some.inj f3
  have hoo : o1 = o2 := by
    rw [hname, b3] at a3
    exact (Option.some.inj a3).symm
  subst hoo
  have d1 := lut_is_driver hwf hL1 a1 a2 a3 a5
  have d2 := lut_is_driver hwf hL2 b1 b2 b3 b5
  rw [d1] at d2
  simp only [Option.some.injEq, PortRef.mk.injEq, and_true] at d2
  exact ⟨mem_of_nodup_name hwf.1 hL1 hL2 d2, rfl, rfl⟩

theorem lut_new_cell_config_alone {is_ff : CellInfo → Bool} {g : Design} {ci : CellInfo}
    (h : found_dff is_ff g ci = none) :
    (lut_new_cell is_ff g ci).config
      = [{ kind := .lut, source := ci.name, standalone := true }] := by
  unfold lut_new_cell
  rw [h]
  simp [packed_lut, lut_to_lc, new_lc]

/-- C13: in a well-formed design no flip-flop is packed with two LUTs.  If
`find_dff` accepts the flip-flop `D` for the LUT `L1` and for the LUT `L2`, then
`L1` and `L2` are the same cell, with the same net; and among the cells that
the scan of `pack_lut_lutffs` queues, at most one is configured from the
flip-flop named `d`. -/
theorem one_lut_per_flip_flop (is_lut is_ff : CellInfo → Bool) (g : Design)
    (hwf : well_formed g) :
    (∀ (L1 L2 D : CellInfo) (o1 o2 : NetInfo), L1 ∈ g.cells → L2 ∈ g.cells →
        find_dff is_ff g L1 = .ok (some (o1, D)) → find_dff is_ff g L2 = .ok (some (o2, D)) →
        L1 = L2 ∧ o1 = o2)
    ∧ (∀ st, pack_lut_lutffs_scan is_lut is_ff g = .ok st →
        ∀ c1 ∈ st.new_cells, ∀ c2 ∈ st.new_cells, ∀ d : String,
          ({ kind := .dff, source := d, standalone := false } : ConfigCall) ∈ c1.config →
          ({ kind := .dff, source := d, standalone := false } : ConfigCall) ∈ c2.config →
          c1 = c2) := by
  constructor
  · intro L1 L2 D o1 o2 hL1 hL2 h1 h2
    obtain ⟨e1, e2, _⟩ := find_dff_injective hwf hL1 hL2 h1 h2 rfl
    exact ⟨e1, e2⟩
  · intro st h c1 hc1 c2 hc2 d hd1 hd2
    unfold pack_lut_lutffs_scan at h
    obtain ⟨_, _, _, i4, _⟩ := pack_lut_lutffs_fold_ok g.cells _ st h
    rw [i4, List.nil_append] at hc1 hc2
    obtain ⟨La, hLa, ea⟩ := List.mem_map.mp hc1
    obtain ⟨Lb, hLb, eb⟩ := List.mem_map.mp hc2
    have key : ∀ (L : CellInfo),
        ({ kind := .dff, source := d, standalone := false } : ConfigCall)
          ∈ (lut_new_cell is_ff g L).config →
        ∃ o D, find_dff is_ff g L = .ok (some (o, D)) ∧ D.name = d := by
      intro L hm
      cases hf : found_dff is_ff g L with
      | none =>
        rw [lut_new_cell_config_alone hf] at hm
        simp at hm
      | some m =>
        obtain ⟨o, D⟩ := m
        rw [lut_new_cell_config_pair hf] at hm
        simp only [List.mem_cons, ConfigCall.mk.injEq, List.mem_singleton, List.not_mem_nil,
          or_false] at hm
        rcases hm with hm | hm
        · exact absurd hm.1 (by decide)
        · exact ⟨o, D, found_dff_some hf, hm.2.1.symm⟩
    rw [← ea] at hd1
    rw [← eb] at hd2
    obtain ⟨oa, Da, fa, na⟩ := key La hd1
    obtain ⟨ob, Db, fb, nb⟩ := key Lb hd2
    obtain ⟨e1, _, _⟩ := find_dff_injective hwf (List.mem_filter.mp hLa).1
      (List.mem_filter.mp hLb).1 fa fb (na.trans nb.symm)
    rw [← ea, ← eb, e1]

/-- Scenario of `ex_enable`: the design is well formed, and `find_dff` accepts
the flip-flop `f0` for the LUT `l1`. -/
theorem one_lut_per_flip_flop_witness :
    well_formed ex_enable
    ∧ find_dff ex_is_ff ex_enable ex_l1 = .ok (some (ex_n1, ex_f0_enable))
    ∧ (ex_l1 = ex_l1 ∧ ex_n1 = ex_n1) :=
  ⟨by decide, by decide,
   (one_lut_per_flip_flop ex_is_lut ex_is_ff ex_enable (by decide)).1 ex_l1 ex_l1 ex_f0_enable
     ex_n1 ex_n1 (by decide) (by decide) (by decide) (by decide)⟩

/-! ## The nets after packing -/

theorem mem_foldl_nets_erase {names : List String} {nets : List NetInfo} {m : NetInfo} :
    m ∈ names.foldl nets_erase nets ↔ m ∈ nets ∧ m.name ∉ names := by
  induction names generalizing nets with
  | nil => simp
  | cons x rest ih =>
    rw [List.foldl_cons, ih]
    simp only [nets_erase, List.mem_filter, Bool.not_eq_true', decide_eq_false_iff_not,
      List.mem_cons, not_or]
    tauto

/-- The nets after `pack_lut_lutffs`: those of the design on entry whose name is
not the name of the net of a packed pair. -/
theorem pack_lut_lutffs_nets_mem {is_lut is_ff : CellInfo → Bool} {g g2 : Design}
    (h : pack_lut_lutffs is_lut is_ff g = .ok g2) (m : NetInfo) :
    m ∈ g2.nets
      ↔ m ∈ g.nets ∧ ¬ ∃ L ∈ g.cells, is_lut L = true
          ∧ ∃ o F, find_dff is_ff g L = .ok (some (o, F)) ∧ o.name = m.name := by
  obtain ⟨_, hn, _⟩ := pack_lut_lutffs_ok h
  rw [hn, mem_foldl_nets_erase]
  apply and_congr_right
  intro _
  apply not_congr
  constructor
  · intro hm
    obtain ⟨L, hL, he⟩ := List.mem_filterMap.mp hm
    unfold lut_erased_net at he
    cases hf : found_dff is_ff g L with
    | none => simp [hf] at he
    | some r =>
      obtain ⟨o, F⟩ := r
      simp only [hf, Option.map_some', Option.some.injEq] at he
      exact ⟨L, (List.mem_filter.mp hL).1, (List.mem_filter.mp hL).2, o, F,
        found_dff_some hf, he⟩
  · rintro ⟨L, hL, hl, o, F, hf, he⟩
    apply List.mem_filterMap.mpr
    refine ⟨L, List.mem_filter.mpr ⟨hL, hl⟩, ?_⟩
    simp [lut_erased_net, found_dff_of_find hf, he]

theorem pack_constants_net_names {g g1 : Design} (h : pack_constants g = .ok g1) :
    g1.nets.map NetInfo.name = g.nets.map NetInfo.name := by
  obtain ⟨_, _, hn, _⟩ := pack_constants_ok h
  rw [hn, List.map_map]
  apply List.map_congr_left
  intro ni _
  exact (rewired_name g ni).1

/-- In a design that was well formed before `pack_constants`, the output net of a
LUT is erased by `pack_lut_lutffs` exactly when that LUT is packed with a
flip-flop. -/
theorem lut_net_erased_iff {is_lut is_ff : CellInfo → Bool} {g g1 g2 : Design}
    (hwf : well_formed g) (h1 : pack_constants g = .ok g1)
    (h2 : pack_lut_lutffs is_lut is_ff g1 = .ok g2) {L : CellInfo} {q : PortInfo}
    {n : NetInfo} (hL : L ∈ g1.cells) (hl : is_lut L = true) (hq : ports_at L "O" = .ok q)
    (hqn : q.net = some n.name) (hn : nets_find g1.nets n.name = some n) :
    nets_find g2.nets n.name = none ↔ ∃ F, find_dff is_ff g1 L = .ok (some (n, F)) := by
  constructor
  · intro hgone
    have hnot : ¬ n ∈ g2.nets := fun hm => nets_find_none.mp hgone n hm rfl
    rw [pack_lut_lutffs_nets_mem h2] at hnot
    have hex : ∃ L2 ∈ g1.cells, is_lut L2 = true
        ∧ ∃ o F, find_dff is_ff g1 L2 = .ok (some (o, F)) ∧ o.name = n.name := by
      by_contra hc
      exact hnot ⟨(nets_find_some hn).1, hc⟩
    obtain ⟨L2, hL2, _, o, F, hf, hon⟩ := hex
    obtain ⟨p2, a1, a2, a3, _, a5, _, _, _⟩ := find_dff_some.mp hf
    have hoe : o = n := by
      rw [hon, hn] at a3
      exact (Option.some.inj a3).symm
    subst hoe
    -- both LUTs are cells of the design before `pack_constants`
    have hin : ∀ (X : CellInfo) (x : PortInfo), X ∈ g1.cells → ports_at X "O" = .ok x →
        X ∈ g.cells := by
      intro X x hX hx
      rcases pack_constants_mem_cases h1 hX with hh | hh | hh
      · exact hh
      · subst hh; exact absurd hx ports_at_const.1
      · subst hh; exact absurd hx ports_at_const.2
    have hLg := hin L q hL hq
    have hL2g := hin L2 p2 hL2 a1
    -- the net before `pack_constants`
    rw [pack_constants_nets_find h1] at hn
    cases hn0 : nets_find g.nets o.name with
    | none => simp [hn0] at hn
    | some n0 =>
      simp only [hn0, Option.map_some', Option.some.injEq] at hn
      have hname : n0.name = o.name := by rw [← hn]; exact ((rewired_name g n0).1).symm
      have husers : n0.users = [{ cell := F.name, port := "D" }] := by
        rw [← a5, ← hn]; exact ((rewired_name g n0).2.1).symm
      rw [← hname] at hn0 hqn a2
      have d1 := lut_is_driver hwf hLg hq hqn hn0 husers
      have d2 := lut_is_driver hwf hL2g a1 a2 hn0 husers
      rw [d1] at d2
      simp only [Option.some.injEq, PortRef.mk.injEq, and_true] at d2
      have hLL := mem_of_nodup_name hwf.1 hLg hL2g d2
      subst hLL
      exact ⟨F, hf⟩
  · rintro ⟨F, hf⟩
    rw [pack_lut_lutffs_nets_find h2, if_pos]
    exact List.mem_filterMap.mpr ⟨L, List.mem_filter.mpr ⟨hL, hl⟩,
      by simp [lut_erased_net, found_dff_of_find hf]⟩

/-- C16: the nets after `pack_design` of a well-formed design are the nets
before it, without the output nets of the LUTs that are packed with a
flip-flop.  `pack_constants` keeps every net in its place under its name,
`pack_nonlut_ffs` leaves the nets as they are, `pack_lut_lutffs` adds no net
and erases the output net of a LUT exactly when it packs that LUT with a
flip-flop.  (The LUTs and their nets are those on entry to `pack_lut_lutffs`,
where `pack_constants` may have changed the driver of a net.) -/
theorem nets_after_pack_design (is_lut is_ff : CellInfo → Bool) (g g3 : Design)
    (hwf : well_formed g) (h : pack_design is_lut is_ff g = .ok g3) :
    ∃ g1 g2, pack_constants g = .ok g1 ∧ pack_lut_lutffs is_lut is_ff g1 = .ok g2
      ∧ pack_nonlut_ffs is_ff g2 = .ok g3
      ∧ g1.nets.map NetInfo.name = g.nets.map NetInfo.name
      ∧ g3.nets = g2.nets
      ∧ (∀ m, m ∈ g3.nets
          ↔ m ∈ g1.nets ∧ ¬ ∃ L ∈ g1.cells, is_lut L = true
              ∧ ∃ o F, find_dff is_ff g1 L = .ok (some (o, F)) ∧ o.name = m.name)
      ∧ (∀ L ∈ g1.cells, is_lut L = true → ∀ (q : PortInfo) (n : NetInfo),
          ports_at L "O" = .ok q → q.net = some n.name → nets_find g1.nets n.name = some n →
          (nets_find g3.nets n.name = none ↔ ∃ F, find_dff is_ff g1 L = .ok (some (n, F)))) := by
  obtain ⟨g1, g2, h1, h2, h3⟩ := pack_design_ok h
  obtain ⟨_, hn3, _⟩ := pack_nonlut_ffs_ok h3
  refine ⟨g1, g2, h1, h2, h3, pack_constants_net_names h1, hn3, ?_, ?_⟩
  · intro m
    rw [hn3]
    exact pack_lut_lutffs_nets_mem h2 m
  · intro L hL hl q n hq hqn hn
    rw [hn3]
    exact lut_net_erased_iff hwf h1 h2 hL hl hq hqn hn

/-- The design `ex_gated` is well formed; `pack_design` erases the net `n0`
between `l0` and `f0`, which are packed together, and keeps the net `n1`. -/
theorem nets_after_pack_design_witness :
    well_formed ex_gated
    ∧ pack_design ex_is_lut ex_is_ff ex_gated = .ok ex_gated_packed
    ∧ ∃ g1 g2, pack_constants ex_gated = .ok g1 ∧ pack_lut_lutffs ex_is_lut ex_is_ff g1 = .ok g2
        ∧ pack_nonlut_ffs ex_is_ff g2 = .ok ex_gated_packed
        ∧ g1.nets.map NetInfo.name = ex_gated.nets.map NetInfo.name
        ∧ ex_gated_packed.nets = g2.nets
        ∧ (∀ m, m ∈ ex_gated_packed.nets
            ↔ m ∈ g1.nets ∧ ¬ ∃ L ∈ g1.cells, ex_is_lut L = true
                ∧ ∃ o F, find_dff ex_is_ff g1 L = .ok (some (o, F)) ∧ o.name = m.name)
        ∧ (∀ L ∈ g1.cells, ex_is_lut L = true → ∀ (q : PortInfo) (n : NetInfo),
            ports_at L "O" = .ok q → q.net = some n.name → nets_find g1.nets n.name = some n →
            (nets_find ex_gated_packed.nets n.name = none
              ↔ ∃ F, find_dff ex_is_ff g1 L = .ok (some (n, F)))) :=
  ⟨by decide, by decide,
   nets_after_pack_design ex_is_lut ex_is_ff ex_gated ex_gated_packed (by decide) (by decide)⟩

/-! ## The order of the scan -/

theorem cells_find_perm {l l1 : List CellInfo} (hnd : (l.map CellInfo.name).Nodup)
    (hp : l1.Perm l) (x : String) : cells_find l1 x = cells_find l x := by
  have hnd1 : (l1.map CellInfo.name).Nodup := (hp.map CellInfo.name).nodup_iff.mpr hnd
  cases hf : cells_find l x with
  | none =>
    rw [cells_find_none] at hf ⊢
    intro c hc
    exact hf c (hp.subset hc)
  | some c =>
    obtain ⟨hc, hn⟩ := cells_find_some hf
    rw [← hn]
    exact cells_find_of_mem hnd1 (hp.symm.subset hc)

theorem resolve_users_congr {g g1 : Design}
    (hc : ∀ x, cells_find g1.cells x = cells_find g.cells x) (us : List PortRef) :
    resolve_users g1 us = resolve_users g us := by
  induction us with
  | nil => rfl
  | cons u rest ih => simp only [resolve_users, resolve_cell, hc, ih]

theorem net_only_drives_congr {g g1 : Design}
    (hc : ∀ x, cells_find g1.cells x = cells_find g.cells x) (net : Option NetInfo)
    (pred : CellInfo → Bool) (port : String) (excl : Bool) :
    net_only_drives g1 net pred port excl = net_only_drives g net pred port excl := by
  unfold net_only_drives
  cases net with
  | none => rfl
  | some n => simp only [resolve_users_congr hc]

theorem resolve_net_congr {g g1 : Design} (hn : g1.nets = g.nets) (x : Option String) :
    resolve_net g1 x = resolve_net g x := by
  cases x with
  | none => rfl
  | some nm => simp only [resolve_net, hn]

/-- The flip-flop found for a LUT depends on the design through its lookups
only. -/
theorem find_dff_congr {is_ff : CellInfo → Bool} {g g1 : Design}
    (hc : ∀ x, cells_find g1.cells x = cells_find g.cells x) (hn : g1.nets = g.nets)
    (ci : CellInfo) : find_dff is_ff g1 ci = find_dff is_ff g ci := by
  unfold find_dff
  cases ports_at ci "O" with
  | error e => rfl
  | ok p =>
    simp only [resolve_net_congr hn]
    cases resolve_net g p.net with
    | error e => rfl
    | ok o => simp only [net_only_drives_congr hc]

theorem mem_foldl_cells_set_iff {new base : List CellInfo} {c : CellInfo}
    (hnd : (new.map CellInfo.name).Nodup) :
    c ∈ new.foldl cells_set base
      ↔ c ∈ new ∨ (c ∈ base ∧ c.name ∉ new.map CellInfo.name) := by
  induction new generalizing base with
  | nil => simp
  | cons x rest ih =>
    simp only [List.map_cons, List.nodup_cons] at hnd
    rw [List.foldl_cons, ih hnd.2, mem_cells_set]
    simp only [List.mem_cons, List.map_cons, not_or]
    constructor
    · rintro (h | ⟨h | h, hn⟩)
      · exact Or.inl (Or.inr h)
      · exact Or.inr ⟨h.1, h.2, hn⟩
      · exact Or.inl (Or.inl h)
    · rintro ((h | h) | ⟨h1, h2, h3⟩)
      · subst h
        exact Or.inr ⟨Or.inr rfl, hnd.1⟩
      · exact Or.inl h
      · exact Or.inr ⟨Or.inl ⟨h1, h2⟩, h3⟩

theorem foldl_nets_erase_eq_filter (names : List String) (nets : List NetInfo) :
    names.foldl nets_erase nets = nets.filter (fun m => decide (m.name ∉ names)) := by
  induction names generalizing nets with
  | nil => simp
  | cons x rest ih =>
    rw [List.foldl_cons, ih, nets_erase, List.filter_filter]
    apply List.filter_congr
    intro m _
    by_cases h1 : m.name = x <;> by_cases h2 : m.name ∈ rest <;> simp [h1, h2]

theorem lut_new_names_nodup {is_lut is_ff : CellInfo → Bool} {g : Design}
    (hnd : (g.cells.map CellInfo.name).Nodup) :
    (((g.cells.filter is_lut).map (lut_new_cell is_ff g)).map CellInfo.name).Nodup := by
  rw [List.map_map]
  have h1 : ((g.cells.filter is_lut).map CellInfo.name).Nodup :=
    List.Nodup.sublist (List.Sublist.map _ (List.filter_sublist _)) hnd
  have h2 : (g.cells.filter is_lut).map (CellInfo.name ∘ lut_new_cell is_ff g)
      = ((g.cells.filter is_lut).map CellInfo.name).map (fun s => s ++ "_LC") := by
    rw [List.map_map]
    apply List.map_congr_left
    intro ci _
    exact (lut_new_cell_name is_ff g ci).1
  rw [h2]
  exact List.Nodup.map (fun a b hab => append_right_cancel hab) h1

/-- C14: the outcome of `pack_lut_lutffs` does not depend on the order in which
the cells are enumerated.  Let `g1` be a design with the nets of `g` and with
the cells of `g`, which have distinct names, in another order.  The flip-flop
found for a cell is the same in both, as it is looked up in the design on
entry; the same pairs are packed; if the scan of `g` returns, so does the scan
of `g1`, with the same packed names, the same new cells and the same nets
left; `pack_lut_lutffs` returns designs with the same cells and the same
nets; and the new cells and packed names of a scan are those that `find_dff`
gives for each LUT in the design on entry. -/
theorem scan_order_irrelevant (is_lut is_ff : CellInfo → Bool) (g g1 : Design)
    (hnd : (g.cells.map CellInfo.name).Nodup) (hperm : g1.cells.Perm g.cells)
    (hnets : g1.nets = g.nets) :
    (∀ ci, find_dff is_ff g1 ci = find_dff is_ff g ci)
    ∧ (∀ L o F, (L ∈ g1.cells ∧ is_lut L = true ∧ find_dff is_ff g1 L = .ok (some (o, F)))
        ↔ (L ∈ g.cells ∧ is_lut L = true ∧ find_dff is_ff g L = .ok (some (o, F))))
    ∧ (∀ st, pack_lut_lutffs_scan is_lut is_ff g = .ok st →
        ∃ st1, pack_lut_lutffs_scan is_lut is_ff g1 = .ok st1
          ∧ (∀ x, x ∈ st1.packed_cells ↔ x ∈ st.packed_cells)
          ∧ (∀ c, c ∈ st1.new_cells ↔ c ∈ st.new_cells)
          ∧ st1.design.nets = st.design.nets)
    ∧ (∀ g2, pack_lut_lutffs is_lut is_ff g = .ok g2 →
        ∃ g3, pack_lut_lutffs is_lut is_ff g1 = .ok g3
          ∧ (∀ c, c ∈ g3.cells ↔ c ∈ g2.cells) ∧ g3.nets = g2.nets)
    ∧ (∀ st, pack_lut_lutffs_scan is_lut is_ff g = .ok st →
        (∀ c, c ∈ st.new_cells
          ↔ ∃ L, (L ∈ g.cells ∧ is_lut L = true) ∧ lut_new_cell is_ff g L = c)
        ∧ (∀ x, x ∈ st.packed_cells
          ↔ ∃ L, (L ∈ g.cells ∧ is_lut L = true) ∧ x ∈ lut_packed_names is_ff g L)) := by
  have hc : ∀ x, cells_find g1.cells x = cells_find g.cells x := cells_find_perm hnd hperm
  have hfind : ∀ ci, find_dff is_ff g1 ci = find_dff is_ff g ci := find_dff_congr hc hnets
  have hnd1 : (g1.cells.map CellInfo.name).Nodup :=
    (hperm.map CellInfo.name).nodup_iff.mpr hnd
  have hfound : found_dff is_ff g1 = found_dff is_ff g := by
    funext ci; simp only [found_dff, hfind]
  have hnew : lut_new_cell is_ff g1 = lut_new_cell is_ff g := by
    funext ci; simp only [lut_new_cell, hfound]
  have hnames : lut_packed_names is_ff g1 = lut_packed_names is_ff g := by
    funext ci; simp only [lut_packed_names, hfound]
  have hnet : lut_erased_net is_ff g1 = lut_erased_net is_ff g := by
    funext ci; simp only [lut_erased_net, hfound]
  have hluts : (g1.cells.filter is_lut).Perm (g.cells.filter is_lut) := hperm.filter _
  have hmnew : ∀ c, c ∈ (g1.cells.filter is_lut).map (lut_new_cell is_ff g1)
      ↔ c ∈ (g.cells.filter is_lut).map (lut_new_cell is_ff g) := by
    intro c; rw [hnew]; exact (hluts.map _).mem_iff
  have hmnames : ∀ x, x ∈ (g1.cells.filter is_lut).flatMap (lut_packed_names is_ff g1)
      ↔ x ∈ (g.cells.filter is_lut).flatMap (lut_packed_names is_ff g) := by
    intro x
    rw [hnames, List.mem_flatMap, List.mem_flatMap]
    constructor
    · rintro ⟨a, ha, hx⟩; exact ⟨a, hluts.mem_iff.mp ha, hx⟩
    · rintro ⟨a, ha, hx⟩; exact ⟨a, hluts.mem_iff.mpr ha, hx⟩
  have hmnet : ∀ x, x ∈ (g1.cells.filter is_lut).filterMap (lut_erased_net is_ff g1)
      ↔ x ∈ (g.cells.filter is_lut).filterMap (lut_erased_net is_ff g) := by
    intro x
    rw [hnet, List.mem_filterMap, List.mem_filterMap]
    constructor
    · rintro ⟨a, ha, hx⟩; exact ⟨a, hluts.mem_iff.mp ha, hx⟩
    · rintro ⟨a, ha, hx⟩; exact ⟨a, hluts.mem_iff.mpr ha, hx⟩
  have hnetseq : ((g1.cells.filter is_lut).filterMap (lut_erased_net is_ff g1)).foldl nets_erase
        g1.nets
      = ((g.cells.filter is_lut).filterMap (lut_erased_net is_ff g)).foldl nets_erase g.nets := by
    rw [foldl_nets_erase_eq_filter, foldl_nets_erase_eq_filter, hnets]
    apply List.filter_congr
    intro m _
    simp only [hmnet]
  have hsucc : (∀ ci ∈ g.cells, is_lut ci = true →
        cells_find g.cells (ci.name ++ "_LC") = none
          ∧ ∃ found, find_dff is_ff g ci = .ok found) →
      (∀ ci ∈ g1.cells, is_lut ci = true →
        cells_find g1.cells (ci.name ++ "_LC") = none
          ∧ ∃ found, find_dff is_ff g1 ci = .ok found) := by
    intro hok ci hci hl
    rw [hc, hfind]
    exact hok ci (hperm.subset hci) hl
  refine ⟨hfind, ?_, ?_, ?_, ?_⟩
  · intro L o F
    rw [hfind, hperm.mem_iff]
  · intro st h
    unfold pack_lut_lutffs_scan at h
    obtain ⟨_, i2, i3, i4, i5⟩ := pack_lut_lutffs_fold_ok g.cells _ st h
    obtain ⟨st1, h1⟩ := @pack_lut_lutffs_fold_succeeds is_lut is_ff g1 g1.cells
      { design := g1, packed_cells := [], new_cells := [] } (hsucc i5)
    obtain ⟨_, j2, j3, j4, _⟩ := pack_lut_lutffs_fold_ok g1.cells _ st1 h1
    refine ⟨st1, h1, ?_, ?_, ?_⟩
    · intro x
      rw [i3, j3, List.nil_append, List.nil_append]
      exact hmnames x
    · intro c
      rw [i4, j4, List.nil_append, List.nil_append]
      exact hmnew c
    · rw [i2, j2]
      exact hnetseq
  · intro g2 h
    obtain ⟨e1, e2, e3⟩ := pack_lut_lutffs_ok h
    obtain ⟨g3, h3⟩ := @pack_lut_lutffs_succeeds is_lut is_ff g1 (hsucc e3)
    obtain ⟨f1, f2, _⟩ := pack_lut_lutffs_ok h3
    refine ⟨g3, h3, ?_, ?_⟩
    · intro c
      rw [e1, f1, mem_foldl_cells_set_iff (lut_new_names_nodup hnd),
        mem_foldl_cells_set_iff (lut_new_names_nodup hnd1), mem_foldl_cells_erase,
        mem_foldl_cells_erase, hmnew, hmnames, hperm.mem_iff]
      have hn : c.name ∈ ((g1.cells.filter is_lut).map (lut_new_cell is_ff g1)).map CellInfo.name
          ↔ c.name ∈ ((g.cells.filter is_lut).map (lut_new_cell is_ff g)).map CellInfo.name := by
        rw [hnew]
        exact ((hluts.map _).map _).mem_iff
      rw [hn]
    · rw [e2, f2]
      exact hnetseq
  · intro st h
    unfold pack_lut_lutffs_scan at h
    obtain ⟨_, _, i3, i4, _⟩ := pack_lut_lutffs_fold_ok g.cells _ st h
    constructor
    · intro c
      rw [i4, List.nil_append, List.mem_map]
      simp only [List.mem_filter]
    · intro x
      rw [i3, List.nil_append, List.mem_flatMap]
      simp only [List.mem_filter]

/-- The design `ex_enable` scanned in the order `l0`, `l1`, `f0` and in the
order `f0`, `l1`, `l0`: `pack_lut_lutffs` returns the same cells and nets. -/
theorem scan_order_irrelevant_witness :
    pack_lut_lutffs ex_is_lut ex_is_ff ex_enable = .ok ex_enable_luts
    ∧ ∃ g3, pack_lut_lutffs ex_is_lut ex_is_ff ex_enable_reordered = .ok g3
        ∧ (∀ c, c ∈ g3.cells ↔ c ∈ ex_enable_luts.cells) ∧ g3.nets = ex_enable_luts.nets :=
  ⟨by decide,
   (scan_order_irrelevant ex_is_lut ex_is_ff ex_enable ex_enable_reordered (by decide)
      (by decide) (by decide)).2.2.2.1 ex_enable_luts (by decide)⟩

/-! ## A second run -/

end Pack
